import Mathlib

/-!
# EMotionFX `BlendSpace1DNode`: the blend-space evaluation core

A shallow embedding of the evaluation core of
`dev/Gems/EMotionFX/Code/EMotionFX/Source/BlendSpace1DNode.cpp`: the range
accessors and `Reset` of `UniqueData`, `SortMotionInstances`,
`FindLineSegmentForCurrentPoint`, `UpdateBlendingInfoForCurrentPoint`, the
rebuild `UpdateMotionInfos` with `UpdateMotionPositions`,
`ComputeMotionCoordinates`, `GetCurrentSamplePosition`, `Update` and `Output`.

The core is embedded twice.

* `EMotionFX.BlendSpace1DNode` has every function, with `float` values
  (coordinates, the query position, weights, times) as exact rationals `ℚ`. It
  carries the statements about control flow, indices, lengths, the rebuild, the
  timing and the pose pool: what they say of a `float` is only how finite
  numbers compare, which rounding does not change.
* `EMotionFX.SinglePrecision` has the functions that compute with `float`
  (`SortMotionInstances`, `FindLineSegmentForCurrentPoint`,
  `UpdateBlendingInfoForCurrentPoint`, `GetCurrentSamplePosition`) over the
  IEEE 754 binary32 values of `IEEE.Binary32`: every operation rounds to
  nearest, ties to even, overflows to an infinity, and a NaN makes every
  comparison false. It carries the statements whose truth depends on rounding,
  overflow or NaN: the order of the sorted coordinates, the conditions for "no
  segment", the range of the fraction, the sum of the weights, the weighted
  coordinate sum and the default query position.

Modelling conventions.

* `AZStd::vector<T>` is `List T`. A read `v[k]` is `v.getD k 0`: inside the
  bounds it is the element, outside (undefined behaviour in the source) it is 0.
  Statements that depend on a read being in bounds say so with `[k]?`,
  `head?` or `getLast?`.
* `AZ::u16` and `AZ::u32` values are `Nat`; a narrowing conversion is written
  with an explicit `%`.
* A member function that mutates `UniqueData&` is a function returning the new
  `UniqueData` (paired with the return value when there is one).
* Pointers to engine objects (actor instance, motion, motion instance, sync
  track, scratch pose) are opaque numbers, `none` is a null pointer. Code of the
  engine that is not among the sources is a parameter (`Collaborators`, the
  motion set, the evaluator, the lookup `FindMotionIndexByMotionId`) or a
  definition whose comment says so.
-/

namespace AZStd

/-- Modelled from the spec: `AZStd::sort` (AzCore/std/sort.h is not among the
sources). The spec calls it a "stable, comparator-based sort"; `insertSorted`
puts `x` into an already sorted list, after every element that the comparator
`lt` places before `x` and before the first one it does not. -/
def insertSorted {α : Type} (lt : α → α → Bool) (x : α) : List α → List α
  | [] => [x]
  | y :: ys => if lt y x then y :: insertSorted lt x ys else x :: y :: ys

/-- Modelled from the spec: `AZStd::sort(first, last, comp)` (AzCore/std/sort.h
is not among the sources), a "stable, comparator-based sort": insertion sort
driven by the strict comparator `lt`. -/
def sort {α : Type} (lt : α → α → Bool) : List α → List α
  | [] => []
  | x :: xs => insertSorted lt x (sort lt xs)

end AZStd

namespace AZ

/-- Modelled from the spec: `AZ::IsClose(a, b, tolerance)` (AzCore/Math is not
among the sources). The spec describes the overlap test as "differ by less than
1e-4", so the helper is the strict comparison of the distance with the
tolerance. -/
def IsClose (a b tolerance : ℚ) : Bool :=
  decide (|a - b| < tolerance)

end AZ

namespace EMotionFX

/-- The macro `MCORE_INVALIDINDEX32` of MCore (its header is not among the
sources): the largest `AZ::u32`, `0xFFFFFFFF`, which the node stores in
`m_segmentIndex` for "no segment". -/
def MCORE_INVALIDINDEX32 : Nat := 4294967295

/-- Modelled from the spec: `BlendSpaceNode::MotionInfo` (declared in
BlendSpaceNode.h, not among the sources): "motion instance handle, current
time, sync index, pre-sync time, play speed", with the sync track that
`Update` copies. Handles are opaque numbers, `none` is a null pointer. -/
structure MotionInfo where
  m_motionInstance : Option Nat
  m_syncTrack : Option Nat
  m_syncIndex : Nat
  m_playSpeed : ℚ
  m_currentTime : ℚ
  m_preSyncTime : ℚ
  deriving DecidableEq, Repr

/-- The pair `BlendSpaceNode::BlendInfo`: a motion index (`AZ::u32`) and its
blend weight. -/
structure BlendInfo where
  m_motionIndex : Nat
  m_weight : ℚ
  deriving DecidableEq, Repr

/-- The member `m_currentSegment` of `UniqueData`: the index of the segment
start in the sorted order (`MCORE_INVALIDINDEX32` for "no segment") and the
fraction towards the segment end. -/
structure CurrentSegmentInfo where
  m_segmentIndex : Nat
  m_weightForSegmentEnd : ℚ
  deriving DecidableEq, Repr

namespace BlendSpace1DNode

/-- The per-instance cache `BlendSpace1DNode::UniqueData`, with the members
that the evaluation reads and writes. -/
structure UniqueData where
  m_motionInfos : List MotionInfo
  m_allMotionsHaveSyncTracks : Bool
  m_motionCoordinates : List ℚ
  m_sortedMotions : List Nat
  m_currentPosition : ℚ
  m_masterMotionIdx : Nat
  m_hasOverlappingCoordinates : Bool
  m_currentSegment : CurrentSegmentInfo
  m_blendInfos : List BlendInfo
  deriving DecidableEq, Repr

namespace UniqueData

/-- `UniqueData::GetRangeMin`:
`m_sortedMotions.empty() ? 0.0f : m_motionCoordinates[m_sortedMotions.front()]`. -/
def GetRangeMin (d : UniqueData) : ℚ :=
  if d.m_sortedMotions.isEmpty then 0
  else d.m_motionCoordinates.getD (d.m_sortedMotions.headD 0) 0

/-- `UniqueData::GetRangeMax`:
`m_sortedMotions.empty() ? 0.0f : m_motionCoordinates[m_sortedMotions.back()]`. -/
def GetRangeMax (d : UniqueData) : ℚ :=
  if d.m_sortedMotions.isEmpty then 0
  else d.m_motionCoordinates.getD (d.m_sortedMotions.getLastD 0) 0

/-- The expression `m_motionCoordinates[m_sortedMotions[i]]` that the source
uses to read a coordinate through the sorted order. -/
def sortedCoordinate (d : UniqueData) (i : Nat) : ℚ :=
  d.m_motionCoordinates.getD (d.m_sortedMotions.getD i 0) 0

/-- The same read `m_motionCoordinates[m_sortedMotions[i]]`, defined only when
both subscripts are inside their vectors. -/
def sortedCoordinate? (d : UniqueData) (i : Nat) : Option ℚ :=
  match d.m_sortedMotions[i]? with
  | some k => d.m_motionCoordinates[k]?
  | none => none

end UniqueData

/-- The assignment `uniqueData.m_currentSegment.m_segmentIndex =
MCORE_INVALIDINDEX32`, which leaves `m_weightForSegmentEnd` and every other
member as they are. -/
def UniqueData.invalidateSegment (d : UniqueData) : UniqueData :=
  { d with
    m_currentSegment := { d.m_currentSegment with m_segmentIndex := MCORE_INVALIDINDEX32 } }

/-- The anonymous-namespace class `MotionSortComparer`:
`operator()(a, b)` is `m_motionCoordinates[a] < m_motionCoordinates[b]`. -/
def MotionSortComparer (motionCoordinates : List ℚ) (a b : Nat) : Bool :=
  decide (motionCoordinates.getD a 0 < motionCoordinates.getD b 0)

/-- The conversion `aznumeric_caster` into the `AZ::u16` variable `numMotions`
of `SortMotionInstances` (AzCore/Casting/numeric_cast.h is not among the
sources). A count that fits is kept; one that does not is narrowed to its low
16 bits, as a `static_cast` does. Whatever the cast does with such a count, the
variable it initialises is an `AZ::u16` and so holds a value below 65536. -/
def aznumeric_caster_u16 (n : Nat) : Nat := n % 65536

/-- The overlap loop of `SortMotionInstances`,
`for (AZ::u32 i = 1; i < numMotions; ++i)`, entered at index `i` with
`remaining` iterations to go: `true` at the first adjacent pair of the sorted
order whose coordinates `AZ::IsClose` accepts with tolerance `0.0001f`. -/
def overlapLoop (motionCoordinates : List ℚ) (sortedMotions : List Nat) :
    Nat → Nat → Bool
  | _, 0 => false
  | i, remaining + 1 =>
    let motionA := sortedMotions.getD (i - 1) 0
    let motionB := sortedMotions.getD i 0
    if AZ.IsClose (motionCoordinates.getD motionA 0) (motionCoordinates.getD motionB 0)
        (1 / 10000) then true
    else overlapLoop motionCoordinates sortedMotions (i + 1) remaining

/-- `BlendSpace1DNode::SortMotionInstances`: fill `m_sortedMotions` with
`0 .. numMotions - 1`, sort it with `MotionSortComparer`, then recompute
`m_hasOverlappingCoordinates`. -/
def SortMotionInstances (uniqueData : UniqueData) : UniqueData :=
  let numMotions := aznumeric_caster_u16 uniqueData.m_motionCoordinates.length
  let sortedMotions :=
    AZStd.sort (MotionSortComparer uniqueData.m_motionCoordinates) (List.range numMotions)
  { uniqueData with
    m_sortedMotions := sortedMotions
    m_hasOverlappingCoordinates :=
      overlapLoop uniqueData.m_motionCoordinates sortedMotions 1 (numMotions - 1) }

/-- The scan loop of `FindLineSegmentForCurrentPoint`,
`for (AZ::u32 i = 1; i < numPoints; ++i)`, entered at index `i` with
`remaining` iterations to go. It yields the segment written at the first `i`
with `segStart <= m_currentPosition <= segEnd`, or `none` when the loop runs
to its end. -/
def segmentLoop (uniqueData : UniqueData) : Nat → Nat → Option CurrentSegmentInfo
  | _, 0 => none
  | i, remaining + 1 =>
    let segStart := uniqueData.sortedCoordinate (i - 1)
    let segEnd := uniqueData.sortedCoordinate i
    if uniqueData.m_currentPosition ≥ segStart ∧ uniqueData.m_currentPosition ≤ segEnd then
      let segLength := segEnd - segStart
      if segLength ≤ 0 then
        some { m_segmentIndex := i - 1, m_weightForSegmentEnd := 0 }
      else
        some { m_segmentIndex := i - 1
               m_weightForSegmentEnd := (uniqueData.m_currentPosition - segStart) / segLength }
    else segmentLoop uniqueData (i + 1) remaining

/-- `BlendSpace1DNode::FindLineSegmentForCurrentPoint`: the return value and
the updated unique data. `numPoints` is the `(AZ::u32)` cast of the size of
`m_sortedMotions`. When no segment is found, by the guard or by the loop
running to its end, only `m_segmentIndex` is written (to
`MCORE_INVALIDINDEX32`); `m_weightForSegmentEnd` keeps its value. The
`AZ_Assert(segStart <= segEnd, ...)` inside the loop has no effect on the
result and is not part of the model. -/
def FindLineSegmentForCurrentPoint (uniqueData : UniqueData) : Bool × UniqueData :=
  let numPoints := uniqueData.m_sortedMotions.length % 4294967296
  if numPoints < 2 ∨ uniqueData.m_currentPosition < uniqueData.GetRangeMin
      ∨ uniqueData.m_currentPosition > uniqueData.GetRangeMax then
    (false, uniqueData.invalidateSegment)
  else
    match segmentLoop uniqueData 1 (numPoints - 1) with
    | some segment => (true, { uniqueData with m_currentSegment := segment })
    | none => (false, uniqueData.invalidateSegment)

/-- `BlendSpace1DNode::UpdateBlendingInfoForCurrentPoint`. The ordering
`BlendInfo::operator<` used by the final `AZStd::sort` is declared in
BlendSpaceNode.h, which is not among the sources, and is the parameter
`blendInfoLess`. -/
def UpdateBlendingInfoForCurrentPoint (blendInfoLess : BlendInfo → BlendInfo → Bool)
    (uniqueData : UniqueData) : UniqueData :=
  let cleared := uniqueData.invalidateSegment
  let located := (FindLineSegmentForCurrentPoint cleared).2
  let blendInfos : List BlendInfo :=
    if located.m_currentSegment.m_segmentIndex ≠ MCORE_INVALIDINDEX32 then
      let segIndex := located.m_currentSegment.m_segmentIndex
      [ { m_motionIndex := located.m_sortedMotions.getD (segIndex + 0) 0
          m_weight := 1 - located.m_currentSegment.m_weightForSegmentEnd },
        { m_motionIndex := located.m_sortedMotions.getD (segIndex + 1) 0
          m_weight := located.m_currentSegment.m_weightForSegmentEnd } ]
    else if ¬ located.m_motionInfos.isEmpty then
      [ { m_motionIndex :=
            if located.m_currentPosition < located.GetRangeMin
            then located.m_sortedMotions.headD 0
            else located.m_sortedMotions.getLastD 0
          m_weight := 1 } ]
    else []
  { located with m_blendInfos := AZStd.sort blendInfoLess blendInfos }

/-- A motion info as `AddMotionInfo` leaves it for the motion instance with
handle `handle`: no sync track yet, play speed 1, all times 0. -/
def freshMotionInfo (handle : Nat) : MotionInfo :=
  { m_motionInstance := some handle, m_syncTrack := none, m_syncIndex := 0
    m_playSpeed := 1, m_currentTime := 0, m_preSyncTime := 0 }

/-- The unique data that `UpdateMotionInfos` hands to `SortMotionInstances` for
motions placed at `motionCoordinates`, with the query position
`currentPosition`: one motion info per coordinate, nothing sorted, no segment,
no blend entries. -/
def UniqueData.ofCoordinates (motionCoordinates : List ℚ) (currentPosition : ℚ) :
    UniqueData :=
  { m_motionInfos := (List.range motionCoordinates.length).map freshMotionInfo
    m_allMotionsHaveSyncTracks := false
    m_motionCoordinates := motionCoordinates
    m_sortedMotions := []
    m_currentPosition := currentPosition
    m_masterMotionIdx := 0
    m_hasOverlappingCoordinates := false
    m_currentSegment := { m_segmentIndex := MCORE_INVALIDINDEX32, m_weightForSegmentEnd := 0 }
    m_blendInfos := [] }

/-- The example of the spec, motions A, B, C (indices 0, 1, 2) at the
coordinates 0, 1, 2, after `SortMotionInstances`, with the query position
`currentPosition`. -/
def threeMotions (currentPosition : ℚ) : UniqueData :=
  SortMotionInstances (UniqueData.ofCoordinates [0, 1, 2] currentPosition)

/-- An ordering of blend entries "keyed first by weight": the entry with the
larger weight comes first. Used as a sample value of the `blendInfoLess`
parameter. -/
def byWeightDescending (a b : BlendInfo) : Bool :=
  decide (a.m_weight > b.m_weight)

end BlendSpace1DNode

end EMotionFX

namespace AZStd

/-- Modelled from the spec: `AZStd::vector<float>::resize(n)` (AzCore/std is
not among the sources): the first `n` elements are kept and missing ones are
added. The spec calls a coordinate that nothing writes "undefined (zero)", so
an added element is 0. -/
def vector_resize (v : List ℚ) (n : Nat) : List ℚ :=
  v.take n ++ List.replicate (n - v.length) 0

end AZStd

namespace EMotionFX

/-- Modelled from the spec: `BlendSpaceNode::BlendSpaceMotion` (declared in
BlendSpaceNode.h, not among the sources): the entry "identifies a motion by id,
optional user-set coordinate, a flag coordinate set by user, and a validity
flag". `m_xCoordinate` is what `GetXCoordinate()` returns,
`m_userSetCoordinateX` what `IsXCoordinateSetByUser()` returns, and
`m_invalidMotion` the flag `TypeFlags::InvalidMotion`. -/
structure BlendSpaceMotion where
  m_motionId : String
  m_xCoordinate : ℚ
  m_userSetCoordinateX : Bool
  m_invalidMotion : Bool
  deriving DecidableEq, Repr

/-- The enumeration `BlendSpaceNode::ECalculationMethod`. -/
inductive ECalculationMethod where
  | AUTO
  | MANUAL
  deriving DecidableEq, Repr

/-- The enumeration `ESyncMode`; the node only tests for `SYNCMODE_DISABLED`. -/
inductive ESyncMode where
  | SYNCMODE_DISABLED
  | SYNCMODE_TRACKBASED
  | SYNCMODE_CLIPBASED
  deriving DecidableEq, Repr

/-- The interface of `BlendSpaceParamEvaluator` that the node uses:
`IsNullEvaluator()` and `ComputeParamValue(motionInstance)`, the latter on the
handle of the motion instance. -/
structure BlendSpaceParamEvaluator where
  IsNullEvaluator : Bool
  ComputeParamValue : Nat → ℚ

/-- What the node asks of its `AnimGraphInstance`: the actor instance
(`GetActorInstance()`, `none` for a null pointer), the motion set
(`GetMotionSet()`, `none` for a null pointer, otherwise its
`RecursiveFindMotionById` from motion id to motion handle), and the number that
arrives at the input port `INPUTPORT_VALUE` (`none` when nothing is
connected). -/
structure AnimGraphInstance where
  m_actorInstance : Option Nat
  m_motionSet : Option (String → Option Nat)
  m_inputValue : Option ℚ

/-- Modelled from the spec: the timing members of the base class
`AnimGraphNodeData` (not among the sources) that `Update` writes through
`SetDuration`, `SetCurrentPlayTime`, `SetSyncTrack`, `SetSyncIndex`,
`SetPreSyncTime` and `SetPlaySpeed`: the "externally-visible timing fields"
of the context. -/
structure AnimGraphNodeData where
  mDuration : ℚ
  mCurrentTime : ℚ
  mSyncTrack : Option Nat
  mSyncIndex : Nat
  mPreSyncTime : ℚ
  mPlaySpeed : ℚ
  deriving DecidableEq, Repr

/-- The members of the node `BlendSpace1DNode` that the evaluation reads:
the configured motions, the id of the sync master, the evaluator (`none` for a
null pointer), calculation method, sync mode, the interactively set position
with the flag that `IsInInteractiveMode()` returns, and `mDisabled`. -/
structure BlendSpace1DNode where
  m_motions : List BlendSpaceMotion
  m_syncMasterMotionId : String
  m_evaluator : Option BlendSpaceParamEvaluator
  m_calculationMethod : ECalculationMethod
  m_syncMode : ESyncMode
  m_currentPositionSetInteractively : ℚ
  m_interactiveMode : Bool
  mDisabled : Bool

/-- Code of the base class `BlendSpaceNode`, of `AnimGraphNodeData` and of
`MotionInstance` that `Update` calls and that is not among the sources, taken
as parameters: the ordering `BlendInfo::operator<`, the synchronize step
`DoUpdate` (time delta, blend entries, sync mode, master index, motion infos;
it returns the motion infos as it leaves them), `AnimGraphNodeData::Clear`, and
`MotionInstance::GetDuration` on an instance handle. -/
structure Collaborators where
  blendInfoLess : BlendInfo → BlendInfo → Bool
  DoUpdate : ℚ → List BlendInfo → ESyncMode → Nat → List MotionInfo → List MotionInfo
  Clear : AnimGraphNodeData → AnimGraphNodeData
  GetDuration : Nat → ℚ

/-- A call on the thread's `AnimGraphPosePool` made by `Output`: `RequestPose`
handing out the scratch pose `pose`, or `FreePose` giving it back. -/
inductive PoolEvent where
  | RequestPose (pose : Nat)
  | FreePose (pose : Nat)
  deriving DecidableEq, Repr

/-- The value that `Output` leaves in the output pose: the bind pose
(`InitFromBindPose`), or the pose that was zeroed, received `Sum(sample, weight)`
for the sample of `m_motionInfos[m_motionIndex]` of every term in turn, and was
renormalized with `NormalizeQuaternions`. -/
inductive OutputPose where
  | bindPose
  | blended (terms : List BlendInfo)
  deriving DecidableEq, Repr

/-- What a call of `Output` does: the value of the output pose (`none` when the
pose is not written), the (motion index, weight) pairs it sampled and summed,
in order, and its calls on the pose pool, in order. -/
structure OutputResult where
  m_outputPose : Option OutputPose
  m_sampled : List BlendInfo
  m_poolEvents : List PoolEvent
  deriving DecidableEq, Repr

namespace BlendSpace1DNode

/-- The static `BlendSpaceNode::ClearMotionInfos` (BlendSpaceNode.cpp is not
among the sources): it gives the motion instances back and empties the vector,
as the `AZ_Assert(uniqueData->m_motionInfos.empty(), ...)` that follows it in
`UpdateMotionInfos` says. -/
def ClearMotionInfos (_motionInfos : List MotionInfo) : List MotionInfo := []

/-- The static `BlendSpaceNode::AddMotionInfo` (BlendSpaceNode.cpp is not among
the sources): it appends the motion info of the new motion instance. -/
def AddMotionInfo (motionInfos : List MotionInfo) (motionInstance : Nat) : List MotionInfo :=
  motionInfos ++ [freshMotionInfo motionInstance]

/-- The static `BlendSpaceNode::DoAllMotionsHaveSyncTracks` (BlendSpaceNode.cpp
is not among the sources), read from its name. -/
def DoAllMotionsHaveSyncTracks (motionInfos : List MotionInfo) : Bool :=
  motionInfos.all (fun motionInfo => motionInfo.m_syncTrack.isSome)

/-- `UniqueData::Reset`: `BlendSpaceNode::ClearMotionInfos(m_motionInfos)` and
nothing else. -/
def UniqueData.Reset (d : UniqueData) : UniqueData :=
  { d with m_motionInfos := ClearMotionInfos d.m_motionInfos }

/-- The `AZ::u32` value of `(AZ::u32)motionInfos.size() - 1`: the size is cast
first and the subtraction is unsigned. -/
def lastIndexU32 (size : Nat) : Nat :=
  (size % 4294967296 + 4294967295) % 4294967296

/-- The loop `for (BlendSpaceMotion& blendSpaceMotion : m_motions)` of
`UpdateMotionInfos`, run on the remaining entries with the motion infos and the
master index built so far. It returns the entries with their `InvalidMotion`
flag set or cleared, the motion infos and the master index. The motion
instance that the pool hands out for a motion is named by the handle of that
motion. -/
def updateMotionInfosLoop (motionSet : String → Option Nat) (syncMasterMotionId : String) :
    List BlendSpaceMotion → List MotionInfo → Nat →
      List BlendSpaceMotion × List MotionInfo × Nat
  | [], motionInfos, masterMotionIdx => ([], motionInfos, masterMotionIdx)
  | blendSpaceMotion :: rest, motionInfos, masterMotionIdx =>
    match motionSet blendSpaceMotion.m_motionId with
    | none =>
      let done := updateMotionInfosLoop motionSet syncMasterMotionId rest motionInfos
        masterMotionIdx
      ({ blendSpaceMotion with m_invalidMotion := true } :: done.1, done.2.1, done.2.2)
    | some motion =>
      let motionInfos1 := AddMotionInfo motionInfos motion
      let masterMotionIdx1 :=
        if blendSpaceMotion.m_motionId = syncMasterMotionId then lastIndexU32 motionInfos1.length
        else masterMotionIdx
      let done := updateMotionInfosLoop motionSet syncMasterMotionId rest motionInfos1
        masterMotionIdx1
      ({ blendSpaceMotion with m_invalidMotion := false } :: done.1, done.2.1, done.2.2)

/-- The evaluator that `UpdateMotionPositions` works with: the configured one
under `ECalculationMethod::AUTO` unless it is null or the "null evaluator",
and none otherwise. -/
def effectiveEvaluator (node : BlendSpace1DNode) : Option BlendSpaceParamEvaluator :=
  if node.m_calculationMethod = ECalculationMethod.AUTO then
    match node.m_evaluator with
    | some evaluator => if evaluator.IsNullEvaluator then none else some evaluator
    | none => none
  else none

/-- The loop `for (const BlendSpaceMotion& motion : m_motions)` of
`UpdateMotionPositions`, run on the remaining entries with the counter
`uniqueDataMotionIndex` and the coordinates written so far. A write to an index
outside the vector, and a write that would need a motion instance that is not
there (both undefined in the source), leave the coordinates as they are. -/
def updateMotionPositionsLoop (evaluator : Option BlendSpaceParamEvaluator)
    (motionInfos : List MotionInfo) : List BlendSpaceMotion → Nat → List ℚ → List ℚ
  | [], _, motionCoordinates => motionCoordinates
  | motion :: rest, uniqueDataMotionIndex, motionCoordinates =>
    if motion.m_invalidMotion then
      updateMotionPositionsLoop evaluator motionInfos rest uniqueDataMotionIndex
        motionCoordinates
    else
      let written :=
        if motion.m_userSetCoordinateX then
          motionCoordinates.set uniqueDataMotionIndex motion.m_xCoordinate
        else
          match evaluator with
          | some e =>
            match motionInfos[uniqueDataMotionIndex]? with
            | some motionInfo =>
              match motionInfo.m_motionInstance with
              | some motionInstance =>
                motionCoordinates.set uniqueDataMotionIndex (e.ComputeParamValue motionInstance)
              | none => motionCoordinates
            | none => motionCoordinates
          | none => motionCoordinates
      updateMotionPositionsLoop evaluator motionInfos rest (uniqueDataMotionIndex + 1) written

/-- `BlendSpace1DNode::UpdateMotionPositions`: resize `m_motionCoordinates` to
the number of motion infos, then write the coordinate of every entry that is
not flagged `InvalidMotion` and has a user coordinate or an evaluator. -/
def UpdateMotionPositions (node : BlendSpace1DNode) (uniqueData : UniqueData) : UniqueData :=
  let uniqueDataMotionCount := uniqueData.m_motionInfos.length
  { uniqueData with
    m_motionCoordinates :=
      updateMotionPositionsLoop (effectiveEvaluator node) uniqueData.m_motionInfos
        node.m_motions 0
        (AZStd.vector_resize uniqueData.m_motionCoordinates uniqueDataMotionCount) }

/-- `BlendSpace1DNode::UpdateMotionInfos`: the return value, the node (whose
configured motions get their `InvalidMotion` flags) and the unique data.
The order is that of the source: null checks of the instance and of the actor
instance, `ClearMotionInfos`, the check of the motion set, the loop, then
`UpdateMotionPositions`, `SortMotionInstances` and the invalidation of the
segment. -/
def UpdateMotionInfos (node : BlendSpace1DNode) (animGraphInstance : Option AnimGraphInstance)
    (uniqueData : UniqueData) : Bool × BlendSpace1DNode × UniqueData :=
  match animGraphInstance with
  | none => (false, node, uniqueData)
  | some graphInstance =>
    match graphInstance.m_actorInstance with
    | none => (false, node, uniqueData)
    | some _ =>
      let cleared : UniqueData :=
        { uniqueData with m_motionInfos := ClearMotionInfos uniqueData.m_motionInfos }
      match graphInstance.m_motionSet with
      | none => (false, node, cleared)
      | some motionSet =>
        let done := updateMotionInfosLoop motionSet node.m_syncMasterMotionId node.m_motions
          cleared.m_motionInfos 0
        let node1 : BlendSpace1DNode := { node with m_motions := done.1 }
        let filled : UniqueData :=
          { cleared with
            m_motionInfos := done.2.1
            m_masterMotionIdx := done.2.2
            m_allMotionsHaveSyncTracks := DoAllMotionsHaveSyncTracks done.2.1 }
        let positioned := UpdateMotionPositions node1 filled
        (true, node1, (SortMotionInstances positioned).invalidateSegment)

/-- `BlendSpace1DNode::GetCurrentSamplePosition`: the interactively set
position in interactive mode, else the number at the input port, else the
middle of the range. -/
def GetCurrentSamplePosition (node : BlendSpace1DNode) (animGraphInstance : AnimGraphInstance)
    (uniqueData : UniqueData) : ℚ :=
  if node.m_interactiveMode then node.m_currentPositionSetInteractively
  else
    match animGraphInstance.m_inputValue with
    | some samplePoint => samplePoint
    | none => (uniqueData.GetRangeMin + uniqueData.GetRangeMax) / 2

/-- The index `motionIndex` that `Update` computes before the evaluation: the
master index, replaced by 0 when the sync mode is `SYNCMODE_DISABLED` or the
master index is `MCORE_INVALIDINDEX32`. -/
def timingMotionIndex (node : BlendSpace1DNode) (uniqueData : UniqueData) : Nat :=
  let motionIndex :=
    if uniqueData.m_masterMotionIdx ≠ MCORE_INVALIDINDEX32 then uniqueData.m_masterMotionIdx
    else MCORE_INVALIDINDEX32
  if node.m_syncMode = ESyncMode.SYNCMODE_DISABLED ∨ motionIndex = MCORE_INVALIDINDEX32 then 0
  else motionIndex

/-- `BlendSpace1DNode::Update` on the base part and the node part of the unique
data: `Clear`, and for an enabled node the sample position, the evaluation,
the synchronize step `DoUpdate` and the copy of the timing members of
`m_motionInfos[motionIndex]`. A `motionIndex` outside the vector (undefined in
the source) copies nothing. -/
def Update (node : BlendSpace1DNode) (ext : Collaborators)
    (animGraphInstance : AnimGraphInstance) (timePassedInSeconds : ℚ)
    (base : AnimGraphNodeData) (uniqueData : UniqueData) : AnimGraphNodeData × UniqueData :=
  let clearedBase := ext.Clear base
  if node.mDisabled then (clearedBase, uniqueData)
  else
    let positioned : UniqueData :=
      { uniqueData with
        m_currentPosition := GetCurrentSamplePosition node animGraphInstance uniqueData }
    let motionIndex := timingMotionIndex node positioned
    let evaluated := UpdateBlendingInfoForCurrentPoint ext.blendInfoLess positioned
    let synced : UniqueData :=
      { evaluated with
        m_motionInfos :=
          ext.DoUpdate timePassedInSeconds evaluated.m_blendInfos node.m_syncMode
            evaluated.m_masterMotionIdx evaluated.m_motionInfos }
    if ¬ synced.m_motionInfos.isEmpty then
      match synced.m_motionInfos[motionIndex]? with
      | some motionInfo =>
        ({ mDuration :=
            match motionInfo.m_motionInstance with
            | some motionInstance => ext.GetDuration motionInstance
            | none => 0
           mCurrentTime := motionInfo.m_currentTime
           mSyncTrack := motionInfo.m_syncTrack
           mSyncIndex := motionInfo.m_syncIndex
           mPreSyncTime := motionInfo.m_preSyncTime
           mPlaySpeed := motionInfo.m_playSpeed }, synced)
      | none => (clearedBase, synced)
    else (clearedBase, synced)

/-- `BlendSpace1DNode::Output`. A null instance returns at once; a disabled
node calls `SetBindPoseAtOutput` and returns. Otherwise two scratch poses are
requested from the pool (`bindPose` is pose 0, `motionOutPose` is pose 1), the
output pose is zeroed and receives the samples of the located segment, or of
the boundary motion, or `SetBindPoseAtOutput` is called, and both scratch
poses are freed. `RequestPoses`, which readies the pose of the output port
and is no call on the pool, leaves no event; the compensation for motion
extraction is part of taking a sample. -/
def Output (node : BlendSpace1DNode) (animGraphInstance : Option AnimGraphInstance)
    (uniqueData : UniqueData) : OutputResult :=
  match animGraphInstance with
  | none => { m_outputPose := none, m_sampled := [], m_poolEvents := [] }
  | some _ =>
    if node.mDisabled then
      { m_outputPose := some OutputPose.bindPose, m_sampled := [], m_poolEvents := [] }
    else
      let requested := [PoolEvent.RequestPose 0, PoolEvent.RequestPose 1]
      let freed := [PoolEvent.FreePose 1, PoolEvent.FreePose 0]
      if uniqueData.m_currentSegment.m_segmentIndex ≠ MCORE_INVALIDINDEX32 then
        let segIndex := uniqueData.m_currentSegment.m_segmentIndex
        let terms : List BlendInfo :=
          [ { m_motionIndex := uniqueData.m_sortedMotions.getD (segIndex + 0) 0
              m_weight := 1 - uniqueData.m_currentSegment.m_weightForSegmentEnd },
            { m_motionIndex := uniqueData.m_sortedMotions.getD (segIndex + 1) 0
              m_weight := uniqueData.m_currentSegment.m_weightForSegmentEnd } ]
        { m_outputPose := some (OutputPose.blended terms), m_sampled := terms
          m_poolEvents := requested ++ freed }
      else if ¬ uniqueData.m_motionInfos.isEmpty then
        let motionIdx :=
          if uniqueData.m_currentPosition < uniqueData.GetRangeMin
          then uniqueData.m_sortedMotions.headD 0
          else uniqueData.m_sortedMotions.getLastD 0
        let terms : List BlendInfo := [ { m_motionIndex := motionIdx, m_weight := 1 } ]
        { m_outputPose := some (OutputPose.blended terms), m_sampled := terms
          m_poolEvents := requested ++ freed }
      else
        { m_outputPose := some OutputPose.bindPose, m_sampled := []
          m_poolEvents := requested ++ freed }

/-- A sample motion set: the id "walk" resolves to the motion 0, "run" to the
motion 1, and no other id resolves. -/
def sampleMotionSet (motionId : String) : Option Nat :=
  if motionId = "walk" then some 0 else if motionId = "run" then some 1 else none

/-- A sample evaluation context with an actor instance and the sample motion
set, nothing connected to the input port. -/
def readyInstance : AnimGraphInstance :=
  { m_actorInstance := some 0, m_motionSet := some sampleMotionSet, m_inputValue := none }

/-- The sample evaluation context after its motion set went away. -/
def instanceWithoutMotionSet : AnimGraphInstance :=
  { m_actorInstance := some 0, m_motionSet := none, m_inputValue := none }

/-- A sample node: the motions "walk" at the user coordinate 0, "ghost" (an id
outside the sample motion set) at 5 and "run" at 1, with "run" as sync master
under the sync mode `syncMode`; manual calculation, not interactive, enabled. -/
def sampleNode (syncMode : ESyncMode) : BlendSpace1DNode :=
  { m_motions :=
      [ { m_motionId := "walk", m_xCoordinate := 0, m_userSetCoordinateX := true
          m_invalidMotion := false },
        { m_motionId := "ghost", m_xCoordinate := 5, m_userSetCoordinateX := true
          m_invalidMotion := false },
        { m_motionId := "run", m_xCoordinate := 1, m_userSetCoordinateX := true
          m_invalidMotion := false } ]
    m_syncMasterMotionId := "run"
    m_evaluator := none
    m_calculationMethod := ECalculationMethod.MANUAL
    m_syncMode := syncMode
    m_currentPositionSetInteractively := 0
    m_interactiveMode := false
    mDisabled := false }

/-- A sample node with the single motion "walk", whose coordinate is not set by
the user, and an evaluator that places every motion at 5, under the calculation
method `calculationMethod`. -/
def evaluatedNode (calculationMethod : ECalculationMethod) : BlendSpace1DNode :=
  { m_motions :=
      [ { m_motionId := "walk", m_xCoordinate := 0, m_userSetCoordinateX := false
          m_invalidMotion := false } ]
    m_syncMasterMotionId := ""
    m_evaluator := some { IsNullEvaluator := false, ComputeParamValue := fun _ => 5 }
    m_calculationMethod := calculationMethod
    m_syncMode := ESyncMode.SYNCMODE_DISABLED
    m_currentPositionSetInteractively := 0
    m_interactiveMode := false
    mDisabled := false }

/-- Sample collaborators: blend entries ordered by descending weight, a
synchronize step that advances the current time of every motion info by the
time delta, a `Clear` that zeroes the timing members (play speed 1), and
motion instances of duration 1. -/
def sampleCollaborators : Collaborators :=
  { blendInfoLess := byWeightDescending
    DoUpdate := fun timeDelta _ _ _ motionInfos =>
      motionInfos.map (fun motionInfo =>
        { motionInfo with m_currentTime := motionInfo.m_currentTime + timeDelta })
    Clear := fun _ =>
      { mDuration := 0, mCurrentTime := 0, mSyncTrack := none, mSyncIndex := 0
        mPreSyncTime := 0, mPlaySpeed := 1 }
    GetDuration := fun _ => 1 }

/-- The unique data of the sample node after a successful `UpdateMotionInfos`
in the sample context, starting from a freshly constructed unique data. -/
def builtData : UniqueData :=
  (UpdateMotionInfos (sampleNode ESyncMode.SYNCMODE_DISABLED) (some readyInstance)
    (UniqueData.ofCoordinates [] 0)).2.2

/-- The unique data `builtData` after one `Update` tick of the sample node
(time delta 1, timing members all 0 before). -/
def tickedData : UniqueData :=
  (Update (sampleNode ESyncMode.SYNCMODE_DISABLED) sampleCollaborators readyInstance 1
    { mDuration := 0, mCurrentTime := 0, mSyncTrack := none, mSyncIndex := 0
      mPreSyncTime := 0, mPlaySpeed := 0 } builtData).2

/-- The unique data `tickedData` after the motion set went away and
`UpdateMotionInfos` ran again. -/
def staleData : UniqueData :=
  (UpdateMotionInfos (sampleNode ESyncMode.SYNCMODE_DISABLED) (some instanceWithoutMotionSet)
    tickedData).2.2

/-- The sample node as a successful `UpdateMotionInfos` leaves it: the entry
"ghost" is flagged invalid. -/
def builtNode : BlendSpace1DNode :=
  (UpdateMotionInfos (sampleNode ESyncMode.SYNCMODE_DISABLED) (some readyInstance)
    (UniqueData.ofCoordinates [] 0)).2.1

/-- The unique data of `evaluatedNode` after a first build under
`ECalculationMethod::AUTO`, where the evaluator placed "walk" at 5. -/
def evaluatedData : UniqueData :=
  (UpdateMotionInfos (evaluatedNode ECalculationMethod.AUTO) (some readyInstance)
    (UniqueData.ofCoordinates [] 0)).2.2

/-- The third configured motion of the sample node: "run" at the user
coordinate 1. -/
def runMotion : BlendSpaceMotion :=
  { m_motionId := "run", m_xCoordinate := 1, m_userSetCoordinateX := true
    m_invalidMotion := false }

/-- Timing members that are all 0. -/
def zeroTiming : AnimGraphNodeData :=
  { mDuration := 0, mCurrentTime := 0, mSyncTrack := none, mSyncIndex := 0
    mPreSyncTime := 0, mPlaySpeed := 0 }

/-- The unique data `staleData` after one more `Update` tick, in the context
without motion set. -/
def staleTickedData : UniqueData :=
  (Update builtNode sampleCollaborators instanceWithoutMotionSet 1 zeroTiming staleData).2

/-- The scratch poses that the events `RequestPose` of a pool trace hand out,
in order. -/
def requestedPoses : List PoolEvent → List Nat
  | [] => []
  | PoolEvent.RequestPose pose :: rest => pose :: requestedPoses rest
  | PoolEvent.FreePose _ :: rest => requestedPoses rest

/-- The scratch poses that the events `FreePose` of a pool trace give back, in
order. -/
def freedPoses : List PoolEvent → List Nat
  | [] => []
  | PoolEvent.RequestPose _ :: rest => freedPoses rest
  | PoolEvent.FreePose pose :: rest => pose :: freedPoses rest

/-- The loop of `ComputeMotionCoordinates` that derives the unique-data index
of the configured motion `motionIndex`, `for (size_t i = 0; i < motionIndex;
++i)`, entered at `i` with `remaining` iterations to go and the counter
`uniqueDataMotionIndex`: an entry flagged `InvalidMotion` is skipped, any other
entry advances the counter. A read `m_motions[i]` outside the vector (undefined
in the source) is skipped. -/
def uniqueDataMotionIndexLoop (motions : List BlendSpaceMotion) : Nat → Nat → Nat → Nat
  | _, 0, uniqueDataMotionIndex => uniqueDataMotionIndex
  | i, remaining + 1, uniqueDataMotionIndex =>
    match motions[i]? with
    | some currentBlendSpaceMotion =>
      if currentBlendSpaceMotion.m_invalidMotion then
        uniqueDataMotionIndexLoop motions (i + 1) remaining uniqueDataMotionIndex
      else uniqueDataMotionIndexLoop motions (i + 1) remaining (uniqueDataMotionIndex + 1)
    | none => uniqueDataMotionIndexLoop motions (i + 1) remaining uniqueDataMotionIndex

/-- The unique-data index that `ComputeMotionCoordinates` derives for the
configured motion at `motionIndex`: its loop run from `i = 0` with the counter
at 0. -/
def uniqueDataMotionIndex (node : BlendSpace1DNode) (motionIndex : Nat) : Nat :=
  uniqueDataMotionIndexLoop node.m_motions 0 motionIndex 0

/-- The constructor `UniqueData::UniqueData`: no motion infos, coordinates,
sorted motions or blend entries, `m_allMotionsHaveSyncTracks(false)`,
`m_currentPosition(0)`, `m_masterMotionIdx(0)`,
`m_hasOverlappingCoordinates(false)`. The default-constructed
`m_currentSegment` (its type is declared in a header that is not among the
sources) is the parameter `currentSegment`. -/
def UniqueData.constructed (currentSegment : CurrentSegmentInfo) : UniqueData :=
  { m_motionInfos := []
    m_allMotionsHaveSyncTracks := false
    m_motionCoordinates := []
    m_sortedMotions := []
    m_currentPosition := 0
    m_masterMotionIdx := 0
    m_hasOverlappingCoordinates := false
    m_currentSegment := currentSegment
    m_blendInfos := [] }

/-- The unique-data states that arise from a constructed one by any sequence of
calls of `UpdateMotionInfos` (whatever they return, for any node and any
evaluation context), of `UniqueData::Reset`, and of evaluations
`UpdateBlendingInfoForCurrentPoint` at any query position. -/
inductive RebuildReachable : UniqueData → Prop where
  | constructed (currentSegment : CurrentSegmentInfo) :
    RebuildReachable (UniqueData.constructed currentSegment)
  | updateMotionInfos (node : BlendSpace1DNode) (animGraphInstance : Option AnimGraphInstance)
      (d : UniqueData) :
    RebuildReachable d → RebuildReachable (UpdateMotionInfos node animGraphInstance d).2.2
  | reset (d : UniqueData) : RebuildReachable d → RebuildReachable (UniqueData.Reset d)
  | evaluate (blendInfoLess : BlendInfo → BlendInfo → Bool) (currentPosition : ℚ)
      (d : UniqueData) :
    RebuildReachable d →
      RebuildReachable
        (UpdateBlendingInfoForCurrentPoint blendInfoLess
          { d with m_currentPosition := currentPosition })

/-- The second example of the spec, motions A and B (indices 0 and 1) at the
coordinates 1 and 1.00005, after `SortMotionInstances`, with the query
position `currentPosition`. -/
def twoCloseMotions (currentPosition : ℚ) : UniqueData :=
  SortMotionInstances (UniqueData.ofCoordinates [1, 100005 / 100000] currentPosition)

/-- `BlendSpace1DNode::ComputeMotionCoordinates` on `position` (its X and Y):
`some` of the position after the call, `none` when the call reads
`m_motions` or `m_motionInfos` outside the vector or dereferences a null
motion instance (undefined in the source; the `AZ_Assert` before the read
checks the index only in debug builds). `uniqueData` is what
`FindUniqueNodeData(animGraphInstance)` returns. The order is that of the
source: the null check of the instance, the lookup `FindMotionIndexByMotionId`
(BlendSpaceNode.cpp is not among the sources: a parameter) with the return on
`MCORE_INVALIDINDEX32`, the evaluator with `position = Zero` when there is
none, the return on an entry flagged `InvalidMotion`, the loop that derives
`uniqueDataMotionIndex`, and the evaluation of
`m_motionInfos[uniqueDataMotionIndex].m_motionInstance`. -/
def ComputeMotionCoordinates (node : BlendSpace1DNode)
    (FindMotionIndexByMotionId : List BlendSpaceMotion → String → Nat)
    (motionId : String) (animGraphInstance : Option AnimGraphInstance)
    (uniqueData : UniqueData) (position : ℚ × ℚ) : Option (ℚ × ℚ) :=
  match animGraphInstance with
  | none => some position
  | some _ =>
    let motionIndex := FindMotionIndexByMotionId node.m_motions motionId
    if motionIndex = MCORE_INVALIDINDEX32 then some position
    else
      match effectiveEvaluator node with
      | none => some (0, 0)
      | some evaluator =>
        match node.m_motions[motionIndex]? with
        | none => none
        | some blendSpaceMotion =>
          if blendSpaceMotion.m_invalidMotion then some position
          else
            let uniqueDataMotionIndex := uniqueDataMotionIndexLoop node.m_motions 0 motionIndex 0
            match uniqueData.m_motionInfos[uniqueDataMotionIndex]? with
            | none => none
            | some motionInfo =>
              match motionInfo.m_motionInstance with
              | some motionInstance => some (evaluator.ComputeParamValue motionInstance, 0)
              | none => none

/-- A sample value of the parameter `FindMotionIndexByMotionId`: the place of
the first configured motion with the id `motionId`, `MCORE_INVALIDINDEX32` when
there is none. -/
def firstMotionIndexWithId (motions : List BlendSpaceMotion) (motionId : String) : Nat :=
  if motions.findIdx (fun motion => decide (motion.m_motionId = motionId)) < motions.length then
    motions.findIdx (fun motion => decide (motion.m_motionId = motionId))
  else MCORE_INVALIDINDEX32

/-- A sample node with the motions "walk" and "run", neither with a user
coordinate, under `ECalculationMethod::AUTO` with an evaluator that places the
motion instance 0 (of "walk") at 5 and any other one at 15. -/
def sharedNode : BlendSpace1DNode :=
  { m_motions :=
      [ { m_motionId := "walk", m_xCoordinate := 0, m_userSetCoordinateX := false
          m_invalidMotion := false },
        { m_motionId := "run", m_xCoordinate := 0, m_userSetCoordinateX := false
          m_invalidMotion := false } ]
    m_syncMasterMotionId := ""
    m_evaluator :=
      some { IsNullEvaluator := false
             ComputeParamValue := fun motionInstance => if motionInstance = 0 then 5 else 15 }
    m_calculationMethod := ECalculationMethod.AUTO
    m_syncMode := ESyncMode.SYNCMODE_DISABLED
    m_currentPositionSetInteractively := 0
    m_interactiveMode := false
    mDisabled := false }

/-- A second sample motion set: only the id "run" resolves, to the motion 1. -/
def runOnlyMotionSet (motionId : String) : Option Nat :=
  if motionId = "run" then some 1 else none

/-- A second sample evaluation context, of another actor instance, with the
motion set in which only "run" resolves. -/
def runOnlyInstance : AnimGraphInstance :=
  { m_actorInstance := some 1, m_motionSet := some runOnlyMotionSet, m_inputValue := none }

/-- The loop of `Reinit` over the anim graph instances, each step being
`OnUpdateUniqueData` for an instance that has no unique data of this node yet:
a unique data is constructed (with the default-constructed segment
`currentSegment`) and `UpdateMotionInfos` runs on it. The result is the node,
with the `InvalidMotion` flags as the last instance left them, and the unique
data of every instance, in order. -/
def reinitLoop (currentSegment : CurrentSegmentInfo) :
    BlendSpace1DNode → List AnimGraphInstance → BlendSpace1DNode × List UniqueData
  | node, [] => (node, [])
  | node, animGraphInstance :: rest =>
    let updated := UpdateMotionInfos node (some animGraphInstance)
      (UniqueData.constructed currentSegment)
    let done := reinitLoop currentSegment updated.2.1 rest
    (done.1, updated.2.2 :: done.2)

/-- The sample node and the unique data of the two sample contexts after
`Reinit` went over the context with both motions first and the context with
only "run" second. -/
def reinitReadyFirst : BlendSpace1DNode × List UniqueData :=
  reinitLoop { m_segmentIndex := MCORE_INVALIDINDEX32, m_weightForSegmentEnd := 0 } sharedNode
    [readyInstance, runOnlyInstance]

/-- The sample node and the unique data of the two sample contexts after
`Reinit` went over the context with only "run" first and the context with both
motions second. -/
def reinitReadyLast : BlendSpace1DNode × List UniqueData :=
  reinitLoop { m_segmentIndex := MCORE_INVALIDINDEX32, m_weightForSegmentEnd := 0 } sharedNode
    [runOnlyInstance, readyInstance]

end BlendSpace1DNode

end EMotionFX

/-! ## Single-precision arithmetic

The `float` of the source is IEEE 754 binary32. The definitions below model its
values and the operations that the evaluation core applies to them: every
operation computes the exact result and rounds it to the nearest binary32
value, ties to even, overflowing to an infinity; a NaN operand gives a NaN and
makes every comparison false. The sign of a zero is not modelled: no result of
the core depends on it. -/

namespace IEEE

/-- The search for the exponent of the binary32 quantum of `x`: the least `e`
from the start value on with `|x| < 2 ^ (e + 24)`, given up after `fuel`
steps. -/
def quantumSearch (x : ℚ) : ℤ → ℕ → ℤ
  | e, 0 => e
  | e, fuel + 1 => if |x| < (2 : ℚ) ^ (e + 24) then e else quantumSearch x (e + 1) fuel

/-- The exponent `e` of the spacing `2 ^ e` of the binary32 values around `x`:
`-149` in the subnormal range (`|x| < 2 ^ (-125)`), otherwise the least `e`
with `|x| < 2 ^ (e + 24)`, and at most `104`, the spacing of the largest
binade. -/
def quantumExponent (x : ℚ) : ℤ := quantumSearch x (-149) 253

/-- The integer nearest to `t`, a tie going to the even one. -/
def roundHalfEven (t : ℚ) : ℤ :=
  if t - ⌊t⌋ < 1 / 2 then ⌊t⌋
  else if 1 / 2 < t - ⌊t⌋ then ⌊t⌋ + 1
  else if ⌊t⌋ % 2 = 0 then ⌊t⌋ else ⌊t⌋ + 1

/-- The rational `x` rounded to binary32 precision, to nearest with ties to
even, before the test for overflow: the nearest multiple of the quantum. -/
def roundToBinary32 (x : ℚ) : ℚ :=
  (roundHalfEven (x / (2 : ℚ) ^ quantumExponent x) : ℚ) * (2 : ℚ) ^ quantumExponent x

/-- The values that `roundToBinary32` can return: `m * 2 ^ k` with `-149 <= k`
and a significand `|m| < 2 ^ 24`, or any multiple of `2 ^ 104` (beyond the
largest finite binary32 value these stand for overflow). -/
def Representable (y : ℚ) : Prop :=
  ∃ m k : ℤ, -149 ≤ k ∧ (|m| < 2 ^ 24 ∨ k = 104) ∧ y = (m : ℚ) * (2 : ℚ) ^ k

/-- A value of the type `float`: a NaN, an infinity, or a finite number. The
results of the operations below are binary32 values; a literal
`Binary32.finite v` stands for a `float` only when `v` is one (`isValue`). -/
inductive Binary32 where
  | nan
  | negInf
  | finite (value : ℚ)
  | posInf
  deriving DecidableEq, Repr

namespace Binary32

/-- The `float` result of an operation whose exact result is `x`: rounded to
nearest, and an infinity when the rounded magnitude reaches `2 ^ 128`. -/
def ofRat (x : ℚ) : Binary32 :=
  if (2 : ℚ) ^ 128 ≤ roundToBinary32 x then posInf
  else if roundToBinary32 x ≤ -(2 : ℚ) ^ 128 then negInf
  else finite (roundToBinary32 x)

/-- The `float` addition `a + b`. -/
def add : Binary32 → Binary32 → Binary32
  | nan, _ => nan
  | _, nan => nan
  | posInf, negInf => nan
  | negInf, posInf => nan
  | posInf, _ => posInf
  | _, posInf => posInf
  | negInf, _ => negInf
  | _, negInf => negInf
  | finite a, finite b => ofRat (a + b)

/-- The `float` negation `-a`. -/
def neg : Binary32 → Binary32
  | nan => nan
  | negInf => posInf
  | finite a => finite (-a)
  | posInf => negInf

/-- The `float` subtraction `a - b`. -/
def sub (a b : Binary32) : Binary32 := add a (neg b)

/-- The `float` division `a / b`. A finite non-zero value divided by zero is
an infinity with the sign of the dividend (the sign of the zero is not
modelled; the core divides only by the constant 2 and by a length that it has
tested to be positive). -/
def div : Binary32 → Binary32 → Binary32
  | nan, _ => nan
  | _, nan => nan
  | posInf, posInf => nan
  | posInf, negInf => nan
  | negInf, posInf => nan
  | negInf, negInf => nan
  | posInf, finite b => if b < 0 then negInf else posInf
  | negInf, finite b => if b < 0 then posInf else negInf
  | finite _, posInf => finite 0
  | finite _, negInf => finite 0
  | finite a, finite b =>
    if b = 0 then (if a = 0 then nan else if a < 0 then negInf else posInf)
    else ofRat (a / b)

/-- The `float` comparison `a < b`: false when an operand is a NaN. -/
def lt : Binary32 → Binary32 → Bool
  | nan, _ => false
  | _, nan => false
  | posInf, _ => false
  | _, negInf => false
  | negInf, _ => true
  | _, posInf => true
  | finite a, finite b => decide (a < b)

/-- The `float` comparison `a <= b`: false when an operand is a NaN. The
source's `a >= b` is `le b a` and its `a > b` is `lt b a`. -/
def le : Binary32 → Binary32 → Bool
  | nan, _ => false
  | _, nan => false
  | negInf, _ => true
  | _, posInf => true
  | posInf, _ => false
  | _, negInf => false
  | finite a, finite b => decide (a ≤ b)

/-- The absolute value of a `float`. -/
def abs : Binary32 → Binary32
  | nan => nan
  | negInf => posInf
  | finite a => finite |a|
  | posInf => posInf

/-- Whether a `float` is finite: neither an infinity nor a NaN. -/
def isFinite : Binary32 → Bool
  | finite _ => true
  | _ => false

/-- Whether a term of `Binary32` is a value of the type `float`: a finite one
has to be a binary32 number, one that the rounding leaves unchanged and that
is below `2 ^ 128` in magnitude. -/
def isValue : Binary32 → Bool
  | finite a => decide (roundToBinary32 a = a ∧ |a| < (2 : ℚ) ^ 128)
  | _ => true

end Binary32

end IEEE

/-! ## The evaluation core in single precision

The same functions of the source as above, with the `float` members and the
`float` operations in binary32 instead of exact rationals. -/

namespace EMotionFX

namespace SinglePrecision

open IEEE

/-- The pair `BlendSpaceNode::BlendInfo`: a motion index (`AZ::u32`) and its
`float` blend weight. -/
structure BlendInfo where
  m_motionIndex : Nat
  m_weight : Binary32
  deriving DecidableEq, Repr

/-- The member `m_currentSegment` of `UniqueData`: the index of the segment
start in the sorted order (`MCORE_INVALIDINDEX32` for "no segment") and the
`float` fraction towards the segment end. -/
structure CurrentSegmentInfo where
  m_segmentIndex : Nat
  m_weightForSegmentEnd : Binary32
  deriving DecidableEq, Repr

/-- The per-instance cache `BlendSpace1DNode::UniqueData`, with the members
that the evaluation reads and writes; `m_motionCoordinates` is an
`AZStd::vector<float>` and `m_currentPosition` a `float`. -/
structure UniqueData where
  m_motionInfos : List MotionInfo
  m_allMotionsHaveSyncTracks : Bool
  m_motionCoordinates : List Binary32
  m_sortedMotions : List Nat
  m_currentPosition : Binary32
  m_masterMotionIdx : Nat
  m_hasOverlappingCoordinates : Bool
  m_currentSegment : CurrentSegmentInfo
  m_blendInfos : List BlendInfo
  deriving DecidableEq, Repr

namespace UniqueData

/-- `UniqueData::GetRangeMin`:
`m_sortedMotions.empty() ? 0.0f : m_motionCoordinates[m_sortedMotions.front()]`. -/
def GetRangeMin (d : UniqueData) : Binary32 :=
  if d.m_sortedMotions.isEmpty then Binary32.finite 0
  else d.m_motionCoordinates.getD (d.m_sortedMotions.headD 0) (Binary32.finite 0)

/-- `UniqueData::GetRangeMax`:
`m_sortedMotions.empty() ? 0.0f : m_motionCoordinates[m_sortedMotions.back()]`. -/
def GetRangeMax (d : UniqueData) : Binary32 :=
  if d.m_sortedMotions.isEmpty then Binary32.finite 0
  else d.m_motionCoordinates.getD (d.m_sortedMotions.getLastD 0) (Binary32.finite 0)

/-- The expression `m_motionCoordinates[m_sortedMotions[i]]` that the source
uses to read a coordinate through the sorted order; a read outside a vector
(undefined in the source) is `0.0f`. -/
def sortedCoordinate (d : UniqueData) (i : Nat) : Binary32 :=
  d.m_motionCoordinates.getD (d.m_sortedMotions.getD i 0) (Binary32.finite 0)

/-- The same read `m_motionCoordinates[m_sortedMotions[i]]`, defined only when
both subscripts are inside their vectors. -/
def sortedCoordinate? (d : UniqueData) (i : Nat) : Option Binary32 :=
  match d.m_sortedMotions[i]? with
  | some k => d.m_motionCoordinates[k]?
  | none => none

/-- The assignment `uniqueData.m_currentSegment.m_segmentIndex =
MCORE_INVALIDINDEX32`, which leaves `m_weightForSegmentEnd` and every other
member as they are. -/
def invalidateSegment (d : UniqueData) : UniqueData :=
  { d with
    m_currentSegment := { d.m_currentSegment with m_segmentIndex := MCORE_INVALIDINDEX32 } }

end UniqueData

/-- The anonymous-namespace class `MotionSortComparer`:
`operator()(a, b)` is the `float` comparison
`m_motionCoordinates[a] < m_motionCoordinates[b]`, false when a coordinate is
a NaN. -/
def MotionSortComparer (motionCoordinates : List Binary32) (a b : Nat) : Bool :=
  Binary32.lt (motionCoordinates.getD a (Binary32.finite 0))
    (motionCoordinates.getD b (Binary32.finite 0))

/-- Modelled from the spec: `AZ::IsClose(a, b, tolerance)` (AzCore/Math is not
among the sources). The spec describes the overlap test as "differ by less than
1e-4", so the helper is the strict `float` comparison of the distance with the
tolerance. -/
def IsClose (a b tolerance : Binary32) : Bool :=
  Binary32.lt (Binary32.abs (Binary32.sub a b)) tolerance

/-- The overlap loop of `SortMotionInstances`,
`for (AZ::u32 i = 1; i < numMotions; ++i)`, entered at index `i` with
`remaining` iterations to go: `true` at the first adjacent pair of the sorted
order whose coordinates `AZ::IsClose` accepts with the tolerance `0.0001f`
(the binary32 value nearest to 1/10000). -/
def overlapLoop (motionCoordinates : List Binary32) (sortedMotions : List Nat) :
    Nat → Nat → Bool
  | _, 0 => false
  | i, remaining + 1 =>
    let motionA := sortedMotions.getD (i - 1) 0
    let motionB := sortedMotions.getD i 0
    if IsClose (motionCoordinates.getD motionA (Binary32.finite 0))
        (motionCoordinates.getD motionB (Binary32.finite 0))
        (Binary32.ofRat (1 / 10000)) then true
    else overlapLoop motionCoordinates sortedMotions (i + 1) remaining

/-- `BlendSpace1DNode::SortMotionInstances`: the count narrowed to the
`AZ::u16` variable `numMotions` (its low 16 bits), `m_sortedMotions` filled
with `0 .. numMotions - 1` and sorted with `MotionSortComparer`, then
`m_hasOverlappingCoordinates` recomputed. -/
def SortMotionInstances (uniqueData : UniqueData) : UniqueData :=
  let numMotions := uniqueData.m_motionCoordinates.length % 65536
  let sortedMotions :=
    AZStd.sort (MotionSortComparer uniqueData.m_motionCoordinates) (List.range numMotions)
  { uniqueData with
    m_sortedMotions := sortedMotions
    m_hasOverlappingCoordinates :=
      overlapLoop uniqueData.m_motionCoordinates sortedMotions 1 (numMotions - 1) }

/-- The scan loop of `FindLineSegmentForCurrentPoint`,
`for (AZ::u32 i = 1; i < numPoints; ++i)`, entered at index `i` with
`remaining` iterations to go. It yields the segment written at the first `i`
with `m_currentPosition >= segStart && m_currentPosition <= segEnd`, or `none`
when the loop runs to its end; `segLength = segEnd - segStart` and the fraction
`(m_currentPosition - segStart) / segLength` are `float` operations. -/
def segmentLoop (uniqueData : UniqueData) : Nat → Nat → Option CurrentSegmentInfo
  | _, 0 => none
  | i, remaining + 1 =>
    let segStart := uniqueData.sortedCoordinate (i - 1)
    let segEnd := uniqueData.sortedCoordinate i
    if Binary32.le segStart uniqueData.m_currentPosition = true ∧
        Binary32.le uniqueData.m_currentPosition segEnd = true then
      let segLength := Binary32.sub segEnd segStart
      if Binary32.le segLength (Binary32.finite 0) = true then
        some { m_segmentIndex := i - 1, m_weightForSegmentEnd := Binary32.finite 0 }
      else
        some { m_segmentIndex := i - 1
               m_weightForSegmentEnd :=
                 Binary32.div (Binary32.sub uniqueData.m_currentPosition segStart) segLength }
    else segmentLoop uniqueData (i + 1) remaining

/-- `BlendSpace1DNode::FindLineSegmentForCurrentPoint`: the return value and
the updated unique data. `numPoints` is the `(AZ::u32)` cast of the size of
`m_sortedMotions`; the guard is
`numPoints < 2 || m_currentPosition < GetRangeMin() || m_currentPosition > GetRangeMax()`
with `float` comparisons. When no segment is found, by the guard or by the
loop running to its end, only `m_segmentIndex` is written (to
`MCORE_INVALIDINDEX32`). The `AZ_Assert(segStart <= segEnd, ...)` inside the
loop has no effect on the result and is not part of the model. -/
def FindLineSegmentForCurrentPoint (uniqueData : UniqueData) : Bool × UniqueData :=
  let numPoints := uniqueData.m_sortedMotions.length % 4294967296
  if numPoints < 2 ∨ Binary32.lt uniqueData.m_currentPosition uniqueData.GetRangeMin = true
      ∨ Binary32.lt uniqueData.GetRangeMax uniqueData.m_currentPosition = true then
    (false, uniqueData.invalidateSegment)
  else
    match segmentLoop uniqueData 1 (numPoints - 1) with
    | some segment => (true, { uniqueData with m_currentSegment := segment })
    | none => (false, uniqueData.invalidateSegment)

/-- `BlendSpace1DNode::UpdateBlendingInfoForCurrentPoint`, with the weights
`1 - m_weightForSegmentEnd` (a `float` subtraction), `m_weightForSegmentEnd`
and `1.0f`. The ordering `BlendInfo::operator<` used by the final
`AZStd::sort` is declared in BlendSpaceNode.h, which is not among the sources,
and is the parameter `blendInfoLess`. -/
def UpdateBlendingInfoForCurrentPoint (blendInfoLess : BlendInfo → BlendInfo → Bool)
    (uniqueData : UniqueData) : UniqueData :=
  let cleared := uniqueData.invalidateSegment
  let located := (FindLineSegmentForCurrentPoint cleared).2
  let blendInfos : List BlendInfo :=
    if located.m_currentSegment.m_segmentIndex ≠ MCORE_INVALIDINDEX32 then
      let segIndex := located.m_currentSegment.m_segmentIndex
      [ { m_motionIndex := located.m_sortedMotions.getD (segIndex + 0) 0
          m_weight := Binary32.sub (Binary32.finite 1)
            located.m_currentSegment.m_weightForSegmentEnd },
        { m_motionIndex := located.m_sortedMotions.getD (segIndex + 1) 0
          m_weight := located.m_currentSegment.m_weightForSegmentEnd } ]
    else if ¬ located.m_motionInfos.isEmpty then
      [ { m_motionIndex :=
            if Binary32.lt located.m_currentPosition located.GetRangeMin = true
            then located.m_sortedMotions.headD 0
            else located.m_sortedMotions.getLastD 0
          m_weight := Binary32.finite 1 } ]
    else []
  { located with m_blendInfos := AZStd.sort blendInfoLess blendInfos }

/-- The members of the node `BlendSpace1DNode` that
`GetCurrentSamplePosition` reads: the interactively set position and the flag
that `IsInInteractiveMode()` returns. -/
structure BlendSpace1DNode where
  m_currentPositionSetInteractively : Binary32
  m_interactiveMode : Bool

/-- What `GetCurrentSamplePosition` asks of its `AnimGraphInstance`: the number
that arrives at the input port `INPUTPORT_VALUE` (`none` when nothing is
connected). -/
structure AnimGraphInstance where
  m_inputValue : Option Binary32

/-- `BlendSpace1DNode::GetCurrentSamplePosition`: the interactively set
position in interactive mode, else the number at the input port, else
`(uniqueData.GetRangeMin() + uniqueData.GetRangeMax()) / 2` in `float`
arithmetic. -/
def GetCurrentSamplePosition (node : BlendSpace1DNode) (animGraphInstance : AnimGraphInstance)
    (uniqueData : UniqueData) : Binary32 :=
  if node.m_interactiveMode then node.m_currentPositionSetInteractively
  else
    match animGraphInstance.m_inputValue with
    | some samplePoint => samplePoint
    | none =>
      Binary32.div (Binary32.add uniqueData.GetRangeMin uniqueData.GetRangeMax)
        (Binary32.finite 2)

/-- The sum of the weights of blend entries, accumulated in `float` arithmetic
from `0.0f` in the order of the list. -/
def weightSum (blendInfos : List BlendInfo) : Binary32 :=
  blendInfos.foldl (fun sum blendInfo => Binary32.add sum blendInfo.m_weight)
    (Binary32.finite 0)

/-- The sum of `m_weight * m_motionCoordinates[m_motionIndex]` over blend
entries, as an exact rational; `none` when a weight or a coordinate is not
finite. -/
def weightedCoordinateSum (motionCoordinates : List Binary32) : List BlendInfo → Option ℚ
  | [] => some 0
  | blendInfo :: rest =>
    match blendInfo.m_weight,
      motionCoordinates.getD blendInfo.m_motionIndex (Binary32.finite 0),
      weightedCoordinateSum motionCoordinates rest with
    | Binary32.finite weight, Binary32.finite coordinate, some sum =>
      some (weight * coordinate + sum)
    | _, _, _ => none

/-- The query `q` clamped to the range from `lo` to `hi`, with `float`
comparisons. -/
def clampToRange (lo hi q : Binary32) : Binary32 :=
  if Binary32.lt q lo = true then lo else if Binary32.lt hi q = true then hi else q

/-- The unique data that `UpdateMotionInfos` hands to `SortMotionInstances` for
motions placed at `motionCoordinates`, with the query position
`currentPosition`: one motion info per coordinate (no sync track, play speed 1,
all times 0), nothing sorted, no segment, no blend entries. -/
def UniqueData.ofCoordinates (motionCoordinates : List Binary32) (currentPosition : Binary32) :
    UniqueData :=
  { m_motionInfos := (List.range motionCoordinates.length).map
      (fun handle => { m_motionInstance := some handle, m_syncTrack := none, m_syncIndex := 0
                       m_playSpeed := 1, m_currentTime := 0, m_preSyncTime := 0 })
    m_allMotionsHaveSyncTracks := false
    m_motionCoordinates := motionCoordinates
    m_sortedMotions := []
    m_currentPosition := currentPosition
    m_masterMotionIdx := 0
    m_hasOverlappingCoordinates := false
    m_currentSegment :=
      { m_segmentIndex := MCORE_INVALIDINDEX32, m_weightForSegmentEnd := Binary32.finite 0 }
    m_blendInfos := [] }

/-- An ordering of blend entries "keyed first by weight": the entry with the
larger weight comes first. Used as a sample value of the `blendInfoLess`
parameter. -/
def byWeightDescending (a b : BlendInfo) : Bool := Binary32.lt b.m_weight a.m_weight

/-- The example of the spec, motions A, B, C (indices 0, 1, 2) at the
coordinates 0, 1, 2, after `SortMotionInstances`, with the query position
`currentPosition`. -/
def threeMotions (currentPosition : Binary32) : UniqueData :=
  SortMotionInstances
    (UniqueData.ofCoordinates [Binary32.finite 0, Binary32.finite 1, Binary32.finite 2]
      currentPosition)

/-- Two motions (indices 0 and 1) at the coordinates `a` and `b`, after
`SortMotionInstances`, with the query position `currentPosition`. -/
def twoMotions (a b currentPosition : Binary32) : UniqueData :=
  SortMotionInstances (UniqueData.ofCoordinates [a, b] currentPosition)

/-- A node that is not in interactive mode. -/
def idleNode : BlendSpace1DNode :=
  { m_currentPositionSetInteractively := Binary32.finite 0, m_interactiveMode := false }

/-- An evaluation context with nothing connected to the input port. -/
def unconnectedInstance : AnimGraphInstance := { m_inputValue := none }

end SinglePrecision

end EMotionFX

/-! ## The sort -/

namespace AZStd

theorem insertSorted_perm {α : Type} (lt : α → α → Bool) (x : α) (l : List α) :
    (insertSorted lt x l).Perm (x :: l) := by
  induction l with
  | nil => exact List.Perm.refl _
  | cons y ys ih =>
    unfold insertSorted
    split
    · exact ((List.perm_cons y).mpr ih).trans (List.Perm.swap x y ys)
    · exact List.Perm.refl _

theorem sort_perm {α : Type} (lt : α → α → Bool) (l : List α) :
    (sort lt l).Perm l := by
  induction l with
  | nil => exact List.Perm.refl _
  | cons x xs ih =>
    unfold sort
    exact (insertSorted_perm lt x _).trans ((List.perm_cons x).mpr ih)

theorem sort_length {α : Type} (lt : α → α → Bool) (l : List α) :
    (sort lt l).length = l.length :=
  (sort_perm lt l).length_eq

theorem insertSorted_pairwise {α : Type} (key : α → ℚ) (lt : α → α → Bool)
    (hlt : ∀ a b, lt a b = decide (key a < key b)) (x : α) (l : List α)
    (hl : l.Pairwise (fun a b => key a ≤ key b)) :
    (insertSorted lt x l).Pairwise (fun a b => key a ≤ key b) := by
  induction l with
  | nil => simp [insertSorted]
  | cons y ys ih =>
    rw [List.pairwise_cons] at hl
    unfold insertSorted
    by_cases hyx : key y < key x
    · rw [if_pos (by rw [hlt]; exact decide_eq_true hyx), List.pairwise_cons]
      refine ⟨?_, ih hl.2⟩
      intro z hz
      rcases List.mem_cons.mp ((insertSorted_perm lt x ys).mem_iff.mp hz) with rfl | hz
      · exact le_of_lt hyx
      · exact hl.1 z hz
    · rw [if_neg (by rw [hlt]; simpa using hyx), List.pairwise_cons]
      refine ⟨?_, List.pairwise_cons.mpr hl⟩
      intro z hz
      rcases List.mem_cons.mp hz with rfl | hz
      · exact not_lt.mp hyx
      · exact le_trans (not_lt.mp hyx) (hl.1 z hz)

theorem sort_pairwise {α : Type} (key : α → ℚ) (lt : α → α → Bool)
    (hlt : ∀ a b, lt a b = decide (key a < key b)) (l : List α) :
    (sort lt l).Pairwise (fun a b => key a ≤ key b) := by
  induction l with
  | nil => simp [sort]
  | cons x xs ih =>
    unfold sort
    exact insertSorted_pairwise key lt hlt x _ ih

end AZStd

namespace EMotionFX

namespace BlendSpace1DNode

/-! ## `SortMotionInstances` -/

theorem sortMotionInstances_sortedMotions (d : UniqueData) :
    (SortMotionInstances d).m_sortedMotions =
      AZStd.sort (MotionSortComparer d.m_motionCoordinates)
        (List.range (d.m_motionCoordinates.length % 65536)) := rfl

theorem sortMotionInstances_perm (d : UniqueData) :
    (SortMotionInstances d).m_sortedMotions.Perm
      (List.range (d.m_motionCoordinates.length % 65536)) := by
  rw [sortMotionInstances_sortedMotions]
  exact AZStd.sort_perm _ _

theorem sortMotionInstances_length (d : UniqueData) :
    (SortMotionInstances d).m_sortedMotions.length = d.m_motionCoordinates.length % 65536 := by
  rw [(sortMotionInstances_perm d).length_eq, List.length_range]

theorem sortMotionInstances_pairwise (d : UniqueData) :
    (SortMotionInstances d).m_sortedMotions.Pairwise
      (fun a b => d.m_motionCoordinates.getD a 0 ≤ d.m_motionCoordinates.getD b 0) := by
  rw [sortMotionInstances_sortedMotions]
  exact AZStd.sort_pairwise (fun a => d.m_motionCoordinates.getD a 0) _ (fun _ _ => rfl) _

theorem sortMotionInstances_sortedCoordinate_le (d : UniqueData) (i j : Nat) (hij : i < j)
    (hj : j < (SortMotionInstances d).m_sortedMotions.length) :
    (SortMotionInstances d).sortedCoordinate i ≤ (SortMotionInstances d).sortedCoordinate j := by
  have hp := List.pairwise_iff_getElem.mp (sortMotionInstances_pairwise d) i j
    (lt_trans hij hj) hj hij
  unfold UniqueData.sortedCoordinate
  rw [List.getD_eq_getElem _ _ hj, List.getD_eq_getElem _ _ (lt_trans hij hj)]
  exact hp

/-- What the scan loop writes when it stops at index `j`. -/
theorem segmentLoop_eq_some (d : UniqueData) (remaining i : Nat) (seg : CurrentSegmentInfo)
    (h : segmentLoop d i remaining = some seg) :
    ∃ j, i ≤ j ∧ j < i + remaining ∧
      (d.sortedCoordinate (j - 1) ≤ d.m_currentPosition ∧
        d.m_currentPosition ≤ d.sortedCoordinate j) ∧
      (∀ k, i ≤ k → k < j →
        ¬ (d.sortedCoordinate (k - 1) ≤ d.m_currentPosition ∧
          d.m_currentPosition ≤ d.sortedCoordinate k)) ∧
      seg.m_segmentIndex = j - 1 ∧
      seg.m_weightForSegmentEnd =
        if d.sortedCoordinate j - d.sortedCoordinate (j - 1) ≤ 0 then 0
        else (d.m_currentPosition - d.sortedCoordinate (j - 1)) /
          (d.sortedCoordinate j - d.sortedCoordinate (j - 1)) := by
  induction remaining generalizing i with
  | zero => simp [segmentLoop] at h
  | succ r ih =>
    unfold segmentLoop at h
    by_cases hc : d.sortedCoordinate (i - 1) ≤ d.m_currentPosition ∧
        d.m_currentPosition ≤ d.sortedCoordinate i
    · refine ⟨i, le_refl _, by omega, hc, fun k h1 h2 => absurd h2 (not_lt.mpr h1), ?_⟩
      simp only [ge_iff_le, hc, and_self, if_true] at h
      by_cases hl : d.sortedCoordinate i - d.sortedCoordinate (i - 1) ≤ 0
      · simp only [hl, if_true, Option.some.injEq] at h
        subst h
        simp [hl]
      · simp only [hl, if_false, Option.some.injEq] at h
        subst h
        simp [hl]
    · simp only [ge_iff_le, hc, if_false] at h
      obtain ⟨j, h1, h2, h3, h4, h5⟩ := ih (i + 1) h
      refine ⟨j, by omega, by omega, h3, ?_, h5⟩
      intro k hk1 hk2
      by_cases hki : k = i
      · subst hki
        exact hc
      · exact h4 k (by omega) hk2

/-- The scan loop runs to its end exactly when no index of its range brackets
the query position. -/
theorem segmentLoop_eq_none_iff (d : UniqueData) (remaining i : Nat) :
    segmentLoop d i remaining = none ↔
      ∀ j, i ≤ j → j < i + remaining →
        ¬ (d.sortedCoordinate (j - 1) ≤ d.m_currentPosition ∧
          d.m_currentPosition ≤ d.sortedCoordinate j) := by
  induction remaining generalizing i with
  | zero =>
    simp only [segmentLoop, add_zero, true_iff]
    intro j h1 h2
    omega
  | succ r ih =>
    unfold segmentLoop
    by_cases hc : d.sortedCoordinate (i - 1) ≤ d.m_currentPosition ∧
        d.m_currentPosition ≤ d.sortedCoordinate i
    · simp only [ge_iff_le, hc, and_self, if_true]
      constructor
      · intro h
        split at h <;> simp at h
      · intro h
        exact absurd hc (h i (le_refl _) (by omega))
    · simp only [ge_iff_le, hc, if_false]
      rw [ih]
      constructor
      · intro h j h1 h2
        by_cases hji : j = i
        · subst hji
          exact hc
        · exact h j (by omega) (by omega)
      · intro h j h1 h2
        exact h j (by omega) (by omega)

theorem getRangeMin_eq (d : UniqueData) (h : d.m_sortedMotions ≠ []) :
    d.GetRangeMin = d.sortedCoordinate 0 := by
  unfold UniqueData.GetRangeMin UniqueData.sortedCoordinate
  cases hs : d.m_sortedMotions with
  | nil => exact absurd hs h
  | cons a t => simp

theorem getRangeMax_eq (d : UniqueData) (h : d.m_sortedMotions ≠ []) :
    d.GetRangeMax = d.sortedCoordinate (d.m_sortedMotions.length - 1) := by
  unfold UniqueData.GetRangeMax UniqueData.sortedCoordinate
  have hne : d.m_sortedMotions.isEmpty = false := by
    cases hs : d.m_sortedMotions with
    | nil => exact absurd hs h
    | cons a t => rfl
  have hlen : d.m_sortedMotions.length - 1 < d.m_sortedMotions.length :=
    Nat.sub_lt (List.length_pos.mpr h) Nat.one_pos
  rw [hne, List.getD_eq_getElem _ _ hlen]
  simp only [Bool.false_eq_true, if_false]
  congr 1
  rw [List.getLastD_eq_getLast?, List.getLast?_eq_getLast _ h, List.getLast_eq_getElem]
  rfl

/-- The two ways `FindLineSegmentForCurrentPoint` returns: a failure that only
invalidates the segment index, or a success that stores the segment written by
the scan loop. -/
theorem findLineSegment_cases (d : UniqueData) :
    ((d.m_sortedMotions.length % 4294967296 < 2 ∨ d.m_currentPosition < d.GetRangeMin
        ∨ d.m_currentPosition > d.GetRangeMax
        ∨ segmentLoop d 1 (d.m_sortedMotions.length % 4294967296 - 1) = none) ∧
      FindLineSegmentForCurrentPoint d = (false, d.invalidateSegment)) ∨
    (¬ (d.m_sortedMotions.length % 4294967296 < 2 ∨ d.m_currentPosition < d.GetRangeMin
        ∨ d.m_currentPosition > d.GetRangeMax) ∧
      ∃ seg, segmentLoop d 1 (d.m_sortedMotions.length % 4294967296 - 1) = some seg ∧
        FindLineSegmentForCurrentPoint d = (true, { d with m_currentSegment := seg })) := by
  unfold FindLineSegmentForCurrentPoint
  by_cases hg : d.m_sortedMotions.length % 4294967296 < 2 ∨ d.m_currentPosition < d.GetRangeMin
      ∨ d.m_currentPosition > d.GetRangeMax
  · left
    refine ⟨?_, by simp only [hg, if_true]⟩
    rcases hg with h | h | h
    · exact Or.inl h
    · exact Or.inr (Or.inl h)
    · exact Or.inr (Or.inr (Or.inl h))
  · cases hs : segmentLoop d 1 (d.m_sortedMotions.length % 4294967296 - 1) with
    | none =>
      left
      refine ⟨Or.inr (Or.inr (Or.inr rfl)), ?_⟩
      simp only [hg, if_false, hs]
    | some seg =>
      right
      refine ⟨hg, seg, rfl, ?_⟩
      simp only [hg, if_false, hs]

/-- A segment index written by the scan loop of `FindLineSegmentForCurrentPoint`
is never the sentinel. -/
theorem segmentLoop_index_ne_invalid (d : UniqueData) (seg : CurrentSegmentInfo)
    (h : segmentLoop d 1 (d.m_sortedMotions.length % 4294967296 - 1) = some seg) :
    seg.m_segmentIndex ≠ MCORE_INVALIDINDEX32 := by
  obtain ⟨j, h1, h2, -, -, h5, -⟩ := segmentLoop_eq_some d _ 1 seg h
  have hmod : d.m_sortedMotions.length % 4294967296 < 4294967296 :=
    Nat.mod_lt _ (by norm_num)
  rw [h5]
  unfold MCORE_INVALIDINDEX32
  omega

/-- The return value of `FindLineSegmentForCurrentPoint` and the stored segment
index agree: `false` goes with the sentinel, `true` with a real index. -/
theorem findLineSegment_false_iff_invalid (d : UniqueData) :
    (FindLineSegmentForCurrentPoint d).1 = false ↔
      (FindLineSegmentForCurrentPoint d).2.m_currentSegment.m_segmentIndex =
        MCORE_INVALIDINDEX32 := by
  rcases findLineSegment_cases d with ⟨-, h⟩ | ⟨-, seg, hs, h⟩
  · rw [h]
    simp [UniqueData.invalidateSegment]
  · rw [h]
    simp only [Bool.true_eq_false, false_iff]
    exact segmentLoop_index_ne_invalid d seg hs

theorem findLineSegment_frame (d : UniqueData) :
    (FindLineSegmentForCurrentPoint d).2.m_sortedMotions = d.m_sortedMotions ∧
    (FindLineSegmentForCurrentPoint d).2.m_motionCoordinates = d.m_motionCoordinates ∧
    (FindLineSegmentForCurrentPoint d).2.m_motionInfos = d.m_motionInfos ∧
    (FindLineSegmentForCurrentPoint d).2.m_currentPosition = d.m_currentPosition ∧
    (FindLineSegmentForCurrentPoint d).2.m_blendInfos = d.m_blendInfos := by
  rcases findLineSegment_cases d with ⟨-, h⟩ | ⟨-, seg, -, h⟩ <;> rw [h] <;>
    simp [UniqueData.invalidateSegment]

/-! ## `UpdateBlendingInfoForCurrentPoint` -/

theorem segmentLoop_invalidateSegment (d : UniqueData) (remaining i : Nat) :
    segmentLoop d.invalidateSegment i remaining = segmentLoop d i remaining := by
  induction remaining generalizing i with
  | zero => rfl
  | succ r ih =>
    unfold segmentLoop
    rw [ih]
    rfl

/-- The two outcomes of `UpdateBlendingInfoForCurrentPoint`: the scan loop
stored a segment and the two entries of that segment are sorted into
`m_blendInfos`, or the segment index is the sentinel and the entry list is the
boundary entry (when there are motion infos) or empty. The previous segment
index and the previous blend entries are not read. -/
theorem updateBlendingInfo_cases (blendInfoLess : BlendInfo → BlendInfo → Bool)
    (d : UniqueData) :
    (∃ seg, segmentLoop d 1 (d.m_sortedMotions.length % 4294967296 - 1) = some seg ∧
      ¬ (d.m_sortedMotions.length % 4294967296 < 2 ∨ d.m_currentPosition < d.GetRangeMin
        ∨ d.m_currentPosition > d.GetRangeMax) ∧
      seg.m_segmentIndex ≠ MCORE_INVALIDINDEX32 ∧
      (UpdateBlendingInfoForCurrentPoint blendInfoLess d).m_currentSegment = seg ∧
      (UpdateBlendingInfoForCurrentPoint blendInfoLess d).m_blendInfos =
        AZStd.sort blendInfoLess
          [ { m_motionIndex := d.m_sortedMotions.getD seg.m_segmentIndex 0
              m_weight := 1 - seg.m_weightForSegmentEnd },
            { m_motionIndex := d.m_sortedMotions.getD (seg.m_segmentIndex + 1) 0
              m_weight := seg.m_weightForSegmentEnd } ]) ∨
    ((d.m_sortedMotions.length % 4294967296 < 2 ∨ d.m_currentPosition < d.GetRangeMin
        ∨ d.m_currentPosition > d.GetRangeMax
        ∨ segmentLoop d 1 (d.m_sortedMotions.length % 4294967296 - 1) = none) ∧
      (UpdateBlendingInfoForCurrentPoint blendInfoLess d).m_currentSegment.m_segmentIndex =
        MCORE_INVALIDINDEX32 ∧
      (UpdateBlendingInfoForCurrentPoint blendInfoLess d).m_blendInfos =
        AZStd.sort blendInfoLess
          (if d.m_motionInfos = [] then []
           else [ { m_motionIndex :=
                      if d.m_currentPosition < d.GetRangeMin then d.m_sortedMotions.headD 0
                      else d.m_sortedMotions.getLastD 0
                    m_weight := 1 } ])) := by
  rcases findLineSegment_cases d.invalidateSegment with ⟨hg, h⟩ | ⟨hg, seg, hs, h⟩
  · right
    refine ⟨?_, ?_, ?_⟩
    · rw [segmentLoop_invalidateSegment] at hg
      exact hg
    · unfold UpdateBlendingInfoForCurrentPoint
      simp only [h]
      rfl
    · unfold UpdateBlendingInfoForCurrentPoint
      simp only [h]
      have hidx : d.invalidateSegment.invalidateSegment.m_currentSegment.m_segmentIndex =
          MCORE_INVALIDINDEX32 := rfl
      simp only [hidx, ne_eq, not_true_eq_false, if_false]
      by_cases hm : d.m_motionInfos = []
      · simp [hm, UniqueData.invalidateSegment]
      · have hm2 : d.m_motionInfos.isEmpty = false := by
          cases hmi : d.m_motionInfos with
          | nil => exact absurd hmi hm
          | cons a t => rfl
        simp only [hm, if_false]
        simp only [UniqueData.invalidateSegment, hm2, Bool.false_eq_true, not_false_eq_true,
          if_true]
        rfl
  · left
    rw [segmentLoop_invalidateSegment] at hs
    have hne := segmentLoop_index_ne_invalid d seg hs
    refine ⟨seg, hs, hg, hne, ?_, ?_⟩
    · unfold UpdateBlendingInfoForCurrentPoint
      simp only [h]
    · unfold UpdateBlendingInfoForCurrentPoint
      simp only [h, ne_eq, hne, not_false_eq_true, if_true]
      rfl

theorem updateBlendingInfo_frame (blendInfoLess : BlendInfo → BlendInfo → Bool)
    (d : UniqueData) :
    (UpdateBlendingInfoForCurrentPoint blendInfoLess d).m_sortedMotions = d.m_sortedMotions ∧
    (UpdateBlendingInfoForCurrentPoint blendInfoLess d).m_motionCoordinates =
      d.m_motionCoordinates ∧
    (UpdateBlendingInfoForCurrentPoint blendInfoLess d).m_motionInfos = d.m_motionInfos ∧
    (UpdateBlendingInfoForCurrentPoint blendInfoLess d).m_currentPosition =
      d.m_currentPosition := by
  obtain ⟨h1, h2, h3, h4, -⟩ := findLineSegment_frame d.invalidateSegment
  unfold UpdateBlendingInfoForCurrentPoint
  exact ⟨h1, h2, h3, h4⟩

/-! ## The contract of the sort -/

theorem ofCoordinates_replicate_length (n : Nat) (c q : ℚ) :
    (UniqueData.ofCoordinates (List.replicate n c) q).m_motionCoordinates.length = n :=
  List.length_replicate n c

/-- C2, as amended: when the number `n` of coordinates fits the `AZ::u16` in
which `SortMotionInstances` holds it (`n <= 65535`), `m_sortedMotions` has
length `n` after the call and is a permutation of `0 .. n-1`: every index
below `n` occurs in it exactly once. -/
theorem sortMotionInstances_permutation (d : UniqueData) (k : Nat)
    (hfit : d.m_motionCoordinates.length < 65536) (hk : k < d.m_motionCoordinates.length) :
    (SortMotionInstances d).m_sortedMotions.length = d.m_motionCoordinates.length ∧
      (SortMotionInstances d).m_sortedMotions.Perm (List.range d.m_motionCoordinates.length) ∧
      (SortMotionInstances d).m_sortedMotions.count k = 1 := by
  have hp := sortMotionInstances_perm d
  rw [Nat.mod_eq_of_lt hfit] at hp
  refine ⟨by rw [hp.length_eq, List.length_range], hp, ?_⟩
  rw [hp.count_eq]
  exact List.count_eq_one_of_mem (List.nodup_range _) (List.mem_range.mpr hk)

/-- C2, the amended statement at the coordinates `[2, 0, 1]` and the index 2. -/
theorem sortMotionInstances_permutation_witness :
    (UniqueData.ofCoordinates [2, 0, 1] 0).m_motionCoordinates.length < 65536 ∧
      2 < (UniqueData.ofCoordinates [2, 0, 1] 0).m_motionCoordinates.length ∧
      (SortMotionInstances (UniqueData.ofCoordinates [2, 0, 1] 0)).m_sortedMotions.length =
        (UniqueData.ofCoordinates [2, 0, 1] 0).m_motionCoordinates.length ∧
      (SortMotionInstances (UniqueData.ofCoordinates [2, 0, 1] 0)).m_sortedMotions.Perm
        (List.range (UniqueData.ofCoordinates [2, 0, 1] 0).m_motionCoordinates.length) ∧
      (SortMotionInstances (UniqueData.ofCoordinates [2, 0, 1] 0)).m_sortedMotions.count 2 = 1 :=
  ⟨by decide, by decide,
    sortMotionInstances_permutation (UniqueData.ofCoordinates [2, 0, 1] 0) 2
      (by decide) (by decide)⟩

/-- C2 as stated fails for 65536 coordinates (all 0): the `AZ::u16` count wraps
to 0 and `m_sortedMotions` is left empty, so its length is not `n` and the
index 0 does not occur in it. -/
theorem sortMotionInstances_permutation_fails_at_65536 :
    (UniqueData.ofCoordinates (List.replicate 65536 0) 0).m_motionCoordinates.length = 65536 ∧
      (SortMotionInstances
        (UniqueData.ofCoordinates (List.replicate 65536 0) 0)).m_sortedMotions = [] ∧
      (SortMotionInstances
        (UniqueData.ofCoordinates (List.replicate 65536 0) 0)).m_sortedMotions.length ≠
        (UniqueData.ofCoordinates (List.replicate 65536 0) 0).m_motionCoordinates.length ∧
      (SortMotionInstances
        (UniqueData.ofCoordinates (List.replicate 65536 0) 0)).m_sortedMotions.count 0 ≠ 1 := by
  have hn := ofCoordinates_replicate_length 65536 0 0
  have hnil : (SortMotionInstances
      (UniqueData.ofCoordinates (List.replicate 65536 0) 0)).m_sortedMotions = [] := by
    apply List.eq_nil_of_length_eq_zero
    rw [sortMotionInstances_length, hn]
  refine ⟨hn, hnil, ?_, ?_⟩
  · rw [hnil, hn]
    decide
  · rw [hnil]
    decide

/-- C7: when `UpdateBlendingInfoForCurrentPoint` leaves a located segment
`(s, f)`, the reads `m_sortedMotions[s]` and `m_sortedMotions[s+1]` are in
bounds and `m_blendInfos` consists of exactly two entries, in some order:
`(m_sortedMotions[s], 1 - f)` and `(m_sortedMotions[s+1], f)`. -/
theorem updateBlendingInfo_segment_entries (blendInfoLess : BlendInfo → BlendInfo → Bool)
    (d : UniqueData)
    (h : (UpdateBlendingInfoForCurrentPoint blendInfoLess d).m_currentSegment.m_segmentIndex ≠
      MCORE_INVALIDINDEX32) :
    ∃ lower upper,
      d.m_sortedMotions[(UpdateBlendingInfoForCurrentPoint blendInfoLess
        d).m_currentSegment.m_segmentIndex]? = some lower ∧
      d.m_sortedMotions[(UpdateBlendingInfoForCurrentPoint blendInfoLess
        d).m_currentSegment.m_segmentIndex + 1]? = some upper ∧
      (UpdateBlendingInfoForCurrentPoint blendInfoLess d).m_blendInfos.length = 2 ∧
      (UpdateBlendingInfoForCurrentPoint blendInfoLess d).m_blendInfos.Perm
        [ { m_motionIndex := lower
            m_weight := 1 - (UpdateBlendingInfoForCurrentPoint blendInfoLess
              d).m_currentSegment.m_weightForSegmentEnd },
          { m_motionIndex := upper
            m_weight := (UpdateBlendingInfoForCurrentPoint blendInfoLess
              d).m_currentSegment.m_weightForSegmentEnd } ] := by
  rcases updateBlendingInfo_cases blendInfoLess d with ⟨seg, hs, -, -, hseg, hb⟩ | ⟨-, hidx, -⟩
  · obtain ⟨j, h1, h2, -, -, hj, -⟩ := segmentLoop_eq_some d _ 1 seg hs
    have hle : d.m_sortedMotions.length % 4294967296 ≤ d.m_sortedMotions.length :=
      Nat.mod_le _ _
    have hlo : seg.m_segmentIndex < d.m_sortedMotions.length := by omega
    have hup : seg.m_segmentIndex + 1 < d.m_sortedMotions.length := by omega
    rw [hseg, hb]
    refine ⟨d.m_sortedMotions.getD seg.m_segmentIndex 0,
      d.m_sortedMotions.getD (seg.m_segmentIndex + 1) 0, ?_, ?_, ?_, AZStd.sort_perm _ _⟩
    · rw [List.getElem?_eq_getElem hlo, List.getD_eq_getElem _ _ hlo]
    · rw [List.getElem?_eq_getElem hup, List.getD_eq_getElem _ _ hup]
    · rw [AZStd.sort_length]
      rfl
  · exact absurd hidx h

/-- C7 at the motions 0, 1, 2 with the query 3/2. -/
theorem updateBlendingInfo_segment_entries_witness :
    (UpdateBlendingInfoForCurrentPoint byWeightDescending
        (threeMotions (3 / 2))).m_currentSegment.m_segmentIndex ≠ MCORE_INVALIDINDEX32 ∧
    ∃ lower upper,
      (threeMotions (3 / 2)).m_sortedMotions[(UpdateBlendingInfoForCurrentPoint byWeightDescending
        (threeMotions (3 / 2))).m_currentSegment.m_segmentIndex]? = some lower ∧
      (threeMotions (3 / 2)).m_sortedMotions[(UpdateBlendingInfoForCurrentPoint byWeightDescending
        (threeMotions (3 / 2))).m_currentSegment.m_segmentIndex + 1]? = some upper ∧
      (UpdateBlendingInfoForCurrentPoint byWeightDescending
        (threeMotions (3 / 2))).m_blendInfos.length = 2 ∧
      (UpdateBlendingInfoForCurrentPoint byWeightDescending
          (threeMotions (3 / 2))).m_blendInfos.Perm
        [ { m_motionIndex := lower
            m_weight := 1 - (UpdateBlendingInfoForCurrentPoint byWeightDescending
              (threeMotions (3 / 2))).m_currentSegment.m_weightForSegmentEnd },
          { m_motionIndex := upper
            m_weight := (UpdateBlendingInfoForCurrentPoint byWeightDescending
              (threeMotions (3 / 2))).m_currentSegment.m_weightForSegmentEnd } ] :=
  ⟨by decide!, updateBlendingInfo_segment_entries byWeightDescending (threeMotions (3 / 2))
    (by decide!)⟩

/-- C9: with no motion infos and an empty sorted permutation (so in particular
with zero motions, where the coordinates are empty too),
`UpdateBlendingInfoForCurrentPoint` leaves `m_blendInfos` empty and the segment
index at the sentinel, for every query position. -/
theorem updateBlendingInfo_zero_motions (blendInfoLess : BlendInfo → BlendInfo → Bool)
    (d : UniqueData) (hinfos : d.m_motionInfos = []) (hsorted : d.m_sortedMotions = []) :
    (UpdateBlendingInfoForCurrentPoint blendInfoLess d).m_blendInfos = [] ∧
      (UpdateBlendingInfoForCurrentPoint blendInfoLess d).m_currentSegment.m_segmentIndex =
        MCORE_INVALIDINDEX32 := by
  rcases updateBlendingInfo_cases blendInfoLess d with ⟨seg, -, hg, -, -, -⟩ | ⟨-, hidx, hb⟩
  · rw [hsorted] at hg
    simp at hg
  · refine ⟨?_, hidx⟩
    rw [hb, if_pos hinfos]
    rfl

/-- C9 at the empty configuration with the query 5. -/
theorem updateBlendingInfo_zero_motions_witness :
    (UniqueData.ofCoordinates [] 5).m_motionInfos = [] ∧
      (UniqueData.ofCoordinates [] 5).m_sortedMotions = [] ∧
      (UpdateBlendingInfoForCurrentPoint byWeightDescending
        (UniqueData.ofCoordinates [] 5)).m_blendInfos = [] ∧
      (UpdateBlendingInfoForCurrentPoint byWeightDescending
        (UniqueData.ofCoordinates [] 5)).m_currentSegment.m_segmentIndex =
          MCORE_INVALIDINDEX32 :=
  ⟨by decide, by decide,
    updateBlendingInfo_zero_motions byWeightDescending (UniqueData.ofCoordinates [] 5)
      (by decide) (by decide)⟩

/-! ## Idempotence of the evaluation -/

theorem segmentLoop_congr (d e : UniqueData) (hs : d.m_sortedMotions = e.m_sortedMotions)
    (hc : d.m_motionCoordinates = e.m_motionCoordinates)
    (hq : d.m_currentPosition = e.m_currentPosition) (remaining i : Nat) :
    segmentLoop d i remaining = segmentLoop e i remaining := by
  have hsc : ∀ k, d.sortedCoordinate k = e.sortedCoordinate k := by
    intro k
    unfold UniqueData.sortedCoordinate
    rw [hs, hc]
  induction remaining generalizing i with
  | zero => rfl
  | succ r ih =>
    unfold segmentLoop
    simp only [hsc, hq, ih]

theorem getRange_congr (d e : UniqueData) (hs : d.m_sortedMotions = e.m_sortedMotions)
    (hc : d.m_motionCoordinates = e.m_motionCoordinates) :
    d.GetRangeMin = e.GetRangeMin ∧ d.GetRangeMax = e.GetRangeMax := by
  unfold UniqueData.GetRangeMin UniqueData.GetRangeMax
  rw [hs, hc]
  exact ⟨rfl, rfl⟩

/-- The segment that `UpdateBlendingInfoForCurrentPoint` stores is the one
`FindLineSegmentForCurrentPoint` leaves after the index was invalidated. -/
theorem updateBlendingInfo_currentSegment (blendInfoLess : BlendInfo → BlendInfo → Bool)
    (d : UniqueData) :
    (UpdateBlendingInfoForCurrentPoint blendInfoLess d).m_currentSegment =
      (FindLineSegmentForCurrentPoint d.invalidateSegment).2.m_currentSegment := rfl

theorem findLineSegment_frame_flags (d : UniqueData) :
    (FindLineSegmentForCurrentPoint d).2.m_allMotionsHaveSyncTracks =
        d.m_allMotionsHaveSyncTracks ∧
      (FindLineSegmentForCurrentPoint d).2.m_masterMotionIdx = d.m_masterMotionIdx ∧
      (FindLineSegmentForCurrentPoint d).2.m_hasOverlappingCoordinates =
        d.m_hasOverlappingCoordinates := by
  rcases findLineSegment_cases d with ⟨-, h⟩ | ⟨-, seg, -, h⟩ <;> rw [h] <;>
    simp [UniqueData.invalidateSegment]

theorem updateBlendingInfo_frame_flags (blendInfoLess : BlendInfo → BlendInfo → Bool)
    (d : UniqueData) :
    (UpdateBlendingInfoForCurrentPoint blendInfoLess d).m_allMotionsHaveSyncTracks =
        d.m_allMotionsHaveSyncTracks ∧
      (UpdateBlendingInfoForCurrentPoint blendInfoLess d).m_masterMotionIdx =
        d.m_masterMotionIdx ∧
      (UpdateBlendingInfoForCurrentPoint blendInfoLess d).m_hasOverlappingCoordinates =
        d.m_hasOverlappingCoordinates := by
  obtain ⟨h1, h2, h3⟩ := findLineSegment_frame_flags d.invalidateSegment
  unfold UpdateBlendingInfoForCurrentPoint
  exact ⟨h1, h2, h3⟩

/-- When `UpdateBlendingInfoForCurrentPoint` leaves no segment, the fraction
member is the one the unique data held before the call. -/
theorem updateBlendingInfo_stale_weight (blendInfoLess : BlendInfo → BlendInfo → Bool)
    (d : UniqueData)
    (h : (UpdateBlendingInfoForCurrentPoint blendInfoLess d).m_currentSegment.m_segmentIndex =
      MCORE_INVALIDINDEX32) :
    (UpdateBlendingInfoForCurrentPoint blendInfoLess d).m_currentSegment.m_weightForSegmentEnd =
      d.m_currentSegment.m_weightForSegmentEnd := by
  rw [updateBlendingInfo_currentSegment] at h ⊢
  rcases findLineSegment_cases d.invalidateSegment with ⟨-, hf⟩ | ⟨-, seg, hs, hf⟩
  · rw [hf]
    rfl
  · rw [hf] at h
    exact absurd h (segmentLoop_index_ne_invalid _ seg hs)

/-- Two unique-data states with the same sorted permutation, coordinates,
query position and motion infos get the same blend entries and the same
located segment from `UpdateBlendingInfoForCurrentPoint`. -/
theorem updateBlendingInfo_congr (blendInfoLess : BlendInfo → BlendInfo → Bool)
    (d e : UniqueData) (hs : d.m_sortedMotions = e.m_sortedMotions)
    (hc : d.m_motionCoordinates = e.m_motionCoordinates)
    (hq : d.m_currentPosition = e.m_currentPosition)
    (hm : d.m_motionInfos = e.m_motionInfos) :
    (UpdateBlendingInfoForCurrentPoint blendInfoLess d).m_blendInfos =
        (UpdateBlendingInfoForCurrentPoint blendInfoLess e).m_blendInfos ∧
      (UpdateBlendingInfoForCurrentPoint blendInfoLess d).m_currentSegment.m_segmentIndex =
        (UpdateBlendingInfoForCurrentPoint blendInfoLess e).m_currentSegment.m_segmentIndex ∧
      ((UpdateBlendingInfoForCurrentPoint blendInfoLess d).m_currentSegment.m_segmentIndex =
          MCORE_INVALIDINDEX32 ∨
        (UpdateBlendingInfoForCurrentPoint blendInfoLess d).m_currentSegment =
          (UpdateBlendingInfoForCurrentPoint blendInfoLess e).m_currentSegment) := by
  have hloop := segmentLoop_congr d e hs hc hq (d.m_sortedMotions.length % 4294967296 - 1) 1
  obtain ⟨hmin, hmax⟩ := getRange_congr d e hs hc
  rcases updateBlendingInfo_cases blendInfoLess d with
    ⟨seg, hsd, hgd, -, hsegd, hbd⟩ | ⟨hgd, hid, hbd⟩ <;>
  rcases updateBlendingInfo_cases blendInfoLess e with
    ⟨seg2, hse, hge, -, hsege, hbe⟩ | ⟨hge, hie, hbe⟩
  · rw [← hs, ← hloop, hsd] at hse
    cases hse
    refine ⟨?_, ?_, Or.inr ?_⟩
    · rw [hbd, hbe, hs]
    · rw [hsegd, hsege]
    · rw [hsegd, hsege]
  · exfalso
    rw [← hs, ← hq, ← hmin, ← hmax, ← hloop, hsd] at hge
    rcases hge with h | h | h | h
    · exact hgd (Or.inl h)
    · exact hgd (Or.inr (Or.inl h))
    · exact hgd (Or.inr (Or.inr h))
    · simp at h
  · exfalso
    rw [← hs, ← hq, ← hmin, ← hmax] at hge
    rw [← hs, ← hloop] at hse
    rcases hgd with h | h | h | h
    · exact hge (Or.inl h)
    · exact hge (Or.inr (Or.inl h))
    · exact hge (Or.inr (Or.inr h))
    · rw [h] at hse
      simp at hse
  · refine ⟨?_, ?_, Or.inl hid⟩
    · rw [hbd, hbe, hs, hq, hm, hmin]
    · rw [hid, hie]

theorem UniqueData.eq_of_members (a b : UniqueData)
    (h1 : a.m_motionInfos = b.m_motionInfos)
    (h2 : a.m_allMotionsHaveSyncTracks = b.m_allMotionsHaveSyncTracks)
    (h3 : a.m_motionCoordinates = b.m_motionCoordinates)
    (h4 : a.m_sortedMotions = b.m_sortedMotions)
    (h5 : a.m_currentPosition = b.m_currentPosition)
    (h6 : a.m_masterMotionIdx = b.m_masterMotionIdx)
    (h7 : a.m_hasOverlappingCoordinates = b.m_hasOverlappingCoordinates)
    (h8 : a.m_currentSegment.m_segmentIndex = b.m_currentSegment.m_segmentIndex)
    (h9 : a.m_currentSegment.m_weightForSegmentEnd = b.m_currentSegment.m_weightForSegmentEnd)
    (h10 : a.m_blendInfos = b.m_blendInfos) : a = b := by
  cases a with
  | mk a1 a2 a3 a4 a5 a6 a7 a8 a9 =>
    cases b with
    | mk b1 b2 b3 b4 b5 b6 b7 b8 b9 =>
      cases a8
      cases b8
      simp_all

/-- C11: `UpdateBlendingInfoForCurrentPoint` is idempotent, running it on its
own result gives that result again (segment and blend entries included); and
its blend entries and its located segment do not depend on the segment
`seg0` or the blend entries `bl0` left by an earlier evaluation: the entries
and the segment index are the same, and so is the fraction whenever a segment
is located. -/
theorem updateBlendingInfo_idempotent (blendInfoLess : BlendInfo → BlendInfo → Bool)
    (d : UniqueData) (seg0 : CurrentSegmentInfo) (bl0 : List BlendInfo) :
    UpdateBlendingInfoForCurrentPoint blendInfoLess
        (UpdateBlendingInfoForCurrentPoint blendInfoLess d) =
      UpdateBlendingInfoForCurrentPoint blendInfoLess d ∧
    (UpdateBlendingInfoForCurrentPoint blendInfoLess
        { d with m_currentSegment := seg0, m_blendInfos := bl0 }).m_blendInfos =
      (UpdateBlendingInfoForCurrentPoint blendInfoLess d).m_blendInfos ∧
    (UpdateBlendingInfoForCurrentPoint blendInfoLess
        { d with m_currentSegment := seg0, m_blendInfos := bl0 }).m_currentSegment.m_segmentIndex =
      (UpdateBlendingInfoForCurrentPoint blendInfoLess d).m_currentSegment.m_segmentIndex ∧
    ((UpdateBlendingInfoForCurrentPoint blendInfoLess
          { d with m_currentSegment := seg0, m_blendInfos := bl0 }).m_currentSegment.m_segmentIndex
        = MCORE_INVALIDINDEX32 ∨
      (UpdateBlendingInfoForCurrentPoint blendInfoLess
          { d with m_currentSegment := seg0, m_blendInfos := bl0 }).m_currentSegment =
        (UpdateBlendingInfoForCurrentPoint blendInfoLess d).m_currentSegment) := by
  obtain ⟨f1, f2, f3, f4⟩ := updateBlendingInfo_frame blendInfoLess d
  obtain ⟨g1, g2, g3⟩ := updateBlendingInfo_frame_flags blendInfoLess d
  obtain ⟨ff1, ff2, ff3, ff4⟩ := updateBlendingInfo_frame blendInfoLess
    (UpdateBlendingInfoForCurrentPoint blendInfoLess d)
  obtain ⟨gg1, gg2, gg3⟩ := updateBlendingInfo_frame_flags blendInfoLess
    (UpdateBlendingInfoForCurrentPoint blendInfoLess d)
  obtain ⟨c1, c2, c3⟩ := updateBlendingInfo_congr blendInfoLess
    (UpdateBlendingInfoForCurrentPoint blendInfoLess d) d f1 f2 f4 f3
  refine ⟨?_, updateBlendingInfo_congr blendInfoLess _ d rfl rfl rfl rfl⟩
  apply UniqueData.eq_of_members _ _ ff3 gg1 ff2 ff1 ff4 gg2 gg3 c2 _ c1
  rcases c3 with h | h
  · exact updateBlendingInfo_stale_weight blendInfoLess _ h
  · rw [h]

/-! ## `UpdateMotionInfos` -/

/-- The flags and the motion infos that the loop of `UpdateMotionInfos`
produces: every entry gets `InvalidMotion` exactly when its id does not
resolve, and the motion infos of the resolved entries are appended in the
order of the entries. -/
theorem updateMotionInfosLoop_eq (motionSet : String → Option Nat) (master : String)
    (motions : List BlendSpaceMotion) (motionInfos : List MotionInfo) (idx : Nat) :
    (updateMotionInfosLoop motionSet master motions motionInfos idx).1 =
        motions.map (fun m => { m with m_invalidMotion := (motionSet m.m_motionId).isNone }) ∧
      (updateMotionInfosLoop motionSet master motions motionInfos idx).2.1 =
        motionInfos ++
          (motions.filterMap (fun m => motionSet m.m_motionId)).map freshMotionInfo := by
  induction motions generalizing motionInfos idx with
  | nil => simp [updateMotionInfosLoop]
  | cons m rest ih =>
    unfold updateMotionInfosLoop
    cases hm : motionSet m.m_motionId with
    | none =>
      obtain ⟨h1, h2⟩ := ih motionInfos idx
      refine ⟨?_, ?_⟩
      · simp only [List.map_cons, hm, Option.isNone_none]
        rw [h1]
      · have hfm : List.filterMap (fun m => motionSet m.m_motionId) (m :: rest) =
            List.filterMap (fun m => motionSet m.m_motionId) rest := by
          simp [List.filterMap_cons, hm]
        rw [hfm]
        exact h2
    | some motion =>
      obtain ⟨h1, h2⟩ := ih (AddMotionInfo motionInfos motion)
        (if m.m_motionId = master then
          lastIndexU32 (AddMotionInfo motionInfos motion).length else idx)
      refine ⟨?_, ?_⟩
      · simp only [List.map_cons, hm, Option.isNone_some]
        rw [h1]
      · have hfm : List.filterMap (fun m => motionSet m.m_motionId) (m :: rest) =
            motion :: List.filterMap (fun m => motionSet m.m_motionId) rest := by
          simp [List.filterMap_cons, hm]
        rw [hfm, h2]
        simp [AddMotionInfo]

/-- The master index that the loop of `UpdateMotionInfos` produces. Either no
resolved entry among `motions` carries the master id and the index is the one
the loop started with, or it is `(AZ::u32)size - 1` right after the last
resolved entry with the master id was appended, and the motion info at that
place is the one of the motion the master id resolves to. -/
theorem updateMotionInfosLoop_master (motionSet : String → Option Nat) (master : String)
    (motions : List BlendSpaceMotion) (motionInfos : List MotionInfo) (idx : Nat) :
    (master ∉ (motions.filter (fun m => (motionSet m.m_motionId).isSome)).map
          BlendSpaceMotion.m_motionId ∧
        (updateMotionInfosLoop motionSet master motions motionInfos idx).2.2 = idx) ∨
      ∃ k motion,
        ((motions.filter (fun m => (motionSet m.m_motionId).isSome)).map
            BlendSpaceMotion.m_motionId)[k]? = some master ∧
          (∀ j, k < j →
            ((motions.filter (fun m => (motionSet m.m_motionId).isSome)).map
              BlendSpaceMotion.m_motionId)[j]? ≠ some master) ∧
          motionSet master = some motion ∧
          (updateMotionInfosLoop motionSet master motions motionInfos idx).2.1[
            motionInfos.length + k]? = some (freshMotionInfo motion) ∧
          (updateMotionInfosLoop motionSet master motions motionInfos idx).2.2 =
            lastIndexU32 (motionInfos.length + k + 1) := by
  induction motions generalizing motionInfos idx with
  | nil =>
    left
    simp [updateMotionInfosLoop]
  | cons m rest ih =>
    have heq := (updateMotionInfosLoop_eq motionSet master (m :: rest) motionInfos idx).2
    unfold updateMotionInfosLoop at heq ⊢
    cases hm : motionSet m.m_motionId with
    | none =>
      have hf : (List.filter (fun m => (motionSet m.m_motionId).isSome) (m :: rest)) =
          List.filter (fun m => (motionSet m.m_motionId).isSome) rest := by
        rw [List.filter_cons_of_neg]
        simp [hm]
      rw [hf]
      simp only [hm] at heq ⊢
      exact ih motionInfos idx
    | some motion =>
      have hf : (List.filter (fun m => (motionSet m.m_motionId).isSome) (m :: rest)) =
          m :: List.filter (fun m => (motionSet m.m_motionId).isSome) rest := by
        rw [List.filter_cons_of_pos]
        simp [hm]
      rw [hf]
      simp only [hm] at heq ⊢
      have hlen : (AddMotionInfo motionInfos motion).length = motionInfos.length + 1 := by
        simp [AddMotionInfo]
      rcases ih (AddMotionInfo motionInfos motion)
          (if m.m_motionId = master then
            lastIndexU32 (AddMotionInfo motionInfos motion).length else idx) with
        ⟨hnot, hres⟩ | ⟨k, mo, hk, hlast, hmo, hinfo, hres⟩
      · by_cases hid : m.m_motionId = master
        · right
          refine ⟨0, motion, by simp [hid], ?_, by rw [← hid]; exact hm, ?_, ?_⟩
          · intro j hj
            obtain ⟨j2, rfl⟩ : ∃ j2, j = j2 + 1 := ⟨j - 1, by omega⟩
            rw [List.map_cons, List.getElem?_cons_succ]
            intro hcon
            exact hnot (List.mem_iff_getElem?.mpr ⟨j2, hcon⟩)
          · have hfm : List.filterMap (fun m => motionSet m.m_motionId) (m :: rest) =
                motion :: List.filterMap (fun m => motionSet m.m_motionId) rest := by
              simp [List.filterMap_cons, hm]
            rw [heq, hfm, List.map_cons, List.getElem?_append_right (by omega)]
            simp
          · rw [hres, if_pos hid, hlen]
        · left
          refine ⟨?_, ?_⟩
          · rw [List.map_cons, List.mem_cons]
            rintro (h | h)
            · exact hid h.symm
            · exact hnot h
          · rw [hres, if_neg hid]
      · right
        refine ⟨k + 1, mo, by simpa using hk, ?_, hmo, ?_, ?_⟩
        · intro j hj
          obtain ⟨j2, rfl⟩ : ∃ j2, j = j2 + 1 := ⟨j - 1, by omega⟩
          rw [List.map_cons, List.getElem?_cons_succ]
          exact hlast j2 (by omega)
        · rw [show motionInfos.length + (k + 1) =
              (AddMotionInfo motionInfos motion).length + k by rw [hlen]; omega]
          exact hinfo
        · rw [hres]
          congr 1
          rw [hlen]
          omega

theorem lastIndexU32_eq (size : Nat) (h1 : 1 ≤ size) (h2 : size ≤ 4294967296) :
    lastIndexU32 size = size - 1 := by
  unfold lastIndexU32
  omega

/-! ## `UpdateMotionPositions` -/

theorem vector_resize_length (v : List ℚ) (n : Nat) : (AZStd.vector_resize v n).length = n := by
  unfold AZStd.vector_resize
  rw [List.length_append, List.length_take, List.length_replicate]
  omega

/-- What one iteration of the loop of `UpdateMotionPositions` writes for an
entry that is not flagged invalid: at most the slot `idx`. -/
theorem writtenCoordinates_spec (evaluator : Option BlendSpaceParamEvaluator)
    (motionInfos : List MotionInfo) (motion : BlendSpaceMotion) (idx : Nat) (coords : List ℚ) :
    ∃ written : List ℚ,
      updateMotionPositionsLoop evaluator motionInfos [motion] idx coords =
          (if motion.m_invalidMotion then coords else written) ∧
        written.length = coords.length ∧
        (∀ i, i ≠ idx → written[i]? = coords[i]?) ∧
        (motion.m_userSetCoordinateX = true → written = coords.set idx motion.m_xCoordinate) ∧
        (motion.m_userSetCoordinateX = false → evaluator = none → written = coords) := by
  by_cases hu : motion.m_userSetCoordinateX = true
  · refine ⟨coords.set idx motion.m_xCoordinate, ?_, List.length_set _ _ _, ?_, fun _ => rfl, ?_⟩
    · simp [updateMotionPositionsLoop, hu]
    · intro i hi
      exact List.getElem?_set_ne (Ne.symm hi)
    · intro h
      rw [h] at hu
      simp at hu
  · cases evaluator with
    | none =>
      refine ⟨coords, ?_, rfl, fun _ _ => rfl, fun h => absurd h hu, fun _ _ => rfl⟩
      simp [updateMotionPositionsLoop, hu]
    | some e =>
      cases hinfo : motionInfos[idx]? with
      | none =>
        refine ⟨coords, ?_, rfl, fun _ _ => rfl, fun h => absurd h hu, fun _ _ => rfl⟩
        simp [updateMotionPositionsLoop, hu, hinfo]
      | some motionInfo =>
        cases hinst : motionInfo.m_motionInstance with
        | none =>
          refine ⟨coords, ?_, rfl, fun _ _ => rfl, fun h => absurd h hu, fun _ _ => rfl⟩
          simp [updateMotionPositionsLoop, hu, hinfo, hinst]
        | some motionInstance =>
          refine ⟨coords.set idx (e.ComputeParamValue motionInstance), ?_, List.length_set _ _ _,
            ?_, fun h => absurd h hu, ?_⟩
          · simp [updateMotionPositionsLoop, hu, hinfo, hinst]
          · intro i hi
            exact List.getElem?_set_ne (Ne.symm hi)
          · intro _ h
            simp at h

/-- The loop of `UpdateMotionPositions` on `motion :: rest` is one iteration
followed by the loop on `rest`, with the counter advanced for an entry that is
not flagged invalid. -/
theorem updateMotionPositionsLoop_cons (evaluator : Option BlendSpaceParamEvaluator)
    (motionInfos : List MotionInfo) (motion : BlendSpaceMotion) (rest : List BlendSpaceMotion)
    (idx : Nat) (coords : List ℚ) :
    updateMotionPositionsLoop evaluator motionInfos (motion :: rest) idx coords =
      updateMotionPositionsLoop evaluator motionInfos rest
        (if motion.m_invalidMotion then idx else idx + 1)
        (updateMotionPositionsLoop evaluator motionInfos [motion] idx coords) := by
  by_cases hinv : motion.m_invalidMotion = true
  · simp [updateMotionPositionsLoop, hinv]
  · simp [updateMotionPositionsLoop, hinv]

theorem updateMotionPositionsLoop_length (evaluator : Option BlendSpaceParamEvaluator)
    (motionInfos : List MotionInfo) (motions : List BlendSpaceMotion) (idx : Nat)
    (coords : List ℚ) :
    (updateMotionPositionsLoop evaluator motionInfos motions idx coords).length =
      coords.length := by
  induction motions generalizing idx coords with
  | nil => rfl
  | cons m rest ih =>
    obtain ⟨written, h1, h2, -, -, -⟩ := writtenCoordinates_spec evaluator motionInfos m idx coords
    rw [updateMotionPositionsLoop_cons, ih, h1]
    split
    · rfl
    · exact h2

/-- The loop of `UpdateMotionPositions` entered with the counter `idx` leaves
every slot below `idx` as it is. -/
theorem updateMotionPositionsLoop_below (evaluator : Option BlendSpaceParamEvaluator)
    (motionInfos : List MotionInfo) (motions : List BlendSpaceMotion) (idx : Nat)
    (coords : List ℚ) (i : Nat) (hi : i < idx) :
    (updateMotionPositionsLoop evaluator motionInfos motions idx coords)[i]? = coords[i]? := by
  induction motions generalizing idx coords with
  | nil => rfl
  | cons m rest ih =>
    obtain ⟨written, h1, -, h3, -, -⟩ := writtenCoordinates_spec evaluator motionInfos m idx coords
    rw [updateMotionPositionsLoop_cons, ih _ _ (by split <;> omega), h1]
    split
    · rfl
    · exact h3 i (by omega)

/-- The slot of a valid entry with a user coordinate holds that coordinate
after the loop of `UpdateMotionPositions`. -/
theorem updateMotionPositionsLoop_user (evaluator : Option BlendSpaceParamEvaluator)
    (motionInfos : List MotionInfo) (motions : List BlendSpaceMotion) (idx : Nat)
    (coords : List ℚ) (j : Nat) (m : BlendSpaceMotion) (hj : motions[j]? = some m)
    (hvalid : m.m_invalidMotion = false) (huser : m.m_userSetCoordinateX = true)
    (hslot : idx + (motions.take j).countP (fun e => !e.m_invalidMotion) < coords.length) :
    (updateMotionPositionsLoop evaluator motionInfos motions idx coords)[
      idx + (motions.take j).countP (fun e => !e.m_invalidMotion)]? = some m.m_xCoordinate := by
  induction motions generalizing idx coords j with
  | nil => simp at hj
  | cons m0 rest ih =>
    obtain ⟨written, h1, h2, -, h4, -⟩ :=
      writtenCoordinates_spec evaluator motionInfos m0 idx coords
    rw [updateMotionPositionsLoop_cons, h1]
    cases j with
    | zero =>
      simp only [List.getElem?_cons_zero, Option.some.injEq] at hj
      subst hj
      simp only [List.take_zero, List.countP_nil, add_zero] at hslot ⊢
      simp only [hvalid, Bool.false_eq_true, if_false]
      rw [updateMotionPositionsLoop_below _ _ _ _ _ _ (by omega), h4 huser]
      exact List.getElem?_set_self hslot
    | succ j2 =>
      rw [List.getElem?_cons_succ] at hj
      rw [List.take_succ_cons] at hslot ⊢
      rw [List.countP_cons] at hslot ⊢
      by_cases hinv : m0.m_invalidMotion = true
      · simp only [hinv, Bool.not_true, Bool.false_eq_true, if_false, if_true, add_zero]
          at hslot ⊢
        exact ih idx coords j2 hj hslot
      · rw [Bool.not_eq_true] at hinv
        simp only [hinv, Bool.not_false, Bool.false_eq_true, if_false, if_true] at hslot ⊢
        have := ih (idx + 1) written j2 hj (by rw [h2]; omega)
        rw [show idx + ((List.take j2 rest).countP (fun e => !e.m_invalidMotion) + 1) =
          idx + 1 + (List.take j2 rest).countP (fun e => !e.m_invalidMotion) by omega]
        exact this

/-- Without an evaluator, the slot of a valid entry that has no user coordinate
is left by the loop of `UpdateMotionPositions` as it was. -/
theorem updateMotionPositionsLoop_untouched (motionInfos : List MotionInfo)
    (motions : List BlendSpaceMotion) (idx : Nat) (coords : List ℚ) (j : Nat)
    (m : BlendSpaceMotion) (hj : motions[j]? = some m) (hvalid : m.m_invalidMotion = false)
    (huser : m.m_userSetCoordinateX = false) :
    (updateMotionPositionsLoop none motionInfos motions idx coords)[
        idx + (motions.take j).countP (fun e => !e.m_invalidMotion)]? =
      coords[idx + (motions.take j).countP (fun e => !e.m_invalidMotion)]? := by
  induction motions generalizing idx coords j with
  | nil => simp at hj
  | cons m0 rest ih =>
    obtain ⟨written, h1, h2, h3, -, h5⟩ := writtenCoordinates_spec none motionInfos m0 idx coords
    rw [updateMotionPositionsLoop_cons, h1]
    cases j with
    | zero =>
      simp only [List.getElem?_cons_zero, Option.some.injEq] at hj
      subst hj
      simp only [List.take_zero, List.countP_nil, add_zero]
      simp only [hvalid, Bool.false_eq_true, if_false]
      rw [updateMotionPositionsLoop_below _ _ _ _ _ _ (by omega), h5 huser rfl]
    | succ j2 =>
      rw [List.getElem?_cons_succ] at hj
      rw [List.take_succ_cons]
      rw [List.countP_cons]
      by_cases hinv : m0.m_invalidMotion = true
      · simp only [hinv, Bool.not_true, Bool.false_eq_true, if_false, if_true, add_zero]
        exact ih idx coords j2 hj
      · rw [Bool.not_eq_true] at hinv
        simp only [hinv, Bool.not_false, Bool.false_eq_true, if_false, if_true]
        have := ih (idx + 1) written j2 hj
        rw [show idx + ((List.take j2 rest).countP (fun e => !e.m_invalidMotion) + 1) =
          idx + 1 + (List.take j2 rest).countP (fun e => !e.m_invalidMotion) by omega]
        rw [this]
        exact h3 _ (by omega)

theorem updateMotionPositions_length (node : BlendSpace1DNode) (d : UniqueData) :
    (UpdateMotionPositions node d).m_motionCoordinates.length = d.m_motionInfos.length := by
  unfold UpdateMotionPositions
  simp only
  rw [updateMotionPositionsLoop_length, vector_resize_length]

/-! ## The rebuild `UpdateMotionInfos` -/

theorem updateMotionInfos_no_actor (node : BlendSpace1DNode) (graphInstance : AnimGraphInstance)
    (d : UniqueData) (hactor : graphInstance.m_actorInstance = none) :
    UpdateMotionInfos node (some graphInstance) d = (false, node, d) := by
  unfold UpdateMotionInfos
  simp only [hactor]

/-- Without a motion set `UpdateMotionInfos` returns `false` after
`ClearMotionInfos`: the motion infos are gone and every other member is as it
was. -/
theorem updateMotionInfos_no_motion_set (node : BlendSpace1DNode)
    (graphInstance : AnimGraphInstance) (d : UniqueData) (actor : Nat)
    (hactor : graphInstance.m_actorInstance = some actor)
    (hset : graphInstance.m_motionSet = none) :
    UpdateMotionInfos node (some graphInstance) d =
      (false, node, { d with m_motionInfos := [] }) := by
  unfold UpdateMotionInfos
  simp only [hactor, hset]
  rfl

/-- The result of a successful `UpdateMotionInfos`, member by member. -/
theorem updateMotionInfos_success (node : BlendSpace1DNode) (graphInstance : AnimGraphInstance)
    (d : UniqueData) (actor : Nat) (motionSet : String → Option Nat)
    (hactor : graphInstance.m_actorInstance = some actor)
    (hset : graphInstance.m_motionSet = some motionSet) :
    (UpdateMotionInfos node (some graphInstance) d).1 = true ∧
      (UpdateMotionInfos node (some graphInstance) d).2.1.m_motions =
        node.m_motions.map
          (fun m => { m with m_invalidMotion := (motionSet m.m_motionId).isNone }) ∧
      (UpdateMotionInfos node (some graphInstance) d).2.2.m_motionInfos =
        (node.m_motions.filterMap (fun m => motionSet m.m_motionId)).map freshMotionInfo ∧
      (UpdateMotionInfos node (some graphInstance) d).2.2.m_masterMotionIdx =
        (updateMotionInfosLoop motionSet node.m_syncMasterMotionId node.m_motions [] 0).2.2 ∧
      (UpdateMotionInfos node (some graphInstance) d).2.2.m_motionCoordinates.length =
        (UpdateMotionInfos node (some graphInstance) d).2.2.m_motionInfos.length ∧
      (UpdateMotionInfos node (some graphInstance) d).2.2.m_currentSegment.m_segmentIndex =
        MCORE_INVALIDINDEX32 := by
  obtain ⟨h1, h2⟩ := updateMotionInfosLoop_eq motionSet node.m_syncMasterMotionId
    node.m_motions [] 0
  unfold UpdateMotionInfos
  simp only [hactor, hset, ClearMotionInfos]
  refine ⟨trivial, h1, ?_, rfl, ?_, rfl⟩
  · rw [← List.nil_append (List.map freshMotionInfo _)]
    exact h2
  · exact updateMotionPositions_length _ _

/-- C14: whenever the actor instance and the motion set exist,
`UpdateMotionInfos` returns `true` however many ids fail to resolve; in the
configured motions every entry whose id does not resolve has `InvalidMotion`
set and every entry whose id resolves has it cleared (nothing else of an entry
changes); and `m_motionInfos` is the motion infos of exactly the resolved
entries, in the order of the configuration. -/
theorem updateMotionInfos_soft_failure (node : BlendSpace1DNode)
    (graphInstance : AnimGraphInstance) (d : UniqueData) (actor : Nat)
    (motionSet : String → Option Nat)
    (hactor : graphInstance.m_actorInstance = some actor)
    (hset : graphInstance.m_motionSet = some motionSet) :
    (UpdateMotionInfos node (some graphInstance) d).1 = true ∧
      (UpdateMotionInfos node (some graphInstance) d).2.1.m_motions =
        node.m_motions.map
          (fun m => { m with m_invalidMotion := (motionSet m.m_motionId).isNone }) ∧
      (UpdateMotionInfos node (some graphInstance) d).2.2.m_motionInfos =
        (node.m_motions.filterMap (fun m => motionSet m.m_motionId)).map freshMotionInfo := by
  obtain ⟨h1, h2, h3, -⟩ := updateMotionInfos_success node graphInstance d actor motionSet
    hactor hset
  exact ⟨h1, h2, h3⟩

/-- C14 at the sample node, whose second id "ghost" does not resolve. -/
theorem updateMotionInfos_soft_failure_witness :
    readyInstance.m_actorInstance = some 0 ∧
      readyInstance.m_motionSet = some sampleMotionSet ∧
      (UpdateMotionInfos (sampleNode ESyncMode.SYNCMODE_DISABLED) (some readyInstance)
        (UniqueData.ofCoordinates [] 0)).1 = true ∧
      (UpdateMotionInfos (sampleNode ESyncMode.SYNCMODE_DISABLED) (some readyInstance)
          (UniqueData.ofCoordinates [] 0)).2.1.m_motions =
        (sampleNode ESyncMode.SYNCMODE_DISABLED).m_motions.map
          (fun m => { m with m_invalidMotion := (sampleMotionSet m.m_motionId).isNone }) ∧
      (UpdateMotionInfos (sampleNode ESyncMode.SYNCMODE_DISABLED) (some readyInstance)
          (UniqueData.ofCoordinates [] 0)).2.2.m_motionInfos =
        ((sampleNode ESyncMode.SYNCMODE_DISABLED).m_motions.filterMap
          (fun m => sampleMotionSet m.m_motionId)).map freshMotionInfo :=
  ⟨rfl, rfl,
    updateMotionInfos_soft_failure (sampleNode ESyncMode.SYNCMODE_DISABLED) readyInstance
      (UniqueData.ofCoordinates [] 0) 0 sampleMotionSet rfl rfl⟩

/-- C17: after a successful `UpdateMotionInfos` of a node with fewer than 2^32
configured motions, either no resolved entry has the sync-master id and
`m_masterMotionIdx` is 0, or `m_masterMotionIdx` is the place `k`, among the
resolved entries, of the last resolved entry with the sync-master id, and
`m_motionInfos[k]` is the motion info of the motion that id resolves to. -/
theorem updateMotionInfos_master_index (node : BlendSpace1DNode)
    (graphInstance : AnimGraphInstance) (d : UniqueData) (actor : Nat)
    (motionSet : String → Option Nat)
    (hactor : graphInstance.m_actorInstance = some actor)
    (hset : graphInstance.m_motionSet = some motionSet)
    (hsize : node.m_motions.length < 4294967296) :
    (node.m_syncMasterMotionId ∉
          (node.m_motions.filter (fun m => (motionSet m.m_motionId).isSome)).map
            BlendSpaceMotion.m_motionId ∧
        (UpdateMotionInfos node (some graphInstance) d).2.2.m_masterMotionIdx = 0) ∨
      ∃ k motion,
        (UpdateMotionInfos node (some graphInstance) d).2.2.m_masterMotionIdx = k ∧
          ((node.m_motions.filter (fun m => (motionSet m.m_motionId).isSome)).map
            BlendSpaceMotion.m_motionId)[k]? = some node.m_syncMasterMotionId ∧
          (∀ j, k < j →
            ((node.m_motions.filter (fun m => (motionSet m.m_motionId).isSome)).map
              BlendSpaceMotion.m_motionId)[j]? ≠ some node.m_syncMasterMotionId) ∧
          motionSet node.m_syncMasterMotionId = some motion ∧
          (UpdateMotionInfos node (some graphInstance) d).2.2.m_motionInfos[k]? =
            some (freshMotionInfo motion) := by
  obtain ⟨-, -, hinfos, hidx, -, -⟩ := updateMotionInfos_success node graphInstance d actor
    motionSet hactor hset
  have hloop := (updateMotionInfosLoop_eq motionSet node.m_syncMasterMotionId
    node.m_motions [] 0).2
  rw [List.nil_append] at hloop
  rcases updateMotionInfosLoop_master motionSet node.m_syncMasterMotionId node.m_motions [] 0
    with ⟨hnot, hres⟩ | ⟨k, motion, hk, hlast, hmo, hinfo, hres⟩
  · left
    exact ⟨hnot, by rw [hidx, hres]⟩
  · right
    have hklt : k < (List.map BlendSpaceMotion.m_motionId
        (List.filter (fun m => (motionSet m.m_motionId).isSome) node.m_motions)).length := by
      obtain ⟨h, -⟩ := List.getElem?_eq_some.mp hk
      exact h
    have hfl : (List.filter (fun m => (motionSet m.m_motionId).isSome) node.m_motions).length ≤
        node.m_motions.length := List.length_filter_le _ _
    rw [List.length_map] at hklt
    simp only [List.length_nil, zero_add] at hinfo hres
    refine ⟨k, motion, ?_, hk, hlast, hmo, ?_⟩
    · rw [hidx, hres, lastIndexU32_eq _ (by omega) (by omega)]
      omega
    · rw [hinfos, ← hloop]
      exact hinfo

/-- C17 at the sample node: of the resolved entries "walk" and "run" the second
has the master id "run". -/
theorem updateMotionInfos_master_index_witness :
    readyInstance.m_actorInstance = some 0 ∧
      readyInstance.m_motionSet = some sampleMotionSet ∧
      (sampleNode ESyncMode.SYNCMODE_DISABLED).m_motions.length < 4294967296 ∧
      (((sampleNode ESyncMode.SYNCMODE_DISABLED).m_syncMasterMotionId ∉
          ((sampleNode ESyncMode.SYNCMODE_DISABLED).m_motions.filter
            (fun m => (sampleMotionSet m.m_motionId).isSome)).map BlendSpaceMotion.m_motionId ∧
        (UpdateMotionInfos (sampleNode ESyncMode.SYNCMODE_DISABLED) (some readyInstance)
          (UniqueData.ofCoordinates [] 0)).2.2.m_masterMotionIdx = 0) ∨
      ∃ k motion,
        (UpdateMotionInfos (sampleNode ESyncMode.SYNCMODE_DISABLED) (some readyInstance)
            (UniqueData.ofCoordinates [] 0)).2.2.m_masterMotionIdx = k ∧
          (((sampleNode ESyncMode.SYNCMODE_DISABLED).m_motions.filter
            (fun m => (sampleMotionSet m.m_motionId).isSome)).map
              BlendSpaceMotion.m_motionId)[k]? =
            some (sampleNode ESyncMode.SYNCMODE_DISABLED).m_syncMasterMotionId ∧
          (∀ j, k < j →
            (((sampleNode ESyncMode.SYNCMODE_DISABLED).m_motions.filter
              (fun m => (sampleMotionSet m.m_motionId).isSome)).map
                BlendSpaceMotion.m_motionId)[j]? ≠
              some (sampleNode ESyncMode.SYNCMODE_DISABLED).m_syncMasterMotionId) ∧
          sampleMotionSet (sampleNode ESyncMode.SYNCMODE_DISABLED).m_syncMasterMotionId =
            some motion ∧
          (UpdateMotionInfos (sampleNode ESyncMode.SYNCMODE_DISABLED) (some readyInstance)
              (UniqueData.ofCoordinates [] 0)).2.2.m_motionInfos[k]? =
            some (freshMotionInfo motion)) :=
  ⟨rfl, rfl, by decide,
    updateMotionInfos_master_index (sampleNode ESyncMode.SYNCMODE_DISABLED) readyInstance
      (UniqueData.ofCoordinates [] 0) 0 sampleMotionSet rfl rfl (by decide)⟩

/-- C15: for an entry `m` at the place `j` of the configured motions that is
not flagged invalid and whose X coordinate is set by the user, and whose index
among the valid entries (the number of entries before `j` that are not flagged
invalid) is inside `m_motionInfos`, `UpdateMotionPositions` stores exactly the
user coordinate at that index of `m_motionCoordinates`, whatever the
calculation method and the evaluator. -/
theorem updateMotionPositions_user_coordinate (node : BlendSpace1DNode) (d : UniqueData)
    (j : Nat) (m : BlendSpaceMotion) (hj : node.m_motions[j]? = some m)
    (hvalid : m.m_invalidMotion = false) (huser : m.m_userSetCoordinateX = true)
    (hslot : (node.m_motions.take j).countP (fun e => !e.m_invalidMotion) <
      d.m_motionInfos.length) :
    (UpdateMotionPositions node d).m_motionCoordinates[
        (node.m_motions.take j).countP (fun e => !e.m_invalidMotion)]? =
      some m.m_xCoordinate := by
  have h := updateMotionPositionsLoop_user (effectiveEvaluator node) d.m_motionInfos
    node.m_motions 0 (AZStd.vector_resize d.m_motionCoordinates d.m_motionInfos.length) j m hj
    hvalid huser (by rw [vector_resize_length, zero_add]; exact hslot)
  rw [zero_add] at h
  exact h

/-- C15 at the sample node after its build: "run" is the third entry and the
second valid one, and its user coordinate 1 is stored at index 1. -/
theorem updateMotionPositions_user_coordinate_witness :
    builtNode.m_motions[2]? = some runMotion ∧
      runMotion.m_invalidMotion = false ∧ runMotion.m_userSetCoordinateX = true ∧
      (builtNode.m_motions.take 2).countP (fun e => !e.m_invalidMotion) <
        builtData.m_motionInfos.length ∧
      (UpdateMotionPositions builtNode builtData).m_motionCoordinates[
          (builtNode.m_motions.take 2).countP (fun e => !e.m_invalidMotion)]? =
        some runMotion.m_xCoordinate :=
  ⟨by decide, rfl, rfl, by decide,
    updateMotionPositions_user_coordinate builtNode builtData 2 runMotion
      (by decide) rfl rfl (by decide)⟩

/-- Without an evaluator in effect, `UpdateMotionPositions` leaves the slot of
a valid entry that has no user coordinate as the resize left it: the value it
held before when the slot existed, 0 when the resize added it. -/
theorem updateMotionPositions_unset_coordinate (node : BlendSpace1DNode) (d : UniqueData)
    (j : Nat) (m : BlendSpaceMotion) (hnone : effectiveEvaluator node = none)
    (hj : node.m_motions[j]? = some m) (hvalid : m.m_invalidMotion = false)
    (huser : m.m_userSetCoordinateX = false) :
    (UpdateMotionPositions node d).m_motionCoordinates[
        (node.m_motions.take j).countP (fun e => !e.m_invalidMotion)]? =
      (AZStd.vector_resize d.m_motionCoordinates d.m_motionInfos.length)[
        (node.m_motions.take j).countP (fun e => !e.m_invalidMotion)]? := by
  have h := updateMotionPositionsLoop_untouched d.m_motionInfos node.m_motions 0
    (AZStd.vector_resize d.m_motionCoordinates d.m_motionInfos.length) j m hj hvalid huser
  rw [zero_add] at h
  unfold UpdateMotionPositions
  simp only [hnone]
  exact h

/-! ## The failure paths of the rebuild -/

/-- C12, the code at a failing input: the sample node was built (two motion
infos) and the motion set went away. `UpdateMotionInfos` returns `false` and
leaves the coordinates, the sorted permutation, the master index and the
segment as they were, but `m_motionInfos` is empty after the call. -/
theorem updateMotionInfos_missing_motion_set_clears :
    builtData.m_motionInfos.length = 2 ∧
      (UpdateMotionInfos builtNode (some instanceWithoutMotionSet) builtData).1 = false ∧
      (UpdateMotionInfos builtNode (some instanceWithoutMotionSet) builtData).2.2.m_motionInfos
        = [] ∧
      (UpdateMotionInfos builtNode (some instanceWithoutMotionSet)
        builtData).2.2.m_motionCoordinates = builtData.m_motionCoordinates ∧
      (UpdateMotionInfos builtNode (some instanceWithoutMotionSet)
        builtData).2.2.m_sortedMotions = builtData.m_sortedMotions ∧
      (UpdateMotionInfos builtNode (some instanceWithoutMotionSet)
        builtData).2.2.m_masterMotionIdx = builtData.m_masterMotionIdx ∧
      (UpdateMotionInfos builtNode (some instanceWithoutMotionSet)
        builtData).2.2.m_currentSegment = builtData.m_currentSegment := by
  rw [updateMotionInfos_no_motion_set builtNode instanceWithoutMotionSet builtData 0 rfl rfl]
  exact ⟨by decide, rfl, rfl, rfl, rfl, rfl, rfl⟩

/-- C13, the code at failing inputs: after the sample node was built, an
`UpdateMotionInfos` without motion set, and likewise `UniqueData::Reset`,
leave no motion infos next to two coordinates. -/
theorem motionInfos_coordinates_lengths_differ :
    builtData.m_motionInfos.length = builtData.m_motionCoordinates.length ∧
      (UpdateMotionInfos builtNode (some instanceWithoutMotionSet)
        builtData).2.2.m_motionInfos.length = 0 ∧
      (UpdateMotionInfos builtNode (some instanceWithoutMotionSet)
        builtData).2.2.m_motionCoordinates.length = 2 ∧
      (UniqueData.Reset builtData).m_motionInfos.length = 0 ∧
      (UniqueData.Reset builtData).m_motionCoordinates.length = 2 := by
  rw [updateMotionInfos_no_motion_set builtNode instanceWithoutMotionSet builtData 0 rfl rfl]
  exact ⟨by decide, rfl, by decide, rfl, by decide⟩

/-- C16, the code at a failing input: "walk" has no user coordinate, a first
build under `AUTO` let the evaluator place it at 5, and the calculation method
was then set to `MANUAL`, so that no evaluator is in effect. After the rebuild
the coordinate of "walk" is still 5, not 0. -/
theorem updateMotionInfos_rebuild_keeps_coordinate :
    effectiveEvaluator (evaluatedNode ECalculationMethod.MANUAL) = none ∧
      (evaluatedNode ECalculationMethod.MANUAL).m_motions =
        [ { m_motionId := "walk", m_xCoordinate := 0, m_userSetCoordinateX := false
            m_invalidMotion := false } ] ∧
      evaluatedData.m_motionCoordinates = [5] ∧
      (UpdateMotionInfos (evaluatedNode ECalculationMethod.MANUAL) (some readyInstance)
        evaluatedData).1 = true ∧
      (UpdateMotionInfos (evaluatedNode ECalculationMethod.MANUAL) (some readyInstance)
        evaluatedData).2.2.m_motionCoordinates = [5] ∧
      (UpdateMotionPositions (evaluatedNode ECalculationMethod.MANUAL)
        evaluatedData).m_motionCoordinates = [5] := by
  refine ⟨rfl, rfl, by decide, by decide, by decide, by decide⟩

/-! ## `Update` -/

theorem update_disabled (node : BlendSpace1DNode) (ext : Collaborators)
    (graphInstance : AnimGraphInstance) (dt : ℚ) (base : AnimGraphNodeData) (d : UniqueData)
    (hdisabled : node.mDisabled = true) :
    Update node ext graphInstance dt base d = (ext.Clear base, d) := by
  unfold Update
  simp only [hdisabled, if_true]

theorem timingMotionIndex_eq (node : BlendSpace1DNode) (d : UniqueData) :
    timingMotionIndex node d =
      if node.m_syncMode = ESyncMode.SYNCMODE_DISABLED ∨
          d.m_masterMotionIdx = MCORE_INVALIDINDEX32 then 0
      else d.m_masterMotionIdx := by
  unfold timingMotionIndex
  by_cases h : d.m_masterMotionIdx = MCORE_INVALIDINDEX32
  · simp [h]
  · simp [h]

theorem output_disabled (node : BlendSpace1DNode) (graphInstance : AnimGraphInstance)
    (d : UniqueData) (hdisabled : node.mDisabled = true) :
    Output node (some graphInstance) d =
      { m_outputPose := some OutputPose.bindPose, m_sampled := [], m_poolEvents := [] } := by
  unfold Output
  simp only [hdisabled, if_true]

/-- With an enabled node, no motion infos and no stored segment, `Output`
leaves the bind pose and samples nothing. -/
theorem output_no_motions (node : BlendSpace1DNode) (graphInstance : AnimGraphInstance)
    (d : UniqueData) (henabled : node.mDisabled = false) (hinfos : d.m_motionInfos = [])
    (hseg : d.m_currentSegment.m_segmentIndex = MCORE_INVALIDINDEX32) :
    (Output node (some graphInstance) d).m_outputPose = some OutputPose.bindPose ∧
      (Output node (some graphInstance) d).m_sampled = [] := by
  unfold Output
  simp [henabled, hinfos, hseg]

/-- C19, the code at a failing input: the sample node was built and ticked
once (a segment is located), then the motion set went away and
`UpdateMotionInfos` emptied `m_motionInfos` while the segment stayed. The node
is enabled and `m_motionInfos` is empty, yet `Output` does not leave the bind
pose: it sums the samples of `m_motionInfos[0]` and `m_motionInfos[1]`, which
do not exist; and it does the same after a further `Update` tick, which
locates the segment again from the coordinates that were left behind. -/
theorem output_samples_without_motion_infos :
    builtNode.mDisabled = false ∧ staleData.m_motionInfos = [] ∧
      (Output builtNode (some instanceWithoutMotionSet) staleData).m_outputPose =
        some (OutputPose.blended
          [ { m_motionIndex := 0, m_weight := 1 / 2 }, { m_motionIndex := 1, m_weight := 1 / 2 } ]) ∧
      (Output builtNode (some instanceWithoutMotionSet) staleData).m_sampled =
        [ { m_motionIndex := 0, m_weight := 1 / 2 }, { m_motionIndex := 1, m_weight := 1 / 2 } ] ∧
      staleData.m_motionInfos[0]? = none ∧ staleData.m_motionInfos[1]? = none ∧
      staleTickedData.m_motionInfos = [] ∧
      (Output builtNode (some instanceWithoutMotionSet) staleTickedData).m_sampled =
        [ { m_motionIndex := 0, m_weight := 1 / 2 }, { m_motionIndex := 1, m_weight := 1 / 2 } ] := by
  refine ⟨by decide, by decide, by decide!, by decide!, by decide, by decide, by decide!,
    by decide!⟩

theorem output_poolEvents_cases (node : BlendSpace1DNode)
    (graphInstance : Option AnimGraphInstance) (d : UniqueData) :
    (Output node graphInstance d).m_poolEvents = [] ∨
      (Output node graphInstance d).m_poolEvents =
        [PoolEvent.RequestPose 0, PoolEvent.RequestPose 1,
          PoolEvent.FreePose 1, PoolEvent.FreePose 0] := by
  unfold Output
  cases graphInstance with
  | none => exact Or.inl rfl
  | some graphInstance =>
    simp only
    split
    · exact Or.inl rfl
    · right
      split
      · rfl
      · split <;> rfl

/-- C20: on every path of `Output` (null instance, disabled node, located
segment, boundary motion, no motions) the scratch poses given back with
`FreePose` are exactly the ones handed out by `RequestPose`, each handed out
once and given back once, and every `FreePose` of a pose comes after the
`RequestPose` that handed it out. -/
theorem output_pool_discipline (node : BlendSpace1DNode)
    (graphInstance : Option AnimGraphInstance) (d : UniqueData) :
    (freedPoses (Output node graphInstance d).m_poolEvents).Perm
        (requestedPoses (Output node graphInstance d).m_poolEvents) ∧
      (requestedPoses (Output node graphInstance d).m_poolEvents).Nodup ∧
      (freedPoses (Output node graphInstance d).m_poolEvents).Nodup ∧
      ∀ before after pose,
        (Output node graphInstance d).m_poolEvents =
            before ++ PoolEvent.FreePose pose :: after →
          PoolEvent.RequestPose pose ∈ before := by
  rcases output_poolEvents_cases node graphInstance d with h | h
  · rw [h]
    refine ⟨List.Perm.refl _, List.nodup_nil, List.nodup_nil, ?_⟩
    intro before after pose hsplit
    have := congrArg List.length hsplit
    simp at this
    omega
  · rw [h]
    refine ⟨?_, by decide, by decide, ?_⟩
    · exact List.Perm.swap 0 1 []
    · intro before after pose hsplit
      rcases before with _ | ⟨e1, _ | ⟨e2, _ | ⟨e3, _ | ⟨e4, rest⟩⟩⟩⟩
      · simp at hsplit
      · simp at hsplit
      · simp only [List.cons_append, List.nil_append, List.cons.injEq,
          PoolEvent.FreePose.injEq] at hsplit
        obtain ⟨rfl, rfl, rfl, -⟩ := hsplit
        simp
      · simp only [List.cons_append, List.nil_append, List.cons.injEq,
          PoolEvent.FreePose.injEq] at hsplit
        obtain ⟨rfl, rfl, -, rfl, -⟩ := hsplit
        simp
      · have := congrArg List.length hsplit
        simp at this

/-! ## The examples of the spec -/

/-- The modelled sort on two entries: they are exchanged exactly when the
comparator places the second before the first. -/
theorem sort_pair {α : Type} (lt : α → α → Bool) (a b : α) :
    AZStd.sort lt [a, b] = if lt b a then [b, a] else [a, b] := by
  simp only [AZStd.sort, AZStd.insertSorted]

/-- C21: with the motions A, B, C at the coordinates 0, 1, 2 and the query 1.5,
the sorted order is A, B, C, the located segment starts at the sorted index 1
(the pair B, C) with the fraction 1/2, and, for every ordering of blend entries
that does not place (C, 0.5) before (B, 0.5), the blend entries are
[(B, 0.5), (C, 0.5)]. -/
theorem example_between_B_and_C (blendInfoLess : BlendInfo → BlendInfo → Bool)
    (horder : blendInfoLess { m_motionIndex := 2, m_weight := 1 / 2 }
      { m_motionIndex := 1, m_weight := 1 / 2 } = false) :
    (threeMotions (3 / 2)).m_sortedMotions = [0, 1, 2] ∧
      (UpdateBlendingInfoForCurrentPoint blendInfoLess (threeMotions (3 / 2))).m_currentSegment =
        { m_segmentIndex := 1, m_weightForSegmentEnd := 1 / 2 } ∧
      (UpdateBlendingInfoForCurrentPoint blendInfoLess (threeMotions (3 / 2))).m_blendInfos =
        [ { m_motionIndex := 1, m_weight := 1 / 2 }, { m_motionIndex := 2, m_weight := 1 / 2 } ] := by
  have hloop : segmentLoop (threeMotions (3 / 2)) 1
      ((threeMotions (3 / 2)).m_sortedMotions.length % 4294967296 - 1) =
      some { m_segmentIndex := 1, m_weightForSegmentEnd := 1 / 2 } := by decide!
  refine ⟨by decide, ?_⟩
  rcases updateBlendingInfo_cases blendInfoLess (threeMotions (3 / 2)) with
    ⟨seg, hs, -, -, hseg, hb⟩ | ⟨hg, -, -⟩
  · rw [hloop] at hs
    cases hs
    refine ⟨hseg, ?_⟩
    rw [hb, sort_pair]
    have h1 : (threeMotions (3 / 2)).m_sortedMotions.getD 1 0 = 1 := by decide
    have h2 : (threeMotions (3 / 2)).m_sortedMotions.getD (1 + 1) 0 = 2 := by decide
    have h3 : (1 : ℚ) - 1 / 2 = 1 / 2 := by norm_num
    simp only [h1, h2, h3, horder, Bool.false_eq_true, if_false]
  · exfalso
    rw [hloop] at hg
    have hguard : ¬ ((threeMotions (3 / 2)).m_sortedMotions.length % 4294967296 < 2 ∨
        (threeMotions (3 / 2)).m_currentPosition < (threeMotions (3 / 2)).GetRangeMin ∨
        (threeMotions (3 / 2)).m_currentPosition > (threeMotions (3 / 2)).GetRangeMax) := by
      decide!
    rcases hg with h | h | h | h
    · exact hguard (Or.inl h)
    · exact hguard (Or.inr (Or.inl h))
    · exact hguard (Or.inr (Or.inr h))
    · simp at h

/-- C21 for the ordering of blend entries by descending weight. -/
theorem example_between_B_and_C_witness :
    byWeightDescending { m_motionIndex := 2, m_weight := 1 / 2 }
        { m_motionIndex := 1, m_weight := 1 / 2 } = false ∧
      (threeMotions (3 / 2)).m_sortedMotions = [0, 1, 2] ∧
      (UpdateBlendingInfoForCurrentPoint byWeightDescending
          (threeMotions (3 / 2))).m_currentSegment =
        { m_segmentIndex := 1, m_weightForSegmentEnd := 1 / 2 } ∧
      (UpdateBlendingInfoForCurrentPoint byWeightDescending (threeMotions (3 / 2))).m_blendInfos =
        [ { m_motionIndex := 1, m_weight := 1 / 2 }, { m_motionIndex := 2, m_weight := 1 / 2 } ] :=
  ⟨by decide!, example_between_B_and_C byWeightDescending (by decide!)⟩

/-- C22: with the motions A and B at the coordinates 1 and 1.00005 and the
query 1, `SortMotionInstances` sets the overlap flag, the sorted order is A, B,
the located segment starts at the sorted index 0 (the pair A, B) with the
fraction 0, and, for every ordering of blend entries that does not place
(B, 0) before (A, 1), the blend entries are [(A, 1), (B, 0)]. The segment has
the positive length 0.00005: the fraction is the quotient (1 - 1) / 0.00005. -/
theorem example_overlapping_A_and_B (blendInfoLess : BlendInfo → BlendInfo → Bool)
    (horder : blendInfoLess { m_motionIndex := 1, m_weight := 0 }
      { m_motionIndex := 0, m_weight := 1 } = false) :
    (twoCloseMotions 1).m_hasOverlappingCoordinates = true ∧
      (twoCloseMotions 1).m_sortedMotions = [0, 1] ∧
      0 < (twoCloseMotions 1).sortedCoordinate 1 - (twoCloseMotions 1).sortedCoordinate 0 ∧
      (UpdateBlendingInfoForCurrentPoint blendInfoLess (twoCloseMotions 1)).m_currentSegment =
        { m_segmentIndex := 0, m_weightForSegmentEnd := 0 } ∧
      (UpdateBlendingInfoForCurrentPoint blendInfoLess (twoCloseMotions 1)).m_blendInfos =
        [ { m_motionIndex := 0, m_weight := 1 }, { m_motionIndex := 1, m_weight := 0 } ] := by
  have hloop : segmentLoop (twoCloseMotions 1) 1
      ((twoCloseMotions 1).m_sortedMotions.length % 4294967296 - 1) =
      some { m_segmentIndex := 0, m_weightForSegmentEnd := 0 } := by decide!
  refine ⟨by decide!, by decide!, by decide!, ?_⟩
  rcases updateBlendingInfo_cases blendInfoLess (twoCloseMotions 1) with
    ⟨seg, hs, -, -, hseg, hb⟩ | ⟨hg, -, -⟩
  · rw [hloop] at hs
    cases hs
    refine ⟨hseg, ?_⟩
    rw [hb, sort_pair]
    have h1 : (twoCloseMotions 1).m_sortedMotions.getD 0 0 = 0 := by decide!
    have h2 : (twoCloseMotions 1).m_sortedMotions.getD (0 + 1) 0 = 1 := by decide!
    have h3 : (1 : ℚ) - 0 = 1 := by norm_num
    simp only [h1, h2, h3, horder, Bool.false_eq_true, if_false]
  · exfalso
    rw [hloop] at hg
    have hguard : ¬ ((twoCloseMotions 1).m_sortedMotions.length % 4294967296 < 2 ∨
        (twoCloseMotions 1).m_currentPosition < (twoCloseMotions 1).GetRangeMin ∨
        (twoCloseMotions 1).m_currentPosition > (twoCloseMotions 1).GetRangeMax) := by
      decide!
    rcases hg with h | h | h | h
    · exact hguard (Or.inl h)
    · exact hguard (Or.inr (Or.inl h))
    · exact hguard (Or.inr (Or.inr h))
    · simp at h

/-- C22 for the ordering of blend entries by descending weight. -/
theorem example_overlapping_A_and_B_witness :
    byWeightDescending { m_motionIndex := 1, m_weight := 0 }
        { m_motionIndex := 0, m_weight := 1 } = false ∧
      (twoCloseMotions 1).m_hasOverlappingCoordinates = true ∧
      (twoCloseMotions 1).m_sortedMotions = [0, 1] ∧
      0 < (twoCloseMotions 1).sortedCoordinate 1 - (twoCloseMotions 1).sortedCoordinate 0 ∧
      (UpdateBlendingInfoForCurrentPoint byWeightDescending (twoCloseMotions 1)).m_currentSegment =
        { m_segmentIndex := 0, m_weightForSegmentEnd := 0 } ∧
      (UpdateBlendingInfoForCurrentPoint byWeightDescending (twoCloseMotions 1)).m_blendInfos =
        [ { m_motionIndex := 0, m_weight := 1 }, { m_motionIndex := 1, m_weight := 0 } ] :=
  ⟨by decide, example_overlapping_A_and_B byWeightDescending (by decide)⟩

/-! ## `Output` against the evaluation -/

/-- The pairs that `Output` samples on an enabled node, read off its three
branches. -/
theorem output_sampled (node : BlendSpace1DNode) (graphInstance : AnimGraphInstance)
    (x : UniqueData) (henabled : node.mDisabled = false) :
    (Output node (some graphInstance) x).m_sampled =
      if x.m_currentSegment.m_segmentIndex ≠ MCORE_INVALIDINDEX32 then
        [ { m_motionIndex := x.m_sortedMotions.getD (x.m_currentSegment.m_segmentIndex + 0) 0
            m_weight := 1 - x.m_currentSegment.m_weightForSegmentEnd },
          { m_motionIndex := x.m_sortedMotions.getD (x.m_currentSegment.m_segmentIndex + 1) 0
            m_weight := x.m_currentSegment.m_weightForSegmentEnd } ]
      else if ¬ x.m_motionInfos.isEmpty then
        [ { m_motionIndex :=
              if x.m_currentPosition < x.GetRangeMin then x.m_sortedMotions.headD 0
              else x.m_sortedMotions.getLastD 0
            m_weight := 1 } ]
      else [] := by
  unfold Output
  simp only [henabled, Bool.false_eq_true, if_false]
  split
  · rfl
  · split <;> rfl

/-- On the unique data that `UpdateBlendingInfoForCurrentPoint` leaves, the
blend entries are the sorted list of the pairs that `Output` samples, and
these are the two pairs of the located segment, or the one boundary pair, or
none. -/
theorem output_after_evaluation (blendInfoLess : BlendInfo → BlendInfo → Bool)
    (node : BlendSpace1DNode) (graphInstance : AnimGraphInstance) (d : UniqueData)
    (henabled : node.mDisabled = false) :
    (UpdateBlendingInfoForCurrentPoint blendInfoLess d).m_blendInfos =
        AZStd.sort blendInfoLess
          (Output node (some graphInstance)
            (UpdateBlendingInfoForCurrentPoint blendInfoLess d)).m_sampled ∧
      (((UpdateBlendingInfoForCurrentPoint blendInfoLess d).m_currentSegment.m_segmentIndex ≠
            MCORE_INVALIDINDEX32 ∧
          (Output node (some graphInstance)
              (UpdateBlendingInfoForCurrentPoint blendInfoLess d)).m_sampled =
            [ { m_motionIndex :=
                  d.m_sortedMotions.getD
                    (UpdateBlendingInfoForCurrentPoint blendInfoLess
                      d).m_currentSegment.m_segmentIndex 0
                m_weight :=
                  1 - (UpdateBlendingInfoForCurrentPoint blendInfoLess
                    d).m_currentSegment.m_weightForSegmentEnd },
              { m_motionIndex :=
                  d.m_sortedMotions.getD
                    ((UpdateBlendingInfoForCurrentPoint blendInfoLess
                      d).m_currentSegment.m_segmentIndex + 1) 0
                m_weight :=
                  (UpdateBlendingInfoForCurrentPoint blendInfoLess
                    d).m_currentSegment.m_weightForSegmentEnd } ]) ∨
        ((UpdateBlendingInfoForCurrentPoint blendInfoLess d).m_currentSegment.m_segmentIndex =
            MCORE_INVALIDINDEX32 ∧ d.m_motionInfos ≠ [] ∧
          (Output node (some graphInstance)
              (UpdateBlendingInfoForCurrentPoint blendInfoLess d)).m_sampled =
            [ { m_motionIndex :=
                  if d.m_currentPosition < d.GetRangeMin then d.m_sortedMotions.headD 0
                  else d.m_sortedMotions.getLastD 0
                m_weight := 1 } ]) ∨
        ((UpdateBlendingInfoForCurrentPoint blendInfoLess d).m_currentSegment.m_segmentIndex =
            MCORE_INVALIDINDEX32 ∧ d.m_motionInfos = [] ∧
          (Output node (some graphInstance)
              (UpdateBlendingInfoForCurrentPoint blendInfoLess d)).m_sampled = [])) := by
  obtain ⟨f1, f2, f3, f4⟩ := updateBlendingInfo_frame blendInfoLess d
  have hmin := (getRange_congr _ d f1 f2).1
  rw [output_sampled node graphInstance _ henabled, f1, f3, f4, hmin]
  rcases updateBlendingInfo_cases blendInfoLess d with
    ⟨seg, -, -, hne, hseg, hb⟩ | ⟨-, hidx, hb⟩
  · have hne2 : (UpdateBlendingInfoForCurrentPoint blendInfoLess d).m_currentSegment.m_segmentIndex
        ≠ MCORE_INVALIDINDEX32 := by rw [hseg]; exact hne
    rw [if_pos hne2]
    refine ⟨?_, Or.inl ⟨hne2, rfl⟩⟩
    rw [hb, hseg]
    rfl
  · rw [if_neg (not_not.mpr hidx)]
    by_cases hm : d.m_motionInfos = []
    · have hempty : d.m_motionInfos.isEmpty = true := by rw [hm]; rfl
      rw [if_neg (not_not.mpr hempty)]
      refine ⟨?_, Or.inr (Or.inr ⟨hidx, hm, rfl⟩)⟩
      rw [hb, if_pos hm]
    · have hempty : ¬ d.m_motionInfos.isEmpty = true := by
        cases hmi : d.m_motionInfos with
        | nil => exact absurd hmi hm
        | cons a t => simp
      rw [if_pos hempty]
      refine ⟨?_, Or.inr (Or.inl ⟨hidx, hm, rfl⟩)⟩
      rw [hb, if_neg hm]

/-- C24: on an enabled node and for every unique data that
`UpdateBlendingInfoForCurrentPoint` leaves, the (motion index, weight) pairs
that `Output` samples and sums, recomputed from the segment and the current
position, are a permutation of `m_blendInfos`: the two pairs of the located
segment, or the one boundary pair when there are motion infos and no segment,
or none. -/
theorem output_agrees_with_blendInfos (blendInfoLess : BlendInfo → BlendInfo → Bool)
    (node : BlendSpace1DNode) (graphInstance : AnimGraphInstance) (d : UniqueData)
    (henabled : node.mDisabled = false) :
    (Output node (some graphInstance)
        (UpdateBlendingInfoForCurrentPoint blendInfoLess d)).m_sampled.Perm
      (UpdateBlendingInfoForCurrentPoint blendInfoLess d).m_blendInfos ∧
    (((UpdateBlendingInfoForCurrentPoint blendInfoLess d).m_currentSegment.m_segmentIndex ≠
          MCORE_INVALIDINDEX32 ∧
        (UpdateBlendingInfoForCurrentPoint blendInfoLess d).m_blendInfos.length = 2) ∨
      ((UpdateBlendingInfoForCurrentPoint blendInfoLess d).m_currentSegment.m_segmentIndex =
          MCORE_INVALIDINDEX32 ∧ d.m_motionInfos ≠ [] ∧
        (UpdateBlendingInfoForCurrentPoint blendInfoLess d).m_blendInfos.length = 1) ∨
      ((UpdateBlendingInfoForCurrentPoint blendInfoLess d).m_currentSegment.m_segmentIndex =
          MCORE_INVALIDINDEX32 ∧ d.m_motionInfos = [] ∧
        (UpdateBlendingInfoForCurrentPoint blendInfoLess d).m_blendInfos = [])) := by
  obtain ⟨hsort, hcases⟩ := output_after_evaluation blendInfoLess node graphInstance d henabled
  have hperm := AZStd.sort_perm blendInfoLess
    (Output node (some graphInstance)
      (UpdateBlendingInfoForCurrentPoint blendInfoLess d)).m_sampled
  rw [← hsort] at hperm
  refine ⟨hperm.symm, ?_⟩
  rcases hcases with ⟨h1, h2⟩ | ⟨h1, h2, h3⟩ | ⟨h1, h2, h3⟩
  · left
    refine ⟨h1, ?_⟩
    rw [hperm.length_eq, h2]
    rfl
  · right
    left
    refine ⟨h1, h2, ?_⟩
    rw [hperm.length_eq, h3]
    rfl
  · right
    right
    refine ⟨h1, h2, ?_⟩
    rw [h3] at hperm
    exact List.Perm.eq_nil hperm

/-- C24 at the sample node and the motions 0, 1, 2 with the query 3/2. -/
theorem output_agrees_with_blendInfos_witness :
    builtNode.mDisabled = false ∧
      (Output builtNode (some readyInstance)
          (UpdateBlendingInfoForCurrentPoint byWeightDescending
            (threeMotions (3 / 2)))).m_sampled.Perm
        (UpdateBlendingInfoForCurrentPoint byWeightDescending
          (threeMotions (3 / 2))).m_blendInfos :=
  ⟨by decide,
    (output_agrees_with_blendInfos byWeightDescending builtNode readyInstance
      (threeMotions (3 / 2)) (by decide)).1⟩

/-! ## Index safety -/

/-- A segment left by `UpdateBlendingInfoForCurrentPoint` has both its ends
inside `m_sortedMotions`. -/
theorem updateBlendingInfo_segment_lt (blendInfoLess : BlendInfo → BlendInfo → Bool)
    (d : UniqueData) :
    (UpdateBlendingInfoForCurrentPoint blendInfoLess d).m_currentSegment.m_segmentIndex =
        MCORE_INVALIDINDEX32 ∨
      (UpdateBlendingInfoForCurrentPoint blendInfoLess d).m_currentSegment.m_segmentIndex + 1 <
        d.m_sortedMotions.length := by
  rcases updateBlendingInfo_cases blendInfoLess d with ⟨seg, hs, -, -, hseg, -⟩ | ⟨-, hidx, -⟩
  · right
    obtain ⟨j, h1, h2, -, -, hj, -⟩ := segmentLoop_eq_some d _ 1 seg hs
    have hle : d.m_sortedMotions.length % 4294967296 ≤ d.m_sortedMotions.length :=
      Nat.mod_le _ _
    rw [hseg, hj]
    omega
  · exact Or.inl hidx

theorem headD_mem_of_ne_nil (l : List Nat) (h : l ≠ []) : l.headD 0 ∈ l := by
  cases l with
  | nil => exact absurd rfl h
  | cons a t => simp

theorem getLastD_mem_of_ne_nil (l : List Nat) (h : l ≠ []) : l.getLastD 0 ∈ l := by
  rw [List.getLastD_eq_getLast?, List.getLast?_eq_getLast _ h]
  exact List.getLast_mem h

theorem getD_mem_of_lt (l : List Nat) (i : Nat) (h : i < l.length) : l.getD i 0 ∈ l := by
  rw [List.getD_eq_getElem _ _ h]
  exact List.getElem_mem h

/-- With a valid sorted permutation, every pair that `Output` samples on the
unique data left by `UpdateBlendingInfoForCurrentPoint` names a motion index
below the number of motions. -/
theorem output_sampled_lt (blendInfoLess : BlendInfo → BlendInfo → Bool)
    (node : BlendSpace1DNode) (graphInstance : AnimGraphInstance) (d : UniqueData)
    (henabled : node.mDisabled = false)
    (hperm : d.m_sortedMotions.Perm (List.range d.m_motionInfos.length))
    (b : BlendInfo)
    (hb : b ∈ (Output node (some graphInstance)
      (UpdateBlendingInfoForCurrentPoint blendInfoLess d)).m_sampled) :
    b.m_motionIndex < d.m_motionInfos.length := by
  have hmem : ∀ k ∈ d.m_sortedMotions, k < d.m_motionInfos.length := by
    intro k hk
    exact List.mem_range.mp (hperm.mem_iff.mp hk)
  have hlen : d.m_sortedMotions.length = d.m_motionInfos.length := by
    rw [hperm.length_eq, List.length_range]
  rcases (output_after_evaluation blendInfoLess node graphInstance d henabled).2 with
    ⟨h1, h2⟩ | ⟨-, h2, h3⟩ | ⟨-, -, h3⟩
  · rcases updateBlendingInfo_segment_lt blendInfoLess d with h | h
    · exact absurd h h1
    · rw [h2] at hb
      simp only [List.mem_cons, List.mem_singleton, List.not_mem_nil, or_false] at hb
      rcases hb with rfl | rfl
      · exact hmem _ (getD_mem_of_lt _ _ (by omega))
      · exact hmem _ (getD_mem_of_lt _ _ h)
  · have hne : d.m_sortedMotions ≠ [] := by
      intro he
      rw [he] at hlen
      exact h2 (List.length_eq_zero.mp hlen.symm)
    rw [h3] at hb
    simp only [List.mem_singleton] at hb
    subst hb
    simp only
    split
    · exact hmem _ (headD_mem_of_ne_nil _ hne)
    · exact hmem _ (getLastD_mem_of_ne_nil _ hne)
  · rw [h3] at hb
    simp at hb

/-- C25: when `m_sortedMotions` is a permutation of `0 .. n-1` with `n` the
size of `m_motionInfos` and of `m_motionCoordinates`, then after
`UpdateBlendingInfoForCurrentPoint` a located segment `s` has `s + 1 < n`,
every `m_motionIndex` in `m_blendInfos` is below `n`, so is every motion index
that `Output` then samples, and every entry of `m_sortedMotions` is a valid
index of `m_motionCoordinates`. -/
theorem evaluation_indices_in_bounds (blendInfoLess : BlendInfo → BlendInfo → Bool)
    (node : BlendSpace1DNode) (graphInstance : Option AnimGraphInstance) (d : UniqueData)
    (hperm : d.m_sortedMotions.Perm (List.range d.m_motionInfos.length))
    (hcoords : d.m_motionCoordinates.length = d.m_motionInfos.length) :
    ((UpdateBlendingInfoForCurrentPoint blendInfoLess d).m_currentSegment.m_segmentIndex =
          MCORE_INVALIDINDEX32 ∨
        (UpdateBlendingInfoForCurrentPoint blendInfoLess d).m_currentSegment.m_segmentIndex + 1 <
          d.m_motionInfos.length) ∧
      (∀ b ∈ (UpdateBlendingInfoForCurrentPoint blendInfoLess d).m_blendInfos,
        b.m_motionIndex < d.m_motionInfos.length) ∧
      (∀ b ∈ (Output node graphInstance
          (UpdateBlendingInfoForCurrentPoint blendInfoLess d)).m_sampled,
        b.m_motionIndex < d.m_motionInfos.length) ∧
      (∀ k ∈ d.m_sortedMotions, k < d.m_motionCoordinates.length) := by
  have hlen : d.m_sortedMotions.length = d.m_motionInfos.length := by
    rw [hperm.length_eq, List.length_range]
  have henabled : ({ node with mDisabled := false } : BlendSpace1DNode).mDisabled = false := rfl
  refine ⟨?_, ?_, ?_, ?_⟩
  · rw [← hlen]
    exact updateBlendingInfo_segment_lt blendInfoLess d
  · intro b hb
    have hsort := (output_after_evaluation blendInfoLess { node with mDisabled := false }
      readyInstance d henabled).1
    rw [hsort] at hb
    exact output_sampled_lt blendInfoLess _ readyInstance d henabled hperm b
      ((AZStd.sort_perm blendInfoLess _).mem_iff.mp hb)
  · intro b hb
    cases graphInstance with
    | none => simp [Output] at hb
    | some gi =>
      by_cases hd : node.mDisabled = true
      · rw [output_disabled node gi _ hd] at hb
        simp at hb
      · exact output_sampled_lt blendInfoLess node gi d (by simpa using hd) hperm b hb
  · intro k hk
    rw [hcoords]
    exact List.mem_range.mp (hperm.mem_iff.mp hk)

/-- C25 at the motions 0, 1, 2 with the query 3/2 and the sample node. -/
theorem evaluation_indices_in_bounds_witness :
    (threeMotions (3 / 2)).m_sortedMotions.Perm
        (List.range (threeMotions (3 / 2)).m_motionInfos.length) ∧
      (threeMotions (3 / 2)).m_motionCoordinates.length =
        (threeMotions (3 / 2)).m_motionInfos.length ∧
      ((UpdateBlendingInfoForCurrentPoint byWeightDescending
            (threeMotions (3 / 2))).m_currentSegment.m_segmentIndex = MCORE_INVALIDINDEX32 ∨
        (UpdateBlendingInfoForCurrentPoint byWeightDescending
            (threeMotions (3 / 2))).m_currentSegment.m_segmentIndex + 1 <
          (threeMotions (3 / 2)).m_motionInfos.length) ∧
      (∀ b ∈ (UpdateBlendingInfoForCurrentPoint byWeightDescending
          (threeMotions (3 / 2))).m_blendInfos,
        b.m_motionIndex < (threeMotions (3 / 2)).m_motionInfos.length) ∧
      (∀ b ∈ (Output builtNode (some readyInstance)
          (UpdateBlendingInfoForCurrentPoint byWeightDescending
            (threeMotions (3 / 2)))).m_sampled,
        b.m_motionIndex < (threeMotions (3 / 2)).m_motionInfos.length) ∧
      (∀ k ∈ (threeMotions (3 / 2)).m_sortedMotions,
        k < (threeMotions (3 / 2)).m_motionCoordinates.length) :=
  ⟨by decide, by decide,
    evaluation_indices_in_bounds byWeightDescending builtNode (some readyInstance)
      (threeMotions (3 / 2)) (by decide) (by decide)⟩

/-! ## The timing read of `Update` -/

/-- The `AZ::u32` value `(AZ::u32)size - 1` never exceeds `size - 1`. -/
theorem lastIndexU32_succ_le (k : Nat) : lastIndexU32 (k + 1) ≤ k := by
  unfold lastIndexU32
  omega

/-- In every state reached by rebuilds, resets and evaluations the master index
is inside `m_motionInfos` unless that vector is empty. -/
theorem rebuildReachable_master_lt (d : UniqueData) (h : RebuildReachable d) :
    d.m_motionInfos = [] ∨ d.m_masterMotionIdx < d.m_motionInfos.length := by
  induction h with
  | constructed currentSegment => exact Or.inl rfl
  | updateMotionInfos node animGraphInstance d _ ih =>
    cases animGraphInstance with
    | none => exact ih
    | some graphInstance =>
      cases hactor : graphInstance.m_actorInstance with
      | none =>
        rw [updateMotionInfos_no_actor node graphInstance d hactor]
        exact ih
      | some actor =>
        cases hset : graphInstance.m_motionSet with
        | none =>
          rw [updateMotionInfos_no_motion_set node graphInstance d actor hactor hset]
          exact Or.inl rfl
        | some motionSet =>
          obtain ⟨-, -, hinfos, hidx, -, -⟩ := updateMotionInfos_success node graphInstance d
            actor motionSet hactor hset
          have hloop := (updateMotionInfosLoop_eq motionSet node.m_syncMasterMotionId
            node.m_motions [] 0).2
          rw [List.nil_append] at hloop
          rcases updateMotionInfosLoop_master motionSet node.m_syncMasterMotionId
            node.m_motions [] 0 with ⟨-, hres⟩ | ⟨k, motion, -, -, -, hinfo, hres⟩
          · by_cases hempty : (UpdateMotionInfos node (some graphInstance) d).2.2.m_motionInfos = []
            · exact Or.inl hempty
            · right
              rw [hidx, hres]
              exact List.length_pos.mpr hempty
          · right
            simp only [List.length_nil, zero_add] at hinfo hres
            rw [hloop, ← hinfos] at hinfo
            obtain ⟨hk, -⟩ := List.getElem?_eq_some.mp hinfo
            rw [hidx, hres]
            exact lt_of_le_of_lt (lastIndexU32_succ_le k) hk
  | reset d _ _ => exact Or.inl rfl
  | evaluate blendInfoLess currentPosition d _ ih =>
    rw [(updateBlendingInfo_frame blendInfoLess _).2.2.1,
      (updateBlendingInfo_frame_flags blendInfoLess _).2.1]
    exact ih

/-- C26: in every unique-data state reached from a constructed one by any
sequence of `UpdateMotionInfos` calls (successful or failed),
`UniqueData::Reset` and evaluations, whenever `m_motionInfos` is non-empty the
index that `Update` reads it at, and the index `m_masterMotionIdx` when sync is
enabled and 0 otherwise, are below `m_motionInfos.size()`. -/
theorem update_timing_index_in_bounds (node : BlendSpace1DNode) (d : UniqueData)
    (hreach : RebuildReachable d) (hmotions : d.m_motionInfos ≠ []) :
    timingMotionIndex node d < d.m_motionInfos.length ∧
      (if node.m_syncMode = ESyncMode.SYNCMODE_DISABLED then 0 else d.m_masterMotionIdx) <
        d.m_motionInfos.length := by
  have hpos : 0 < d.m_motionInfos.length := List.length_pos.mpr hmotions
  have hmaster : d.m_masterMotionIdx < d.m_motionInfos.length := by
    rcases rebuildReachable_master_lt d hreach with h | h
    · exact absurd h hmotions
    · exact h
  constructor
  · rw [timingMotionIndex_eq]
    split
    · exact hpos
    · exact hmaster
  · split
    · exact hpos
    · exact hmaster

/-- C26 at the sample node with track-based sync after its build: the master
index 1 is inside the two motion infos. -/
theorem update_timing_index_in_bounds_witness :
    RebuildReachable builtData ∧ builtData.m_motionInfos ≠ [] ∧
      timingMotionIndex (sampleNode ESyncMode.SYNCMODE_TRACKBASED) builtData = 1 ∧
      timingMotionIndex (sampleNode ESyncMode.SYNCMODE_TRACKBASED) builtData <
        builtData.m_motionInfos.length :=
  ⟨RebuildReachable.updateMotionInfos _ _ _
      (RebuildReachable.constructed ⟨MCORE_INVALIDINDEX32, 0⟩),
    by decide, by decide,
    (update_timing_index_in_bounds (sampleNode ESyncMode.SYNCMODE_TRACKBASED) builtData
      (RebuildReachable.updateMotionInfos _ _ _
        (RebuildReachable.constructed ⟨MCORE_INVALIDINDEX32, 0⟩))
      (by decide)).1⟩

/-- The loop of `ComputeMotionCoordinates` adds to its counter the number of
entries in its range that are not flagged `InvalidMotion`. -/
theorem uniqueDataMotionIndexLoop_eq (motions : List BlendSpaceMotion)
    (remaining i acc : Nat) :
    uniqueDataMotionIndexLoop motions i remaining acc =
      acc + ((motions.drop i).take remaining).countP (fun e => !e.m_invalidMotion) := by
  induction remaining generalizing i acc with
  | zero => simp [uniqueDataMotionIndexLoop]
  | succ r ih =>
    unfold uniqueDataMotionIndexLoop
    cases hm : motions[i]? with
    | none =>
      have hlen : motions.length ≤ i := by
        by_contra hc
        rw [List.getElem?_eq_getElem (not_le.mp hc)] at hm
        simp at hm
      simp only [ih]
      rw [List.drop_eq_nil_of_le hlen, List.drop_eq_nil_of_le (by omega)]
      simp
    | some c =>
      obtain ⟨hlt, hget⟩ := List.getElem?_eq_some.mp hm
      have hdrop : motions.drop i = c :: motions.drop (i + 1) := by
        rw [← hget]
        exact List.drop_eq_getElem_cons hlt
      rw [hdrop, List.take_succ_cons, List.countP_cons]
      by_cases hinv : c.m_invalidMotion = true
      · simp only [hinv, if_true, ih, Bool.not_true, Bool.false_eq_true, if_false, add_zero]
      · rw [Bool.not_eq_true] at hinv
        simp only [hinv, Bool.false_eq_true, if_false, ih, Bool.not_false, if_true]
        omega

theorem uniqueDataMotionIndex_eq (node : BlendSpace1DNode) (motionIndex : Nat) :
    uniqueDataMotionIndex node motionIndex =
      (node.m_motions.take motionIndex).countP (fun e => !e.m_invalidMotion) := by
  unfold uniqueDataMotionIndex
  rw [uniqueDataMotionIndexLoop_eq, List.drop_zero, zero_add]

/-- Among entries flagged by `UpdateMotionInfos`, the entries not flagged
`InvalidMotion` are as many as the resolved ids. -/
theorem countP_flagged_eq (motionSet : String → Option Nat) (motions : List BlendSpaceMotion) :
    ((motions.map (fun m => { m with m_invalidMotion := (motionSet m.m_motionId).isNone })).countP
        (fun e => !e.m_invalidMotion)) =
      (motions.filterMap (fun m => motionSet m.m_motionId)).length := by
  induction motions with
  | nil => rfl
  | cons a rest ih =>
    rw [List.map_cons, List.countP_cons, ih]
    cases ha : motionSet a.m_motionId with
    | none =>
      have hfm : List.filterMap (fun m => motionSet m.m_motionId) (a :: rest) =
          List.filterMap (fun m => motionSet m.m_motionId) rest := by
        simp [List.filterMap_cons, ha]
      rw [hfm]
      simp
    | some motion =>
      have hfm : List.filterMap (fun m => motionSet m.m_motionId) (a :: rest) =
          motion :: List.filterMap (fun m => motionSet m.m_motionId) rest := by
        simp [List.filterMap_cons, ha]
      rw [hfm]
      simp

/-- The resolved motion of the entry at place `j` stands, among the resolved
motions, at the number of resolved entries before `j`. -/
theorem filterMap_getElem?_take (motionSet : String → Option Nat)
    (motions : List BlendSpaceMotion) (j : Nat) (m : BlendSpaceMotion) (motion : Nat)
    (hj : motions[j]? = some m) (hresolved : motionSet m.m_motionId = some motion) :
    (motions.filterMap (fun e => motionSet e.m_motionId))[
        ((motions.take j).filterMap (fun e => motionSet e.m_motionId)).length]? =
      some motion := by
  induction motions generalizing j with
  | nil => simp at hj
  | cons a rest ih =>
    cases j with
    | zero =>
      simp only [List.getElem?_cons_zero, Option.some.injEq] at hj
      subst hj
      simp [List.filterMap_cons, hresolved]
    | succ j2 =>
      rw [List.getElem?_cons_succ] at hj
      rw [List.take_succ_cons]
      cases ha : motionSet a.m_motionId with
      | none =>
        simp only [List.filterMap_cons, ha]
        exact ih j2 hj
      | some other =>
        simp only [List.filterMap_cons, ha, List.length_cons, List.getElem?_cons_succ]
        exact ih j2 hj

/-- One iteration of the loop of `UpdateMotionPositions` for a valid entry
without a user coordinate, with an evaluator and a motion instance at the
counter: the slot receives the evaluated coordinate. -/
theorem updateMotionPositionsLoop_single_evaluated (e : BlendSpaceParamEvaluator)
    (motionInfos : List MotionInfo) (m : BlendSpaceMotion) (idx : Nat) (coords : List ℚ)
    (motionInfo : MotionInfo) (motionInstance : Nat)
    (hvalid : m.m_invalidMotion = false) (huser : m.m_userSetCoordinateX = false)
    (hinfo : motionInfos[idx]? = some motionInfo)
    (hinst : motionInfo.m_motionInstance = some motionInstance) :
    updateMotionPositionsLoop (some e) motionInfos [m] idx coords =
      coords.set idx (e.ComputeParamValue motionInstance) := by
  simp [updateMotionPositionsLoop, hvalid, huser, hinfo, hinst]

/-- The slot of a valid entry without a user coordinate holds, after the loop
of `UpdateMotionPositions` with an evaluator, the evaluated coordinate of the
motion instance at that slot. -/
theorem updateMotionPositionsLoop_evaluated (e : BlendSpaceParamEvaluator)
    (motionInfos : List MotionInfo) (motions : List BlendSpaceMotion) (idx : Nat)
    (coords : List ℚ) (j : Nat) (m : BlendSpaceMotion) (motionInfo : MotionInfo)
    (motionInstance : Nat) (hj : motions[j]? = some m)
    (hvalid : m.m_invalidMotion = false) (huser : m.m_userSetCoordinateX = false)
    (hinfo : motionInfos[idx + (motions.take j).countP (fun e => !e.m_invalidMotion)]? =
      some motionInfo)
    (hinst : motionInfo.m_motionInstance = some motionInstance)
    (hslot : idx + (motions.take j).countP (fun e => !e.m_invalidMotion) < coords.length) :
    (updateMotionPositionsLoop (some e) motionInfos motions idx coords)[
        idx + (motions.take j).countP (fun e => !e.m_invalidMotion)]? =
      some (e.ComputeParamValue motionInstance) := by
  induction motions generalizing idx coords j with
  | nil => simp at hj
  | cons m0 rest ih =>
    cases j with
    | zero =>
      simp only [List.getElem?_cons_zero, Option.some.injEq] at hj
      subst hj
      simp only [List.take_zero, List.countP_nil, add_zero] at hslot hinfo ⊢
      rw [updateMotionPositionsLoop_cons,
        updateMotionPositionsLoop_single_evaluated e motionInfos m0 idx coords motionInfo
          motionInstance hvalid huser hinfo hinst]
      simp only [hvalid, Bool.false_eq_true, if_false]
      rw [updateMotionPositionsLoop_below _ _ _ _ _ _ (by omega)]
      exact List.getElem?_set_self hslot
    | succ j2 =>
      obtain ⟨written, h1, h2, -, -, -⟩ :=
        writtenCoordinates_spec (some e) motionInfos m0 idx coords
      rw [updateMotionPositionsLoop_cons, h1]
      rw [List.getElem?_cons_succ] at hj
      rw [List.take_succ_cons] at hslot hinfo ⊢
      rw [List.countP_cons] at hslot hinfo ⊢
      by_cases hinv : m0.m_invalidMotion = true
      · simp only [hinv, Bool.not_true, Bool.false_eq_true, if_false, if_true, add_zero]
          at hslot hinfo ⊢
        exact ih idx coords j2 hj hinfo hslot
      · rw [Bool.not_eq_true] at hinv
        simp only [hinv, Bool.not_false, Bool.false_eq_true, if_false, if_true] at hslot hinfo ⊢
        have hidx : idx + ((List.take j2 rest).countP (fun e => !e.m_invalidMotion) + 1) =
            idx + 1 + (List.take j2 rest).countP (fun e => !e.m_invalidMotion) := by omega
        rw [hidx] at hinfo ⊢
        exact ih (idx + 1) written j2 hj hinfo (by rw [h2]; omega)

/-- The coordinates that a successful `UpdateMotionInfos` leaves are those of
the loop of `UpdateMotionPositions` over the flagged motions and the new motion
infos; the sort does not touch them. -/
theorem updateMotionInfos_coordinates (node : BlendSpace1DNode)
    (graphInstance : AnimGraphInstance) (d : UniqueData) (actor : Nat)
    (motionSet : String → Option Nat)
    (hactor : graphInstance.m_actorInstance = some actor)
    (hset : graphInstance.m_motionSet = some motionSet) :
    (UpdateMotionInfos node (some graphInstance) d).2.2.m_motionCoordinates =
      updateMotionPositionsLoop (effectiveEvaluator node)
        (UpdateMotionInfos node (some graphInstance) d).2.2.m_motionInfos
        (UpdateMotionInfos node (some graphInstance) d).2.1.m_motions 0
        (AZStd.vector_resize d.m_motionCoordinates
          (UpdateMotionInfos node (some graphInstance) d).2.2.m_motionInfos.length) := by
  unfold UpdateMotionInfos
  simp only [hactor, hset]
  rfl

/-- Within one evaluation context: on the node and the unique data that a
successful `UpdateMotionInfos` returns, for the configured entry at place `j`
whose id resolves (the entry is then not flagged `InvalidMotion`), the index
that the loop of `ComputeMotionCoordinates` derives is the number of earlier
entries not flagged `InvalidMotion`; it is the size that `m_motionInfos` had
when the loop of `UpdateMotionInfos` reached the entry, and `m_motionInfos`
holds the motion info of the resolved motion there; `m_motionCoordinates`
holds at the same index the coordinate that `UpdateMotionPositions` stored for
the entry; and the index is below `m_motionInfos.size()`. -/
theorem updateMotionInfos_index_alignment (node : BlendSpace1DNode) (graphInstance : AnimGraphInstance)
    (d : UniqueData) (actor : Nat) (motionSet : String → Option Nat)
    (j : Nat) (m : BlendSpaceMotion) (motion : Nat)
    (hactor : graphInstance.m_actorInstance = some actor)
    (hset : graphInstance.m_motionSet = some motionSet)
    (hj : node.m_motions[j]? = some m)
    (hresolved : motionSet m.m_motionId = some motion) :
    (UpdateMotionInfos node (some graphInstance) d).2.1.m_motions[j]? =
        some { m with m_invalidMotion := false } ∧
      uniqueDataMotionIndex (UpdateMotionInfos node (some graphInstance) d).2.1 j =
        ((UpdateMotionInfos node (some graphInstance) d).2.1.m_motions.take j).countP
          (fun e => !e.m_invalidMotion) ∧
      (updateMotionInfosLoop motionSet node.m_syncMasterMotionId (node.m_motions.take j)
          [] 0).2.1.length =
        uniqueDataMotionIndex (UpdateMotionInfos node (some graphInstance) d).2.1 j ∧
      (UpdateMotionInfos node (some graphInstance) d).2.2.m_motionInfos[
          uniqueDataMotionIndex (UpdateMotionInfos node (some graphInstance) d).2.1 j]? =
        some (freshMotionInfo motion) ∧
      (m.m_userSetCoordinateX = true →
        (UpdateMotionInfos node (some graphInstance) d).2.2.m_motionCoordinates[
            uniqueDataMotionIndex (UpdateMotionInfos node (some graphInstance) d).2.1 j]? =
          some m.m_xCoordinate) ∧
      (∀ e, m.m_userSetCoordinateX = false → effectiveEvaluator node = some e →
        (UpdateMotionInfos node (some graphInstance) d).2.2.m_motionCoordinates[
            uniqueDataMotionIndex (UpdateMotionInfos node (some graphInstance) d).2.1 j]? =
          some (e.ComputeParamValue motion)) ∧
      uniqueDataMotionIndex (UpdateMotionInfos node (some graphInstance) d).2.1 j <
        (UpdateMotionInfos node (some graphInstance) d).2.2.m_motionInfos.length := by
  obtain ⟨-, hmotions, hinfos, -, -, -⟩ := updateMotionInfos_success node graphInstance d actor
    motionSet hactor hset
  have hcoords := updateMotionInfos_coordinates node graphInstance d actor motionSet hactor hset
  have hflag : (UpdateMotionInfos node (some graphInstance) d).2.1.m_motions[j]? =
      some { m with m_invalidMotion := false } := by
    rw [hmotions, List.getElem?_map, hj]
    simp [hresolved]
  have hcount := uniqueDataMotionIndex_eq (UpdateMotionInfos node (some graphInstance) d).2.1 j
  have hidx : uniqueDataMotionIndex (UpdateMotionInfos node (some graphInstance) d).2.1 j =
      ((node.m_motions.take j).filterMap (fun e => motionSet e.m_motionId)).length := by
    rw [hcount, hmotions, ← List.map_take, countP_flagged_eq]
  have hinfo : (UpdateMotionInfos node (some graphInstance) d).2.2.m_motionInfos[
      uniqueDataMotionIndex (UpdateMotionInfos node (some graphInstance) d).2.1 j]? =
      some (freshMotionInfo motion) := by
    rw [hidx, hinfos, List.getElem?_map,
      filterMap_getElem?_take motionSet node.m_motions j m motion hj hresolved]
    rfl
  have hlt : uniqueDataMotionIndex (UpdateMotionInfos node (some graphInstance) d).2.1 j <
      (UpdateMotionInfos node (some graphInstance) d).2.2.m_motionInfos.length :=
    (List.getElem?_eq_some.mp hinfo).1
  refine ⟨hflag, hcount, ?_, hinfo, ?_, ?_, hlt⟩
  · rw [(updateMotionInfosLoop_eq motionSet node.m_syncMasterMotionId (node.m_motions.take j)
      [] 0).2, List.nil_append, List.length_map, hidx]
  · intro huser
    have h := updateMotionPositionsLoop_user (effectiveEvaluator node)
      (UpdateMotionInfos node (some graphInstance) d).2.2.m_motionInfos
      (UpdateMotionInfos node (some graphInstance) d).2.1.m_motions 0
      (AZStd.vector_resize d.m_motionCoordinates
        (UpdateMotionInfos node (some graphInstance) d).2.2.m_motionInfos.length)
      j { m with m_invalidMotion := false } hflag rfl huser
      (by rw [vector_resize_length, zero_add, ← hcount]; exact hlt)
    rw [zero_add, ← hcount, ← hcoords] at h
    exact h
  · intro e huser he
    have hinfo0 : (UpdateMotionInfos node (some graphInstance) d).2.2.m_motionInfos[
        0 + ((UpdateMotionInfos node (some graphInstance) d).2.1.m_motions.take j).countP
          (fun e => !e.m_invalidMotion)]? = some (freshMotionInfo motion) := by
      rw [zero_add, ← hcount]
      exact hinfo
    have h := updateMotionPositionsLoop_evaluated e
      (UpdateMotionInfos node (some graphInstance) d).2.2.m_motionInfos
      (UpdateMotionInfos node (some graphInstance) d).2.1.m_motions 0
      (AZStd.vector_resize d.m_motionCoordinates
        (UpdateMotionInfos node (some graphInstance) d).2.2.m_motionInfos.length)
      j { m with m_invalidMotion := false } (freshMotionInfo motion) motion hflag rfl huser
      hinfo0 rfl
      (by rw [vector_resize_length, zero_add, ← hcount]; exact hlt)
    rw [zero_add, ← hcount, ← he, ← hcoords] at h
    exact h

/-! ## `ComputeMotionCoordinates` across evaluation contexts -/

/-- The evaluator in effect does not depend on the configured motions, which
are all that `UpdateMotionInfos` changes on the node. -/
theorem updateMotionInfos_effectiveEvaluator (node : BlendSpace1DNode)
    (graphInstance : AnimGraphInstance) (d : UniqueData) (actor : Nat)
    (motionSet : String → Option Nat)
    (hactor : graphInstance.m_actorInstance = some actor)
    (hset : graphInstance.m_motionSet = some motionSet) :
    effectiveEvaluator (UpdateMotionInfos node (some graphInstance) d).2.1 =
      effectiveEvaluator node := by
  unfold UpdateMotionInfos
  simp only [hactor, hset]
  rfl

/-- Within one evaluation context `ComputeMotionCoordinates` evaluates the
motion instance of the entry that the lookup names: on the node and the unique
data that a successful `UpdateMotionInfos` returns, with an evaluator in
effect, when `FindMotionIndexByMotionId` returns the place `j` of an entry
whose id resolves to the motion `motion`, the call sets the position to the
evaluator's value for the motion instance of `motion` and 0. -/
theorem computeMotionCoordinates_single_context (node : BlendSpace1DNode)
    (graphInstance : AnimGraphInstance) (d : UniqueData) (actor : Nat)
    (motionSet : String → Option Nat)
    (FindMotionIndexByMotionId : List BlendSpaceMotion → String → Nat)
    (j : Nat) (m : BlendSpaceMotion) (motion : Nat) (e : BlendSpaceParamEvaluator)
    (position : ℚ × ℚ)
    (hactor : graphInstance.m_actorInstance = some actor)
    (hset : graphInstance.m_motionSet = some motionSet)
    (hj : node.m_motions[j]? = some m)
    (hresolved : motionSet m.m_motionId = some motion)
    (hfind : FindMotionIndexByMotionId
      (UpdateMotionInfos node (some graphInstance) d).2.1.m_motions m.m_motionId = j)
    (hvalid : j ≠ MCORE_INVALIDINDEX32)
    (he : effectiveEvaluator node = some e) :
    ComputeMotionCoordinates (UpdateMotionInfos node (some graphInstance) d).2.1
        FindMotionIndexByMotionId m.m_motionId (some graphInstance)
        (UpdateMotionInfos node (some graphInstance) d).2.2 position =
      some (e.ComputeParamValue motion, 0) := by
  obtain ⟨hflag, -, -, hinfo, -, -, -⟩ := updateMotionInfos_index_alignment node graphInstance d
    actor motionSet j m motion hactor hset hj hresolved
  have heval := updateMotionInfos_effectiveEvaluator node graphInstance d actor motionSet
    hactor hset
  unfold uniqueDataMotionIndex at hinfo
  unfold ComputeMotionCoordinates
  simp only [hfind, hvalid, if_false, heval, he, hflag, Bool.false_eq_true, hinfo,
    freshMotionInfo]

/-- The single-context statement at the sample node with the two motions, in
the context that resolves both: for "run" the call returns the coordinate 15
of "run". -/
theorem computeMotionCoordinates_single_context_witness :
    ComputeMotionCoordinates
        (UpdateMotionInfos sharedNode (some readyInstance)
          (UniqueData.constructed ⟨MCORE_INVALIDINDEX32, 0⟩)).2.1
        firstMotionIndexWithId "run" (some readyInstance)
        (UpdateMotionInfos sharedNode (some readyInstance)
          (UniqueData.constructed ⟨MCORE_INVALIDINDEX32, 0⟩)).2.2 (0, 0) =
      some (15, 0) :=
  computeMotionCoordinates_single_context sharedNode readyInstance
    (UniqueData.constructed ⟨MCORE_INVALIDINDEX32, 0⟩) 0 sampleMotionSet firstMotionIndexWithId
    1 { m_motionId := "run", m_xCoordinate := 0, m_userSetCoordinateX := false
        m_invalidMotion := false } 1
    { IsNullEvaluator := false
      ComputeParamValue := fun motionInstance => if motionInstance = 0 then 5 else 15 }
    (0, 0) rfl rfl (by decide) (by decide) (by decide) (by decide) rfl

/-- C27 fails when two evaluation contexts with different motion sets share the
node. The `InvalidMotion` flags live on the node and every rebuild overwrites
them, while each context keeps its own `m_motionInfos`. After `Reinit` went
over the context that resolves "walk" and "run" and then over the one that
resolves only "run", "walk" is flagged, so for "run" (configured at place 1,
not flagged) `ComputeMotionCoordinates` derives the index 0; in the unique data
of the first context the motion info and the coordinate 15 of "run" are at
index 1, index 0 holds "walk", and the call returns the coordinate 5 of
"walk". In the other order no entry is flagged, the derived index for "run" is
1, and in the unique data of the context that resolves only "run" it is not
below `m_motionInfos.size()`, which is 1: the read is out of bounds. -/
theorem computeMotionCoordinates_misaligned_across_contexts :
    (reinitReadyFirst.1.m_motions.map (fun motion => motion.m_invalidMotion) = [true, false] ∧
      firstMotionIndexWithId reinitReadyFirst.1.m_motions "run" = 1 ∧
      uniqueDataMotionIndex reinitReadyFirst.1 1 = 0 ∧
      reinitReadyFirst.2.map (fun uniqueData => uniqueData.m_motionInfos) =
        [[freshMotionInfo 0, freshMotionInfo 1], [freshMotionInfo 1]] ∧
      reinitReadyFirst.2.map (fun uniqueData => uniqueData.m_motionCoordinates) =
        [[5, 15], [15]] ∧
      reinitReadyFirst.2.map (fun uniqueData =>
          ComputeMotionCoordinates reinitReadyFirst.1 firstMotionIndexWithId "run"
            (some readyInstance) uniqueData (0, 0)) =
        [some (5, 0), some (15, 0)]) ∧
    (reinitReadyLast.1.m_motions.map (fun motion => motion.m_invalidMotion) = [false, false] ∧
      firstMotionIndexWithId reinitReadyLast.1.m_motions "run" = 1 ∧
      uniqueDataMotionIndex reinitReadyLast.1 1 = 1 ∧
      reinitReadyLast.2.map (fun uniqueData => uniqueData.m_motionInfos) =
        [[freshMotionInfo 1], [freshMotionInfo 0, freshMotionInfo 1]] ∧
      reinitReadyLast.2.map (fun uniqueData =>
          ComputeMotionCoordinates reinitReadyLast.1 firstMotionIndexWithId "run"
            (some runOnlyInstance) uniqueData (0, 0)) =
        [none, some (15, 0)]) := by
  refine ⟨⟨by decide, by decide, by decide, by decide, by decide!, by decide!⟩,
    ⟨by decide, by decide, by decide, by decide, by decide!⟩⟩

end BlendSpace1DNode

end EMotionFX

/-! # Single precision

The rounding to binary32, then the evaluation core of `EMotionFX.SinglePrecision`. -/

namespace IEEE

theorem roundHalfEven_cases (t : ℚ) :
    (roundHalfEven t = ⌊t⌋ ∧ t - ⌊t⌋ ≤ 1 / 2) ∨ (roundHalfEven t = ⌊t⌋ + 1 ∧ 1 / 2 ≤ t - ⌊t⌋) := by
  unfold roundHalfEven
  by_cases h1 : t - ⌊t⌋ < 1 / 2
  · left
    rw [if_pos h1]
    exact ⟨rfl, le_of_lt h1⟩
  · rw [if_neg h1]
    by_cases h2 : 1 / 2 < t - ⌊t⌋
    · right
      rw [if_pos h2]
      exact ⟨rfl, le_of_lt h2⟩
    · rw [if_neg h2]
      have heq : t - ⌊t⌋ = 1 / 2 := le_antisymm (not_lt.mp h2) (not_lt.mp h1)
      by_cases h3 : ⌊t⌋ % 2 = 0
      · left
        rw [if_pos h3]
        exact ⟨rfl, le_of_eq heq⟩
      · right
        rw [if_neg h3]
        exact ⟨rfl, le_of_eq heq.symm⟩

/-- The integer that `roundHalfEven` returns is at least as close as any
other integer. -/
theorem roundHalfEven_nearest (t : ℚ) (z : ℤ) :
    |(roundHalfEven t : ℚ) - t| ≤ |(z : ℚ) - t| := by
  have hfl : (⌊t⌋ : ℚ) ≤ t := Int.floor_le t
  have hlt : t < (⌊t⌋ : ℚ) + 1 := Int.lt_floor_add_one t
  have hz : z ≤ ⌊t⌋ ∨ ⌊t⌋ + 1 ≤ z := by omega
  have hzq : (z : ℚ) ≤ (⌊t⌋ : ℚ) ∨ (⌊t⌋ : ℚ) + 1 ≤ (z : ℚ) := by
    rcases hz with h | h
    · exact Or.inl (by exact_mod_cast h)
    · exact Or.inr (by exact_mod_cast h)
  rcases roundHalfEven_cases t with ⟨h, hr⟩ | ⟨h, hr⟩
  · rw [h, abs_sub_comm, abs_of_nonneg (by linarith)]
    rcases hzq with h2 | h2
    · rw [abs_sub_comm, abs_of_nonneg (by linarith)]
      linarith
    · rw [abs_of_nonneg (by linarith)]
      linarith
  · rw [h]
    push_cast
    rw [abs_of_nonneg (by linarith)]
    rcases hzq with h2 | h2
    · rw [abs_sub_comm, abs_of_nonneg (by linarith)]
      linarith
    · rw [abs_of_nonneg (by linarith)]
      linarith

theorem quantumSearch_spec (x : ℚ) (fuel : ℕ) (e0 : ℤ) :
    e0 ≤ quantumSearch x e0 fuel ∧ quantumSearch x e0 fuel ≤ e0 + fuel ∧
      (quantumSearch x e0 fuel = e0 ∨ (2 : ℚ) ^ (quantumSearch x e0 fuel + 23) ≤ |x|) ∧
      (|x| < (2 : ℚ) ^ (quantumSearch x e0 fuel + 24) ∨ quantumSearch x e0 fuel = e0 + fuel) := by
  induction fuel generalizing e0 with
  | zero => simp [quantumSearch]
  | succ n ih =>
    unfold quantumSearch
    by_cases h : |x| < (2 : ℚ) ^ (e0 + 24)
    · rw [if_pos h]
      refine ⟨le_refl _, by push_cast; omega, Or.inl rfl, Or.inl h⟩
    · rw [if_neg h]
      obtain ⟨h1, h2, h3, h4⟩ := ih (e0 + 1)
      refine ⟨by omega, by push_cast; omega, ?_, ?_⟩
      · right
        rcases h3 with h3 | h3
        · rw [h3]
          have : e0 + 1 + 23 = e0 + 24 := by ring
          rw [this]
          exact not_lt.mp h
        · exact h3
      · rcases h4 with h4 | h4
        · exact Or.inl h4
        · right
          rw [h4]
          push_cast
          ring

theorem quantumExponent_spec (x : ℚ) :
    -149 ≤ quantumExponent x ∧ quantumExponent x ≤ 104 ∧
      (quantumExponent x = -149 ∨ (2 : ℚ) ^ (quantumExponent x + 23) ≤ |x|) ∧
      (|x| < (2 : ℚ) ^ (quantumExponent x + 24) ∨ quantumExponent x = 104) := by
  obtain ⟨h1, h2, h3, h4⟩ := quantumSearch_spec x 253 (-149)
  unfold quantumExponent
  refine ⟨h1, by push_cast at h2; omega, h3, ?_⟩
  rcases h4 with h4 | h4
  · exact Or.inl h4
  · right
    rw [h4]
    norm_num

end IEEE

namespace IEEE

theorem two_zpow_pos (e : ℤ) : (0 : ℚ) < (2 : ℚ) ^ e := zpow_pos (by norm_num) e

/-- The value `roundToBinary32 x` is at least as close to `x` as any other
multiple of the quantum. -/
theorem roundToBinary32_nearest_multiple (x : ℚ) (z : ℤ) :
    |roundToBinary32 x - x| ≤ |(z : ℚ) * (2 : ℚ) ^ quantumExponent x - x| := by
  have hp := two_zpow_pos (quantumExponent x)
  have h := roundHalfEven_nearest (x / (2 : ℚ) ^ quantumExponent x) z
  have e1 : roundToBinary32 x - x =
      ((roundHalfEven (x / (2 : ℚ) ^ quantumExponent x) : ℚ) - x / (2 : ℚ) ^ quantumExponent x) *
        (2 : ℚ) ^ quantumExponent x := by
    unfold roundToBinary32
    field_simp
  have e2 : (z : ℚ) * (2 : ℚ) ^ quantumExponent x - x =
      ((z : ℚ) - x / (2 : ℚ) ^ quantumExponent x) * (2 : ℚ) ^ quantumExponent x := by
    field_simp
  rw [e1, e2, abs_mul, abs_mul, abs_of_pos hp]
  exact mul_le_mul_of_nonneg_right h (le_of_lt hp)

theorem zpow_eq_intCast_mul (k e : ℤ) (h : e ≤ k) :
    (2 : ℚ) ^ k = ((2 ^ (k - e).toNat : ℤ) : ℚ) * (2 : ℚ) ^ e := by
  have h1 : k = (k - e) + e := by ring
  have h2 : ((k - e).toNat : ℤ) = k - e := Int.toNat_of_nonneg (by omega)
  conv_lhs => rw [h1, zpow_add₀ (by norm_num : (2 : ℚ) ≠ 0)]
  congr 1
  rw [← h2]
  push_cast
  rw [zpow_natCast, h2]

/-- The value `roundToBinary32 x` is at least as close to `x` as any
representable value. -/
theorem roundToBinary32_nearest (x y : ℚ) (hy : Representable y) :
    |roundToBinary32 x - x| ≤ |y - x| := by
  obtain ⟨m, k, hk, hm, rfl⟩ := hy
  obtain ⟨h1, h2, h3, -⟩ := quantumExponent_spec x
  by_cases hke : quantumExponent x ≤ k
  · have := roundToBinary32_nearest_multiple x (m * 2 ^ (k - quantumExponent x).toNat)
    rw [zpow_eq_intCast_mul k (quantumExponent x) hke]
    push_cast at this ⊢
    rw [← mul_assoc]
    exact this
  · have hlt : k < quantumExponent x := not_le.mp hke
    have hB : (2 : ℚ) ^ (quantumExponent x + 23) ≤ |x| := by
      rcases h3 with h3 | h3
      · omega
      · exact h3
    have hm2 : |m| < 2 ^ 24 := by
      rcases hm with hm | hm
      · exact hm
      · omega
    have hmq : |(m : ℚ)| < 2 ^ 24 := by
      have : ((|m| : ℤ) : ℚ) < ((2 ^ 24 : ℤ) : ℚ) := by exact_mod_cast hm2
      simpa using this
    have hy : |(m : ℚ) * (2 : ℚ) ^ k| < (2 : ℚ) ^ (quantumExponent x + 23) := by
      rw [abs_mul, abs_of_pos (two_zpow_pos k)]
      have h24 : (2 : ℚ) ^ (k + 24) = (2 : ℚ) ^ 24 * (2 : ℚ) ^ k := by
        rw [zpow_add₀ (by norm_num : (2 : ℚ) ≠ 0)]
        norm_num
        ring
      calc |(m : ℚ)| * (2 : ℚ) ^ k < (2 : ℚ) ^ 24 * (2 : ℚ) ^ k :=
            mul_lt_mul_of_pos_right hmq (two_zpow_pos k)
        _ = (2 : ℚ) ^ (k + 24) := h24.symm
        _ ≤ (2 : ℚ) ^ (quantumExponent x + 23) :=
            zpow_le_zpow_right₀ (by norm_num) (by omega)
    have hBz : (2 : ℚ) ^ (quantumExponent x + 23) =
        ((2 ^ 23 : ℤ) : ℚ) * (2 : ℚ) ^ quantumExponent x := by
      rw [zpow_add₀ (by norm_num : (2 : ℚ) ≠ 0)]
      norm_num
      ring
    have hyabs := abs_lt.mp hy
    rcases le_abs'.mp hB with hx | hx
    · have := roundToBinary32_nearest_multiple x (-(2 ^ 23))
      push_cast at this hBz
      rw [neg_mul, ← hBz] at this
      have e : |-(2 : ℚ) ^ (quantumExponent x + 23) - x| =
          -(2 : ℚ) ^ (quantumExponent x + 23) - x := abs_of_nonneg (by linarith)
      rw [e] at this
      have h4 : (m : ℚ) * (2 : ℚ) ^ k - x ≤ |(m : ℚ) * (2 : ℚ) ^ k - x| := le_abs_self _
      linarith
    · have := roundToBinary32_nearest_multiple x (2 ^ 23)
      push_cast at this hBz
      rw [← hBz] at this
      have e : |(2 : ℚ) ^ (quantumExponent x + 23) - x| =
          x - (2 : ℚ) ^ (quantumExponent x + 23) := by
        rw [abs_sub_comm]
        exact abs_of_nonneg (by linarith)
      rw [e] at this
      have h4 : x - (m : ℚ) * (2 : ℚ) ^ k ≤ |(m : ℚ) * (2 : ℚ) ^ k - x| := by
        rw [abs_sub_comm]
        exact le_abs_self _
      linarith

end IEEE

namespace IEEE

theorem roundHalfEven_abs_le (t : ℚ) : |(roundHalfEven t : ℚ) - t| ≤ 1 / 2 := by
  have hfl : (⌊t⌋ : ℚ) ≤ t := Int.floor_le t
  have hlt : t < (⌊t⌋ : ℚ) + 1 := Int.lt_floor_add_one t
  rcases roundHalfEven_cases t with ⟨h, hr⟩ | ⟨h, hr⟩
  · rw [h, abs_sub_comm, abs_of_nonneg (by linarith)]
    exact hr
  · rw [h]
    push_cast
    rw [abs_of_nonneg (by linarith)]
    linarith

theorem roundHalfEven_abs_le_of_le (t : ℚ) (b : ℤ) (h : |t| ≤ (b : ℚ)) :
    |roundHalfEven t| ≤ b := by
  have hr := abs_le.mp (roundHalfEven_abs_le t)
  have ht := abs_le.mp h
  have h1 : (roundHalfEven t : ℚ) < (b : ℚ) + 1 := by linarith [hr.2, ht.2]
  have h2 : -(b : ℚ) - 1 < (roundHalfEven t : ℚ) := by linarith [hr.1, ht.1]
  have h3 : roundHalfEven t < b + 1 := by exact_mod_cast h1
  have h4 : -b - 1 < roundHalfEven t := by exact_mod_cast h2
  rw [abs_le]
  constructor <;> omega

theorem representable_zero : Representable 0 :=
  ⟨0, 0, by norm_num, Or.inl (by norm_num), by norm_num⟩

theorem representable_one : Representable 1 :=
  ⟨1, 0, by norm_num, Or.inl (by norm_num), by norm_num⟩

/-- Twice a representable value is representable. -/
theorem representable_double (y : ℚ) (h : Representable y) : Representable (2 * y) := by
  obtain ⟨m, k, hk, hm, rfl⟩ := h
  by_cases hk2 : k = 104
  · refine ⟨2 * m, k, hk, Or.inr hk2, ?_⟩
    push_cast
    ring
  · rcases hm with hm | hm
    · by_cases hk3 : k = 103
      · refine ⟨m, 104, by norm_num, Or.inr rfl, ?_⟩
        rw [hk3]
        have : (2 : ℚ) ^ (104 : ℤ) = 2 * (2 : ℚ) ^ (103 : ℤ) := by norm_num
        rw [this]
        ring
      · refine ⟨m, k + 1, by omega, Or.inl hm, ?_⟩
        rw [zpow_add₀ (by norm_num : (2 : ℚ) ≠ 0)]
        norm_num
        ring
    · exact absurd hm hk2

/-- A multiple of `2 ^ k` whose multiplier is at most `2 ^ 24` in absolute
value is representable. -/
theorem representable_of_le (n k : ℤ) (hk : -149 ≤ k) (hn : |n| ≤ 2 ^ 24) :
    Representable ((n : ℚ) * (2 : ℚ) ^ k) := by
  by_cases h : |n| < 2 ^ 24
  · exact ⟨n, k, hk, Or.inl h, rfl⟩
  · have habs : |n| = 2 ^ 24 := le_antisymm hn (not_lt.mp h)
    have h24 : (2 : ℚ) ^ (k + 24) = (2 : ℚ) ^ 24 * (2 : ℚ) ^ k := by
      rw [zpow_add₀ (by norm_num : (2 : ℚ) ≠ 0)]
      norm_num
      ring
    rcases abs_eq (by norm_num : (0 : ℤ) ≤ 2 ^ 24) |>.mp habs with hn2 | hn2
    · refine ⟨1, k + 24, by omega, Or.inl (by norm_num), ?_⟩
      rw [hn2, h24]
      push_cast
      ring
    · refine ⟨-1, k + 24, by omega, Or.inl (by norm_num), ?_⟩
      rw [hn2, h24]
      push_cast
      ring

theorem roundToBinary32_representable (x : ℚ) : Representable (roundToBinary32 x) := by
  obtain ⟨h1, h2, -, h4⟩ := quantumExponent_spec x
  rcases h4 with h4 | h4
  · apply representable_of_le _ _ h1
    have hp := two_zpow_pos (quantumExponent x)
    have h24 : (2 : ℚ) ^ (quantumExponent x + 24) = (2 : ℚ) ^ 24 * (2 : ℚ) ^ quantumExponent x := by
      rw [zpow_add₀ (by norm_num : (2 : ℚ) ≠ 0)]
      norm_num
      ring
    have ht : |x / (2 : ℚ) ^ quantumExponent x| < 2 ^ 24 := by
      rw [abs_div, abs_of_pos hp, div_lt_iff₀ hp, ← h24]
      exact h4
    exact roundHalfEven_abs_le_of_le _ (2 ^ 24) (by push_cast; exact le_of_lt ht)
  · exact ⟨_, _, h1, Or.inr h4, rfl⟩

/-- Rounding leaves a representable value as it is. -/
theorem roundToBinary32_of_representable (y : ℚ) (h : Representable y) :
    roundToBinary32 y = y := by
  have := roundToBinary32_nearest y y h
  rw [sub_self, abs_zero] at this
  have h0 := abs_nonneg (roundToBinary32 y - y)
  have : |roundToBinary32 y - y| = 0 := le_antisymm this h0
  exact sub_eq_zero.mp (abs_eq_zero.mp this)

/-- Rounding is monotone. -/
theorem roundToBinary32_mono (x y : ℚ) (h : x ≤ y) : roundToBinary32 x ≤ roundToBinary32 y := by
  by_contra hcon
  have hlt : roundToBinary32 y < roundToBinary32 x := not_le.mp hcon
  have h1 := roundToBinary32_nearest x (roundToBinary32 y) (roundToBinary32_representable y)
  have h2 := roundToBinary32_nearest y (roundToBinary32 x) (roundToBinary32_representable x)
  have h3 : roundToBinary32 x + roundToBinary32 y ≤ 2 * x := by
    by_contra hc
    have hc2 := not_le.mp hc
    rcases abs_cases (roundToBinary32 x - x) with ⟨e1, s1⟩ | ⟨e1, s1⟩ <;>
      rcases abs_cases (roundToBinary32 y - x) with ⟨e2, s2⟩ | ⟨e2, s2⟩ <;>
      rw [e1, e2] at h1 <;> linarith
  have h4 : 2 * y ≤ roundToBinary32 x + roundToBinary32 y := by
    by_contra hc
    have hc2 := not_le.mp hc
    rcases abs_cases (roundToBinary32 y - y) with ⟨e1, s1⟩ | ⟨e1, s1⟩ <;>
      rcases abs_cases (roundToBinary32 x - y) with ⟨e2, s2⟩ | ⟨e2, s2⟩ <;>
      rw [e1, e2] at h2 <;> linarith
  have hxy : x = y := by linarith
  rw [hxy] at hlt
  exact lt_irrefl _ hlt

theorem roundToBinary32_zero : roundToBinary32 0 = 0 :=
  roundToBinary32_of_representable 0 representable_zero

theorem roundToBinary32_one : roundToBinary32 1 = 1 :=
  roundToBinary32_of_representable 1 representable_one

theorem roundToBinary32_nonneg (x : ℚ) (h : 0 ≤ x) : 0 ≤ roundToBinary32 x := by
  have := roundToBinary32_mono 0 x h
  rw [roundToBinary32_zero] at this
  exact this

theorem roundToBinary32_le_one (x : ℚ) (h : x ≤ 1) : roundToBinary32 x ≤ 1 := by
  have := roundToBinary32_mono x 1 h
  rw [roundToBinary32_one] at this
  exact this

/-- Between 0 and 1 the rounding error is at most `2 ^ (-25)`. -/
theorem roundToBinary32_unit_error (x : ℚ) (h0 : 0 ≤ x) (h1 : x ≤ 1) :
    |roundToBinary32 x - x| ≤ 1 / 2 ^ 25 := by
  have hr := roundHalfEven_abs_le (x * 2 ^ 24)
  have hrep : Representable ((roundHalfEven (x * 2 ^ 24) : ℚ) * (2 : ℚ) ^ (-24 : ℤ)) := by
    apply representable_of_le _ _ (by norm_num)
    have hx0 : 0 ≤ x * 2 ^ 24 := mul_nonneg h0 (by norm_num)
    have hx1 : x * 2 ^ 24 ≤ 2 ^ 24 := by
      have := mul_le_mul_of_nonneg_right h1 (by norm_num : (0 : ℚ) ≤ 2 ^ 24)
      linarith
    exact roundHalfEven_abs_le_of_le _ (2 ^ 24)
      (by push_cast; rw [abs_of_nonneg hx0]; exact hx1)
  have hn := roundToBinary32_nearest x _ hrep
  have e : (roundHalfEven (x * 2 ^ 24) : ℚ) * (2 : ℚ) ^ (-24 : ℤ) - x =
      ((roundHalfEven (x * 2 ^ 24) : ℚ) - x * 2 ^ 24) * (1 / 2 ^ 24) := by
    norm_num
    ring
  rw [e, abs_mul, abs_of_pos (by norm_num : (0 : ℚ) < 1 / 2 ^ 24)] at hn
  calc |roundToBinary32 x - x| ≤ |(roundHalfEven (x * 2 ^ 24) : ℚ) - x * 2 ^ 24| * (1 / 2 ^ 24) := hn
    _ ≤ 1 / 2 * (1 / 2 ^ 24) := mul_le_mul_of_nonneg_right hr (by norm_num)
    _ = 1 / 2 ^ 25 := by norm_num

end IEEE

namespace IEEE

namespace Binary32

theorem le_of_lt (a b : Binary32) (h : lt a b = true) : le a b = true := by
  cases a <;> cases b <;> simp [lt, le] at h ⊢
  exact h.le

theorem ne_nan_of_le (a b : Binary32) (h : le a b = true) : a ≠ nan ∧ b ≠ nan := by
  cases a <;> cases b <;> simp [le] at h ⊢

theorem ne_nan_of_lt (a b : Binary32) (h : lt a b = true) : a ≠ nan ∧ b ≠ nan := by
  cases a <;> cases b <;> simp [lt] at h ⊢

theorem lt_of_not_le (a b : Binary32) (ha : a ≠ nan) (hb : b ≠ nan) (h : le a b = false) :
    lt b a = true := by
  cases a <;> cases b <;> simp [lt, le] at h ha hb ⊢
  exact h

theorem le_of_not_lt (a b : Binary32) (ha : a ≠ nan) (hb : b ≠ nan) (h : lt a b = false) :
    le b a = true := by
  cases a <;> cases b <;> simp [lt, le] at h ha hb ⊢
  exact h

theorem not_le_of_lt (a b : Binary32) (h : lt a b = true) : le b a = false := by
  cases a <;> cases b <;> simp [lt, le] at h ⊢
  exact h

theorem le_refl (a : Binary32) (ha : a ≠ nan) : le a a = true := by
  cases a <;> simp [le] at ha ⊢

theorem le_trans (a b c : Binary32) (h1 : le a b = true) (h2 : le b c = true) :
    le a c = true := by
  cases a <;> cases b <;> cases c <;> simp [le] at h1 h2 ⊢
  exact h1.trans h2

theorem le_antisymm (a b : Binary32) (h1 : le a b = true) (h2 : le b a = true) : a = b := by
  cases a <;> cases b <;> simp [le] at h1 h2 ⊢
  exact h1.antisymm h2

/-- The rounded value is finite unless its magnitude reaches `2 ^ 128`. -/
theorem ofRat_cases (x : ℚ) :
    (ofRat x = posInf ∧ (2 : ℚ) ^ 128 ≤ roundToBinary32 x) ∨
      (ofRat x = negInf ∧ roundToBinary32 x ≤ -(2 : ℚ) ^ 128) ∨
      (ofRat x = finite (roundToBinary32 x) ∧ |roundToBinary32 x| < (2 : ℚ) ^ 128) := by
  unfold ofRat
  by_cases h1 : (2 : ℚ) ^ 128 ≤ roundToBinary32 x
  · exact Or.inl ⟨by rw [if_pos h1], h1⟩
  · by_cases h2 : roundToBinary32 x ≤ -(2 : ℚ) ^ 128
    · exact Or.inr (Or.inl ⟨by rw [if_neg h1, if_pos h2], h2⟩)
    · refine Or.inr (Or.inr ⟨by rw [if_neg h1, if_neg h2], ?_⟩)
      rw [abs_lt]
      exact ⟨not_le.mp h2, not_le.mp h1⟩

theorem ofRat_ne_nan (x : ℚ) : ofRat x ≠ nan := by
  rcases ofRat_cases x with ⟨h, -⟩ | ⟨h, -⟩ | ⟨h, -⟩ <;> rw [h] <;> simp

theorem ofRat_of_abs_lt (x : ℚ) (h : |roundToBinary32 x| < (2 : ℚ) ^ 128) :
    ofRat x = finite (roundToBinary32 x) := by
  have h2 := abs_lt.mp h
  unfold ofRat
  rw [if_neg (not_le.mpr h2.2), if_neg (not_le.mpr h2.1)]

theorem ofRat_eq_finite (x v : ℚ) (h : ofRat x = finite v) :
    v = roundToBinary32 x ∧ |v| < (2 : ℚ) ^ 128 := by
  rcases ofRat_cases x with ⟨h1, -⟩ | ⟨h1, -⟩ | ⟨h1, h2⟩
  · rw [h1] at h
    simp at h
  · rw [h1] at h
    simp at h
  · rw [h1] at h
    simp only [finite.injEq] at h
    rw [← h]
    exact ⟨rfl, h2⟩

theorem le_posInf (a : Binary32) (ha : a ≠ nan) : le a posInf = true := by
  cases a <;> simp [le] at ha ⊢

theorem negInf_le (a : Binary32) (ha : a ≠ nan) : le negInf a = true := by
  cases a <;> simp [le] at ha ⊢

theorem le_finite_iff (a b : ℚ) : le (finite a) (finite b) = true ↔ a ≤ b := by
  simp [le]

theorem lt_finite_iff (a b : ℚ) : lt (finite a) (finite b) = true ↔ a < b := by
  simp [lt]

/-- Rounding into binary32 is monotone, overflow included. -/
theorem ofRat_mono (x y : ℚ) (h : x ≤ y) : le (ofRat x) (ofRat y) = true := by
  have hm := roundToBinary32_mono x y h
  have hB : (0 : ℚ) < (2 : ℚ) ^ 128 := by positivity
  rcases ofRat_cases y with ⟨h2, b2⟩ | ⟨h2, b2⟩ | ⟨h2, b2⟩
  · rw [h2]
    exact le_posInf _ (ofRat_ne_nan x)
  · rcases ofRat_cases x with ⟨h1, b1⟩ | ⟨h1, b1⟩ | ⟨h1, b1⟩
    · exfalso
      linarith
    · rw [h1]
      exact negInf_le _ (ofRat_ne_nan y)
    · exfalso
      have b3 := abs_lt.mp b1
      linarith
  · rcases ofRat_cases x with ⟨h1, b1⟩ | ⟨h1, b1⟩ | ⟨h1, b1⟩
    · exfalso
      have b3 := abs_lt.mp b2
      linarith
    · rw [h1]
      exact negInf_le _ (ofRat_ne_nan y)
    · rw [h1, h2, le_finite_iff]
      exact hm

theorem isFinite_iff (a : Binary32) : a.isFinite = true ↔ ∃ v, a = finite v := by
  cases a <;> simp [isFinite]

theorem isValue_finite (v : ℚ) (h : (finite v).isValue = true) :
    roundToBinary32 v = v ∧ |v| < (2 : ℚ) ^ 128 := by
  simpa [isValue] using h

theorem not_lt_of_le (a b : Binary32) (h : le a b = true) : lt b a = false := by
  cases a <;> cases b <;> simp [lt, le] at h ⊢
  exact h

theorem add_isFinite (a b : Binary32) (h : (add a b).isFinite = true) :
    ∃ x y, a = finite x ∧ b = finite y ∧ add a b = ofRat (x + y) := by
  cases a <;> cases b <;> simp [add, isFinite] at h ⊢

theorem isValue_zero : (finite 0).isValue = true := by
  simp only [isValue, decide_eq_true_eq]
  exact ⟨roundToBinary32_zero, by norm_num⟩

end Binary32

end IEEE

namespace AZStd

/-- Insertion keeps a list ordered by `r` when, on the elements that satisfy
`p`, the comparator `lt` decides `r` in one direction or the other. -/
theorem insertSorted_pairwise_of {α : Type} (lt : α → α → Bool) (r : α → α → Prop)
    (p : α → Prop)
    (hlt : ∀ a b, p a → p b → lt a b = true → r a b)
    (hge : ∀ a b, p a → p b → lt a b = false → r b a)
    (htrans : ∀ a b c, r a b → r b c → r a c)
    (x : α) (l : List α) (hx : p x) (hp : ∀ a ∈ l, p a) (hl : l.Pairwise r) :
    (insertSorted lt x l).Pairwise r := by
  induction l with
  | nil => simp [insertSorted]
  | cons y ys ih =>
    rw [List.pairwise_cons] at hl
    have hy : p y := hp y (List.mem_cons_self _ _)
    have hys : ∀ a ∈ ys, p a := fun a ha => hp a (List.mem_cons_of_mem _ ha)
    unfold insertSorted
    by_cases hyx : lt y x = true
    · rw [if_pos hyx, List.pairwise_cons]
      refine ⟨?_, ih hys hl.2⟩
      intro z hz
      rcases List.mem_cons.mp ((insertSorted_perm lt x ys).mem_iff.mp hz) with rfl | hz
      · exact hlt y z hy hx hyx
      · exact hl.1 z hz
    · rw [if_neg hyx, List.pairwise_cons]
      have hxy : r x y := hge y x hy hx (by simpa using hyx)
      refine ⟨?_, List.pairwise_cons.mpr hl⟩
      intro z hz
      rcases List.mem_cons.mp hz with rfl | hz
      · exact hxy
      · exact htrans _ _ _ hxy (hl.1 z hz)

theorem sort_pairwise_of {α : Type} (lt : α → α → Bool) (r : α → α → Prop)
    (p : α → Prop)
    (hlt : ∀ a b, p a → p b → lt a b = true → r a b)
    (hge : ∀ a b, p a → p b → lt a b = false → r b a)
    (htrans : ∀ a b c, r a b → r b c → r a c)
    (l : List α) (hp : ∀ a ∈ l, p a) :
    (sort lt l).Pairwise r := by
  induction l with
  | nil => simp [sort]
  | cons x xs ih =>
    unfold sort
    have hxs : ∀ a ∈ xs, p a := fun a ha => hp a (List.mem_cons_of_mem _ ha)
    exact insertSorted_pairwise_of lt r p hlt hge htrans x _ (hp x (List.mem_cons_self _ _))
      (fun a ha => hxs a ((sort_perm lt xs).mem_iff.mp ha)) (ih hxs)

end AZStd

namespace EMotionFX

namespace SinglePrecision

open IEEE

theorem getD_ne_nan (coords : List Binary32) (hnan : ∀ c ∈ coords, c ≠ Binary32.nan) (k : Nat) :
    coords.getD k (Binary32.finite 0) ≠ Binary32.nan := by
  by_cases hk : k < coords.length
  · rw [List.getD_eq_getElem _ _ hk]
    exact hnan _ (List.getElem_mem hk)
  · rw [List.getD_eq_default _ _ (not_lt.mp hk)]
    simp

theorem sortMotionInstances_perm_binary32 (d : UniqueData) :
    (SortMotionInstances d).m_sortedMotions.Perm
      (List.range (d.m_motionCoordinates.length % 65536)) :=
  AZStd.sort_perm _ _

theorem sortMotionInstances_pairwise_binary32 (d : UniqueData)
    (hnan : ∀ c ∈ d.m_motionCoordinates, c ≠ Binary32.nan) :
    (SortMotionInstances d).m_sortedMotions.Pairwise
      (fun a b => Binary32.le (d.m_motionCoordinates.getD a (Binary32.finite 0))
        (d.m_motionCoordinates.getD b (Binary32.finite 0)) = true) := by
  apply AZStd.sort_pairwise_of (MotionSortComparer d.m_motionCoordinates) _ (fun _ => True)
  · intro a b _ _ h
    exact Binary32.le_of_lt _ _ h
  · intro a b _ _ h
    exact Binary32.le_of_not_lt _ _ (getD_ne_nan _ hnan a) (getD_ne_nan _ hnan b) h
  · intro a b c h1 h2
    exact Binary32.le_trans _ _ _ h1 h2
  · intro a _
    trivial

/-- C1, as amended: when no coordinate is a NaN and the number `n` of
coordinates fits the `AZ::u16` in which `SortMotionInstances` holds it
(`n <= 65535`), then for every `i` with `0 < i < n` both reads
`m_motionCoordinates[m_sortedMotions[i-1]]` and
`m_motionCoordinates[m_sortedMotions[i]]` are in bounds after the call and the
float comparison `<=` of the first with the second holds. -/
theorem sortMotionInstances_nondecreasing (d : UniqueData) (i : Nat)
    (hnan : ∀ c ∈ d.m_motionCoordinates, c ≠ Binary32.nan)
    (hfit : d.m_motionCoordinates.length < 65536) (h0 : 0 < i)
    (hi : i < d.m_motionCoordinates.length) :
    ∃ x y, (SortMotionInstances d).sortedCoordinate? (i - 1) = some x ∧
      (SortMotionInstances d).sortedCoordinate? i = some y ∧ Binary32.le x y = true := by
  have hperm := sortMotionInstances_perm_binary32 d
  rw [Nat.mod_eq_of_lt hfit] at hperm
  have hlen : (SortMotionInstances d).m_sortedMotions.length = d.m_motionCoordinates.length := by
    rw [hperm.length_eq, List.length_range]
  have hi2 : i < (SortMotionInstances d).m_sortedMotions.length := by rw [hlen]; exact hi
  have hi1 : i - 1 < (SortMotionInstances d).m_sortedMotions.length := by omega
  have hmem : ∀ k ∈ (SortMotionInstances d).m_sortedMotions, k < d.m_motionCoordinates.length :=
    fun k hk => List.mem_range.mp (hperm.mem_iff.mp hk)
  have hb := hmem _ (List.getElem_mem hi2)
  have ha := hmem _ (List.getElem_mem hi1)
  have hp := List.pairwise_iff_getElem.mp (sortMotionInstances_pairwise_binary32 d hnan)
    (i - 1) i hi1 hi2 (by omega)
  rw [List.getD_eq_getElem _ _ ha, List.getD_eq_getElem _ _ hb] at hp
  refine ⟨_, _, ?_, ?_, hp⟩
  · unfold UniqueData.sortedCoordinate?
    rw [List.getElem?_eq_getElem hi1]
    exact List.getElem?_eq_getElem ha
  · unfold UniqueData.sortedCoordinate?
    rw [List.getElem?_eq_getElem hi2]
    exact List.getElem?_eq_getElem hb

end SinglePrecision

end EMotionFX

namespace EMotionFX

namespace SinglePrecision

open IEEE

/-- What the scan loop writes when it stops at index `j`. -/
theorem segmentLoop_eq_some_binary32 (d : UniqueData) (remaining i : Nat)
    (seg : CurrentSegmentInfo) (h : segmentLoop d i remaining = some seg) :
    ∃ j, i ≤ j ∧ j < i + remaining ∧
      (Binary32.le (d.sortedCoordinate (j - 1)) d.m_currentPosition = true ∧
        Binary32.le d.m_currentPosition (d.sortedCoordinate j) = true) ∧
      seg.m_segmentIndex = j - 1 ∧
      seg.m_weightForSegmentEnd =
        if Binary32.le (Binary32.sub (d.sortedCoordinate j) (d.sortedCoordinate (j - 1)))
            (Binary32.finite 0) = true then Binary32.finite 0
        else Binary32.div (Binary32.sub d.m_currentPosition (d.sortedCoordinate (j - 1)))
          (Binary32.sub (d.sortedCoordinate j) (d.sortedCoordinate (j - 1))) := by
  induction remaining generalizing i with
  | zero => simp [segmentLoop] at h
  | succ r ih =>
    unfold segmentLoop at h
    by_cases hc : Binary32.le (d.sortedCoordinate (i - 1)) d.m_currentPosition = true ∧
        Binary32.le d.m_currentPosition (d.sortedCoordinate i) = true
    · refine ⟨i, Nat.le_refl _, by omega, hc, ?_⟩
      simp only [hc, and_self, if_true] at h
      by_cases hl : Binary32.le (Binary32.sub (d.sortedCoordinate i) (d.sortedCoordinate (i - 1)))
          (Binary32.finite 0) = true
      · rw [if_pos hl, Option.some.injEq] at h
        subst h
        exact ⟨rfl, by rw [if_pos hl]⟩
      · rw [if_neg hl, Option.some.injEq] at h
        subst h
        exact ⟨rfl, by rw [if_neg hl]⟩
    · simp only [hc, if_false] at h
      obtain ⟨j, h1, h2, h3, h5⟩ := ih (i + 1) h
      exact ⟨j, by omega, by omega, h3, h5⟩

/-- The scan loop runs to its end exactly when no index of its range brackets
the query position. -/
theorem segmentLoop_eq_none_iff_binary32 (d : UniqueData) (remaining i : Nat) :
    segmentLoop d i remaining = none ↔
      ∀ j, i ≤ j → j < i + remaining →
        ¬ (Binary32.le (d.sortedCoordinate (j - 1)) d.m_currentPosition = true ∧
          Binary32.le d.m_currentPosition (d.sortedCoordinate j) = true) := by
  induction remaining generalizing i with
  | zero =>
    simp only [segmentLoop, add_zero, true_iff]
    intro j h1 h2
    omega
  | succ r ih =>
    unfold segmentLoop
    by_cases hc : Binary32.le (d.sortedCoordinate (i - 1)) d.m_currentPosition = true ∧
        Binary32.le d.m_currentPosition (d.sortedCoordinate i) = true
    · simp only [hc, and_self, if_true]
      constructor
      · intro h
        split at h <;> simp at h
      · intro h
        exact absurd hc (h i (Nat.le_refl _) (by omega))
    · simp only [hc, if_false]
      rw [ih]
      constructor
      · intro h j h1 h2
        by_cases hji : j = i
        · subst hji
          exact hc
        · exact h j (by omega) (by omega)
      · intro h j h1 h2
        exact h j (by omega) (by omega)

theorem getRangeMin_eq_binary32 (d : UniqueData) (h : d.m_sortedMotions ≠ []) :
    d.GetRangeMin = d.sortedCoordinate 0 := by
  unfold UniqueData.GetRangeMin UniqueData.sortedCoordinate
  cases hs : d.m_sortedMotions with
  | nil => exact absurd hs h
  | cons a t => simp

theorem getRangeMax_eq_binary32 (d : UniqueData) (h : d.m_sortedMotions ≠ []) :
    d.GetRangeMax = d.sortedCoordinate (d.m_sortedMotions.length - 1) := by
  unfold UniqueData.GetRangeMax UniqueData.sortedCoordinate
  have hne : d.m_sortedMotions.isEmpty = false := by
    cases hs : d.m_sortedMotions with
    | nil => exact absurd hs h
    | cons a t => rfl
  have hlen : d.m_sortedMotions.length - 1 < d.m_sortedMotions.length :=
    Nat.sub_lt (List.length_pos.mpr h) Nat.one_pos
  rw [hne, List.getD_eq_getElem _ _ hlen]
  simp only [Bool.false_eq_true, if_false]
  congr 1
  rw [List.getLastD_eq_getLast?, List.getLast?_eq_getLast _ h, List.getLast_eq_getElem]
  rfl

/-- The two ways `FindLineSegmentForCurrentPoint` returns. -/
theorem findLineSegment_cases_binary32 (d : UniqueData) :
    ((d.m_sortedMotions.length % 4294967296 < 2
        ∨ Binary32.lt d.m_currentPosition d.GetRangeMin = true
        ∨ Binary32.lt d.GetRangeMax d.m_currentPosition = true
        ∨ segmentLoop d 1 (d.m_sortedMotions.length % 4294967296 - 1) = none) ∧
      FindLineSegmentForCurrentPoint d = (false, d.invalidateSegment)) ∨
    (¬ (d.m_sortedMotions.length % 4294967296 < 2
        ∨ Binary32.lt d.m_currentPosition d.GetRangeMin = true
        ∨ Binary32.lt d.GetRangeMax d.m_currentPosition = true) ∧
      ∃ seg, segmentLoop d 1 (d.m_sortedMotions.length % 4294967296 - 1) = some seg ∧
        FindLineSegmentForCurrentPoint d = (true, { d with m_currentSegment := seg })) := by
  unfold FindLineSegmentForCurrentPoint
  by_cases hg : d.m_sortedMotions.length % 4294967296 < 2
      ∨ Binary32.lt d.m_currentPosition d.GetRangeMin = true
      ∨ Binary32.lt d.GetRangeMax d.m_currentPosition = true
  · left
    refine ⟨?_, by simp only [hg, if_true]⟩
    rcases hg with h | h | h
    · exact Or.inl h
    · exact Or.inr (Or.inl h)
    · exact Or.inr (Or.inr (Or.inl h))
  · cases hs : segmentLoop d 1 (d.m_sortedMotions.length % 4294967296 - 1) with
    | none =>
      left
      refine ⟨Or.inr (Or.inr (Or.inr rfl)), ?_⟩
      simp only [hg, if_false, hs]
    | some seg =>
      right
      refine ⟨hg, seg, rfl, ?_⟩
      simp only [hg, if_false, hs]

theorem segmentLoop_index_ne_invalid_binary32 (d : UniqueData) (seg : CurrentSegmentInfo)
    (h : segmentLoop d 1 (d.m_sortedMotions.length % 4294967296 - 1) = some seg) :
    seg.m_segmentIndex ≠ MCORE_INVALIDINDEX32 := by
  obtain ⟨j, h1, h2, -, h5, -⟩ := segmentLoop_eq_some_binary32 d _ 1 seg h
  have hmod : d.m_sortedMotions.length % 4294967296 < 4294967296 :=
    Nat.mod_lt _ (by norm_num)
  rw [h5]
  unfold MCORE_INVALIDINDEX32
  omega

theorem segmentLoop_invalidateSegment_binary32 (d : UniqueData) (remaining i : Nat) :
    segmentLoop d.invalidateSegment i remaining = segmentLoop d i remaining := by
  induction remaining generalizing i with
  | zero => rfl
  | succ r ih =>
    unfold segmentLoop
    rw [ih]
    rfl

/-- The two outcomes of `UpdateBlendingInfoForCurrentPoint`. -/
theorem updateBlendingInfo_cases_binary32 (blendInfoLess : BlendInfo → BlendInfo → Bool)
    (d : UniqueData) :
    (∃ seg, segmentLoop d 1 (d.m_sortedMotions.length % 4294967296 - 1) = some seg ∧
      ¬ (d.m_sortedMotions.length % 4294967296 < 2
        ∨ Binary32.lt d.m_currentPosition d.GetRangeMin = true
        ∨ Binary32.lt d.GetRangeMax d.m_currentPosition = true) ∧
      seg.m_segmentIndex ≠ MCORE_INVALIDINDEX32 ∧
      (UpdateBlendingInfoForCurrentPoint blendInfoLess d).m_currentSegment = seg ∧
      (UpdateBlendingInfoForCurrentPoint blendInfoLess d).m_blendInfos =
        AZStd.sort blendInfoLess
          [ { m_motionIndex := d.m_sortedMotions.getD seg.m_segmentIndex 0
              m_weight := Binary32.sub (Binary32.finite 1) seg.m_weightForSegmentEnd },
            { m_motionIndex := d.m_sortedMotions.getD (seg.m_segmentIndex + 1) 0
              m_weight := seg.m_weightForSegmentEnd } ]) ∨
    ((d.m_sortedMotions.length % 4294967296 < 2
        ∨ Binary32.lt d.m_currentPosition d.GetRangeMin = true
        ∨ Binary32.lt d.GetRangeMax d.m_currentPosition = true
        ∨ segmentLoop d 1 (d.m_sortedMotions.length % 4294967296 - 1) = none) ∧
      (UpdateBlendingInfoForCurrentPoint blendInfoLess d).m_currentSegment.m_segmentIndex =
        MCORE_INVALIDINDEX32 ∧
      (UpdateBlendingInfoForCurrentPoint blendInfoLess d).m_blendInfos =
        AZStd.sort blendInfoLess
          (if d.m_motionInfos = [] then []
           else [ { m_motionIndex :=
                      if Binary32.lt d.m_currentPosition d.GetRangeMin = true
                      then d.m_sortedMotions.headD 0
                      else d.m_sortedMotions.getLastD 0
                    m_weight := Binary32.finite 1 } ])) := by
  rcases findLineSegment_cases_binary32 d.invalidateSegment with ⟨hg, h⟩ | ⟨hg, seg, hs, h⟩
  · right
    refine ⟨?_, ?_, ?_⟩
    · rw [segmentLoop_invalidateSegment_binary32] at hg
      exact hg
    · unfold UpdateBlendingInfoForCurrentPoint
      simp only [h]
      rfl
    · unfold UpdateBlendingInfoForCurrentPoint
      simp only [h]
      have hidx : d.invalidateSegment.invalidateSegment.m_currentSegment.m_segmentIndex =
          MCORE_INVALIDINDEX32 := rfl
      simp only [hidx, ne_eq, not_true_eq_false, if_false]
      by_cases hm : d.m_motionInfos = []
      · simp [hm, UniqueData.invalidateSegment]
      · have hm2 : d.m_motionInfos.isEmpty = false := by
          cases hmi : d.m_motionInfos with
          | nil => exact absurd hmi hm
          | cons a t => rfl
        simp only [hm, if_false]
        simp only [UniqueData.invalidateSegment, hm2, Bool.false_eq_true, not_false_eq_true,
          if_true]
        rfl
  · left
    rw [segmentLoop_invalidateSegment_binary32] at hs
    have hne := segmentLoop_index_ne_invalid_binary32 d seg hs
    refine ⟨seg, hs, hg, hne, ?_, ?_⟩
    · unfold UpdateBlendingInfoForCurrentPoint
      simp only [h]
    · unfold UpdateBlendingInfoForCurrentPoint
      simp only [h, ne_eq, hne, not_false_eq_true, if_true]
      rfl

/-- Coordinates that are non-decreasing from each sorted index to the next are
non-decreasing from the first index to every other. -/
theorem sortedCoordinate_zero_le_binary32 (d : UniqueData)
    (hsorted : ∀ i, i + 1 < d.m_sortedMotions.length →
      Binary32.le (d.sortedCoordinate i) (d.sortedCoordinate (i + 1)) = true)
    (k : Nat) (h1 : 1 ≤ k) (hk : k < d.m_sortedMotions.length) :
    Binary32.le (d.sortedCoordinate 0) (d.sortedCoordinate k) = true := by
  induction k with
  | zero => omega
  | succ n ih =>
    rcases Nat.eq_zero_or_pos n with rfl | hpos
    · exact hsorted 0 hk
    · exact Binary32.le_trans _ _ _ (ih hpos (by omega)) (hsorted n hk)

/-- When no index in `1 .. m` brackets a query that is not a NaN and is at or
above the first coordinate, the query lies strictly above every coordinate up
to `m`. -/
theorem above_of_no_bracket_binary32 (d : UniqueData) (m : Nat)
    (hsorted : ∀ i, i + 1 < d.m_sortedMotions.length →
      Binary32.le (d.sortedCoordinate i) (d.sortedCoordinate (i + 1)) = true)
    (hm : m < d.m_sortedMotions.length)
    (h0 : Binary32.le (d.sortedCoordinate 0) d.m_currentPosition = true)
    (h : ∀ j, 1 ≤ j → j < 1 + m →
      ¬ (Binary32.le (d.sortedCoordinate (j - 1)) d.m_currentPosition = true ∧
        Binary32.le d.m_currentPosition (d.sortedCoordinate j) = true)) :
    ∀ j, 1 ≤ j → j ≤ m → Binary32.lt (d.sortedCoordinate j) d.m_currentPosition = true := by
  intro j
  induction j with
  | zero => intro h1; omega
  | succ k ih =>
    intro _ hk
    have hprev : Binary32.le (d.sortedCoordinate k) d.m_currentPosition = true := by
      rcases Nat.eq_zero_or_pos k with rfl | hpos
      · exact h0
      · exact Binary32.le_of_lt _ _ (ih hpos (by omega))
    have hnot := h (k + 1) (by omega) (by omega)
    rw [Nat.add_sub_cancel] at hnot
    have hq := (Binary32.ne_nan_of_le _ _ h0).2
    have hc := (Binary32.ne_nan_of_le _ _ (hsorted k (by omega))).2
    apply Binary32.lt_of_not_le _ _ hq hc
    cases hle : Binary32.le d.m_currentPosition (d.sortedCoordinate (k + 1)) with
    | false => rfl
    | true => exact absurd ⟨hprev, hle⟩ hnot

/-- With at least two points in ascending order and the query inside the range
the scan loop always stops at a segment. -/
theorem segmentLoop_ne_none_binary32 (d : UniqueData) (h2 : 2 ≤ d.m_sortedMotions.length)
    (hsorted : ∀ i, i + 1 < d.m_sortedMotions.length →
      Binary32.le (d.sortedCoordinate i) (d.sortedCoordinate (i + 1)) = true)
    (hmin : Binary32.le d.GetRangeMin d.m_currentPosition = true)
    (hmax : Binary32.le d.m_currentPosition d.GetRangeMax = true) :
    segmentLoop d 1 (d.m_sortedMotions.length - 1) ≠ none := by
  intro hnone
  have hne : d.m_sortedMotions ≠ [] := by
    intro he
    rw [he] at h2
    simp at h2
  rw [segmentLoop_eq_none_iff_binary32] at hnone
  rw [getRangeMin_eq_binary32 d hne] at hmin
  rw [getRangeMax_eq_binary32 d hne] at hmax
  have := above_of_no_bracket_binary32 d (d.m_sortedMotions.length - 1) hsorted (by omega) hmin
    hnone (d.m_sortedMotions.length - 1) (by omega) (Nat.le_refl _)
  have h3 := Binary32.not_le_of_lt _ _ this
  rw [hmax] at h3
  exact absurd h3 (by simp)

end SinglePrecision

end EMotionFX

namespace EMotionFX

namespace SinglePrecision

open IEEE

/-- C4, as amended: for coordinates in ascending order through
`m_sortedMotions` (float `<=` from each sorted index to the next, so none of
them a NaN), a count `n` that fits the `AZ::u32` `numPoints`, and a query that
is not a NaN, `FindLineSegmentForCurrentPoint` returns `false`, and likewise
stores the sentinel segment index, exactly when `n < 2` or the query is below
`GetRangeMin` or above `GetRangeMax`; and unless one of these three holds the
scan loop stops at a segment, so the trailing failure return is not reached. -/
theorem findLineSegment_none_iff (d : UniqueData)
    (hlen : d.m_sortedMotions.length < 4294967296)
    (hsorted : ∀ i, i + 1 < d.m_sortedMotions.length →
      Binary32.le (d.sortedCoordinate i) (d.sortedCoordinate (i + 1)) = true)
    (hq : d.m_currentPosition ≠ Binary32.nan) :
    ((FindLineSegmentForCurrentPoint d).1 = false ↔
        (d.m_sortedMotions.length < 2 ∨ Binary32.lt d.m_currentPosition d.GetRangeMin = true
          ∨ Binary32.lt d.GetRangeMax d.m_currentPosition = true)) ∧
      ((FindLineSegmentForCurrentPoint d).2.m_currentSegment.m_segmentIndex =
          MCORE_INVALIDINDEX32 ↔
        (d.m_sortedMotions.length < 2 ∨ Binary32.lt d.m_currentPosition d.GetRangeMin = true
          ∨ Binary32.lt d.GetRangeMax d.m_currentPosition = true)) ∧
      ((d.m_sortedMotions.length < 2 ∨ Binary32.lt d.m_currentPosition d.GetRangeMin = true
          ∨ Binary32.lt d.GetRangeMax d.m_currentPosition = true) ∨
        (segmentLoop d 1 (d.m_sortedMotions.length - 1)).isSome = true) := by
  have hmod : d.m_sortedMotions.length % 4294967296 = d.m_sortedMotions.length :=
    Nat.mod_eq_of_lt hlen
  have hscan : ¬ (d.m_sortedMotions.length < 2
      ∨ Binary32.lt d.m_currentPosition d.GetRangeMin = true
      ∨ Binary32.lt d.GetRangeMax d.m_currentPosition = true) →
      segmentLoop d 1 (d.m_sortedMotions.length - 1) ≠ none := by
    intro hg
    simp only [not_or, not_lt, Bool.not_eq_true] at hg
    obtain ⟨h2, hlo, hhi⟩ := hg
    have hne : d.m_sortedMotions ≠ [] := by
      intro he
      rw [he] at h2
      simp at h2
    have hmin : d.GetRangeMin ≠ Binary32.nan := by
      rw [getRangeMin_eq_binary32 d hne]
      exact (Binary32.ne_nan_of_le _ _ (hsorted 0 (by omega))).1
    have hmax : d.GetRangeMax ≠ Binary32.nan := by
      rw [getRangeMax_eq_binary32 d hne]
      have := (Binary32.ne_nan_of_le _ _ (hsorted (d.m_sortedMotions.length - 2) (by omega))).2
      rw [show d.m_sortedMotions.length - 2 + 1 = d.m_sortedMotions.length - 1 by omega] at this
      exact this
    exact segmentLoop_ne_none_binary32 d h2 hsorted
      (Binary32.le_of_not_lt _ _ hq hmin hlo) (Binary32.le_of_not_lt _ _ hmax hq hhi)
  have hfst : (FindLineSegmentForCurrentPoint d).1 = false ↔
      (d.m_sortedMotions.length < 2 ∨ Binary32.lt d.m_currentPosition d.GetRangeMin = true
        ∨ Binary32.lt d.GetRangeMax d.m_currentPosition = true) := by
    rcases findLineSegment_cases_binary32 d with ⟨hg, h⟩ | ⟨hg, seg, -, h⟩
    · rw [hmod] at hg
      rw [h]
      simp only [true_iff]
      by_contra hcon
      rcases hg with h1 | h1 | h1 | h1
      · exact hcon (Or.inl h1)
      · exact hcon (Or.inr (Or.inl h1))
      · exact hcon (Or.inr (Or.inr h1))
      · exact hscan hcon h1
    · rw [hmod] at hg
      rw [h]
      simp only [Bool.true_eq_false, false_iff]
      exact hg
  have hidx : (FindLineSegmentForCurrentPoint d).1 = false ↔
      (FindLineSegmentForCurrentPoint d).2.m_currentSegment.m_segmentIndex =
        MCORE_INVALIDINDEX32 := by
    rcases findLineSegment_cases_binary32 d with ⟨-, h⟩ | ⟨-, seg, hs, h⟩
    · rw [h]
      simp [UniqueData.invalidateSegment]
    · rw [h]
      simp only [Bool.true_eq_false, false_iff]
      exact segmentLoop_index_ne_invalid_binary32 d seg hs
  refine ⟨hfst, ?_, ?_⟩
  · rw [← hidx]
    exact hfst
  · by_cases hg : d.m_sortedMotions.length < 2
        ∨ Binary32.lt d.m_currentPosition d.GetRangeMin = true
        ∨ Binary32.lt d.GetRangeMax d.m_currentPosition = true
    · exact Or.inl hg
    · right
      cases hs : segmentLoop d 1 (d.m_sortedMotions.length - 1) with
      | none => exact absurd hs (hscan hg)
      | some seg => rfl

/-- The fraction that the scan loop computes for a bracket `a <= q <= b` whose
difference `q - a` is finite is a finite value between 0 and 1. -/
theorem fraction_mem_unit (a b q : Binary32) (h1 : Binary32.le a q = true)
    (h2 : Binary32.le q b = true) (hfin : (Binary32.sub q a).isFinite = true) :
    ∃ w : ℚ,
      (if Binary32.le (Binary32.sub b a) (Binary32.finite 0) = true then Binary32.finite 0
        else Binary32.div (Binary32.sub q a) (Binary32.sub b a)) = Binary32.finite w ∧
      0 ≤ w ∧ w ≤ 1 := by
  cases a with
  | nan => simp [Binary32.le] at h1
  | negInf => cases q <;> simp [Binary32.sub, Binary32.add, Binary32.neg, Binary32.isFinite] at hfin
  | posInf => cases q <;> simp [Binary32.sub, Binary32.add, Binary32.neg, Binary32.isFinite] at hfin
  | finite av =>
    cases q with
    | nan => simp [Binary32.le] at h1
    | negInf => simp [Binary32.le] at h1
    | posInf => simp [Binary32.sub, Binary32.add, Binary32.neg, Binary32.isFinite] at hfin
    | finite qv =>
      have haq : av ≤ qv := (Binary32.le_finite_iff av qv).mp h1
      have hsubq : Binary32.sub (Binary32.finite qv) (Binary32.finite av) =
          Binary32.ofRat (qv + -av) := rfl
      obtain ⟨N, hN⟩ := (Binary32.isFinite_iff _).mp hfin
      rw [hsubq] at hN
      have hNv := (Binary32.ofRat_eq_finite _ _ hN).1
      have hN0 : 0 ≤ N := by
        rw [hNv]
        exact roundToBinary32_nonneg _ (by linarith)
      cases b with
      | nan => simp [Binary32.le] at h2
      | negInf => simp [Binary32.le] at h2
      | posInf =>
        refine ⟨0, ?_, le_refl _, by norm_num⟩
        rw [hsubq, hN]
        rfl
      | finite bv =>
        have hqb : qv ≤ bv := (Binary32.le_finite_iff qv bv).mp h2
        have hsubb : Binary32.sub (Binary32.finite bv) (Binary32.finite av) =
            Binary32.ofRat (bv + -av) := rfl
        have hmono : N ≤ roundToBinary32 (bv + -av) := by
          rw [hNv]
          exact roundToBinary32_mono _ _ (by linarith)
        rw [hsubq, hsubb, hN]
        rcases Binary32.ofRat_cases (bv + -av) with ⟨hL, -⟩ | ⟨hL, hb⟩ | ⟨hL, -⟩
        · refine ⟨0, ?_, le_refl _, by norm_num⟩
          rw [hL]
          rfl
        · exfalso
          have : (0 : ℚ) < (2 : ℚ) ^ 128 := by positivity
          linarith
        · rw [hL]
          by_cases hle : Binary32.le (Binary32.finite (roundToBinary32 (bv + -av)))
              (Binary32.finite 0) = true
          · exact ⟨0, by rw [if_pos hle], le_refl _, by norm_num⟩
          · rw [if_neg hle]
            rw [Binary32.le_finite_iff] at hle
            have hpos : 0 < roundToBinary32 (bv + -av) := not_le.mp hle
            have hdiv : Binary32.div (Binary32.finite N)
                (Binary32.finite (roundToBinary32 (bv + -av))) =
                Binary32.ofRat (N / roundToBinary32 (bv + -av)) := by
              simp [Binary32.div, ne_of_gt hpos]
            have ht0 : 0 ≤ N / roundToBinary32 (bv + -av) := div_nonneg hN0 (le_of_lt hpos)
            have ht1 : N / roundToBinary32 (bv + -av) ≤ 1 := (div_le_one hpos).mpr hmono
            have hr0 : 0 ≤ roundToBinary32 (N / roundToBinary32 (bv + -av)) :=
              roundToBinary32_nonneg _ ht0
            have hr1 : roundToBinary32 (N / roundToBinary32 (bv + -av)) ≤ 1 :=
              roundToBinary32_le_one _ ht1
            refine ⟨_, ?_, hr0, hr1⟩
            rw [hdiv]
            apply Binary32.ofRat_of_abs_lt
            rw [abs_of_nonneg hr0]
            exact lt_of_le_of_lt hr1 (by norm_num)

/-- C5, as amended: whenever `FindLineSegmentForCurrentPoint` returns `true`
and the float difference between the query and the coordinate at the start of
every segment that brackets it is finite (neither is infinite and the
subtraction does not overflow), the stored `m_weightForSegmentEnd` is a finite
value in the closed interval from 0 to 1. -/
theorem findLineSegment_weight_mem_unit (d : UniqueData)
    (h : (FindLineSegmentForCurrentPoint d).1 = true)
    (hfinite : ∀ j, Binary32.le (d.sortedCoordinate j) d.m_currentPosition = true →
      Binary32.le d.m_currentPosition (d.sortedCoordinate (j + 1)) = true →
      (Binary32.sub d.m_currentPosition (d.sortedCoordinate j)).isFinite = true) :
    ∃ w : ℚ,
      (FindLineSegmentForCurrentPoint d).2.m_currentSegment.m_weightForSegmentEnd =
        Binary32.finite w ∧ 0 ≤ w ∧ w ≤ 1 := by
  rcases findLineSegment_cases_binary32 d with ⟨-, hf⟩ | ⟨-, seg, hs, hf⟩
  · rw [hf] at h
    simp at h
  · obtain ⟨j, hj1, -, ⟨hlo, hhi⟩, -, hw⟩ := segmentLoop_eq_some_binary32 d _ 1 seg hs
    have hj : j - 1 + 1 = j := by omega
    have hfin := hfinite (j - 1) hlo (by rw [hj]; exact hhi)
    obtain ⟨w, hw2, h0, h1⟩ := fraction_mem_unit _ _ _ hlo hhi hfin
    refine ⟨w, ?_, h0, h1⟩
    rw [hf]
    show seg.m_weightForSegmentEnd = _
    rw [hw, hw2]

end SinglePrecision

end EMotionFX

namespace IEEE

namespace Binary32

/-- The result of a rounding is a value of the type `float`. -/
theorem ofRat_isValue (x : ℚ) : (ofRat x).isValue = true := by
  rcases ofRat_cases x with ⟨h, -⟩ | ⟨h, -⟩ | ⟨h, hlt⟩
  · rw [h]
    rfl
  · rw [h]
    rfl
  · rw [h]
    simp only [isValue, decide_eq_true_eq]
    exact ⟨roundToBinary32_of_representable _ (roundToBinary32_representable x), hlt⟩

/-- The result of a division is a value of the type `float`. -/
theorem div_isValue (a b : Binary32) : (div a b).isValue = true := by
  cases a with
  | nan => cases b <;> rfl
  | negInf =>
    cases b with
    | finite y =>
      simp only [div]
      split <;> rfl
    | nan => rfl
    | negInf => rfl
    | posInf => rfl
  | posInf =>
    cases b with
    | finite y =>
      simp only [div]
      split <;> rfl
    | nan => rfl
    | negInf => rfl
    | posInf => rfl
  | finite x =>
    cases b with
    | nan => rfl
    | negInf => exact isValue_zero
    | posInf => exact isValue_zero
    | finite y =>
      simp only [div]
      split
      · split
        · rfl
        · split <;> rfl
      · exact ofRat_isValue _

/-- Adding a `float` to `0.0f` gives that `float`. -/
theorem zero_add_value (v : ℚ) (h : (finite v).isValue = true) :
    add (finite 0) (finite v) = finite v := by
  obtain ⟨hv, hlt⟩ := isValue_finite v h
  have hadd : add (finite 0) (finite v) = ofRat (0 + v) := rfl
  rw [hadd, zero_add, ofRat_of_abs_lt v (by rw [hv]; exact hlt), hv]

end Binary32

/-- Every number within `2 ^ (-25)` of 1 rounds to 1. -/
theorem roundToBinary32_near_one (x : ℚ) (h : |x - 1| ≤ 1 / 2 ^ 25) :
    roundToBinary32 x = 1 := by
  obtain ⟨hlo, hhi⟩ := abs_le.mp h
  have h1 : roundToBinary32 (1 - 1 / 2 ^ 25) = 1 := by decide!
  have h2 : roundToBinary32 (1 + 1 / 2 ^ 25) = 1 := by decide!
  have h3 := roundToBinary32_mono (1 - 1 / 2 ^ 25) x (by linarith)
  have h4 := roundToBinary32_mono x (1 + 1 / 2 ^ 25) (by linarith)
  rw [h1] at h3
  rw [h2] at h4
  exact le_antisymm h4 h3

end IEEE

namespace EMotionFX

namespace SinglePrecision

open IEEE

/-- The weight `1.0f - w` of the segment start, for a fraction `w` between 0
and 1: a finite value between 0 and 1 that misses `1 - w` by at most
`2 ^ (-25)`. -/
theorem one_sub_fraction (w : ℚ) (h0 : 0 ≤ w) (h1 : w ≤ 1) :
    ∃ v : ℚ, Binary32.sub (Binary32.finite 1) (Binary32.finite w) = Binary32.finite v ∧
      0 ≤ v ∧ v ≤ 1 ∧ |v - (1 - w)| ≤ 1 / 2 ^ 25 := by
  have hsub : Binary32.sub (Binary32.finite 1) (Binary32.finite w) =
      Binary32.ofRat (1 + -w) := rfl
  have hr0 : 0 ≤ roundToBinary32 (1 + -w) := roundToBinary32_nonneg _ (by linarith)
  have hr1 : roundToBinary32 (1 + -w) ≤ 1 := roundToBinary32_le_one _ (by linarith)
  refine ⟨roundToBinary32 (1 + -w), ?_, hr0, hr1, ?_⟩
  · rw [hsub]
    apply Binary32.ofRat_of_abs_lt
    rw [abs_of_nonneg hr0]
    exact lt_of_le_of_lt hr1 (by norm_num)
  · have := roundToBinary32_unit_error (1 + -w) (by linarith) (by linarith)
    rw [show (1 : ℚ) - w = 1 + -w by ring]
    exact this

/-- The `float` sum of the two weights `1.0f - w` and `w` of a segment is
exactly `1.0f`, in either order of accumulation. -/
theorem weight_pair_sum (w v : ℚ) (hw : (Binary32.finite w).isValue = true)
    (hv : (Binary32.finite v).isValue = true) (herr : |v + w - 1| ≤ 1 / 2 ^ 25) :
    weightSum [⟨0, Binary32.finite v⟩, ⟨1, Binary32.finite w⟩] = Binary32.finite 1 ∧
      weightSum [⟨0, Binary32.finite w⟩, ⟨1, Binary32.finite v⟩] = Binary32.finite 1 := by
  have hone : roundToBinary32 (v + w) = 1 := roundToBinary32_near_one _ herr
  have hsum : Binary32.ofRat (v + w) = Binary32.finite 1 := by
    rw [Binary32.ofRat_of_abs_lt _ (by rw [hone]; norm_num), hone]
  constructor
  · show Binary32.add (Binary32.add (Binary32.finite 0) (Binary32.finite v))
      (Binary32.finite w) = _
    rw [Binary32.zero_add_value v hv]
    exact hsum
  · show Binary32.add (Binary32.add (Binary32.finite 0) (Binary32.finite w))
      (Binary32.finite v) = _
    rw [Binary32.zero_add_value w hw]
    show Binary32.ofRat (w + v) = _
    rw [add_comm]
    exact hsum

/-- The sum `weightSum` reads only the weights of the entries. -/
theorem weightSum_congr (l1 l2 : List BlendInfo)
    (h : l1.map BlendInfo.m_weight = l2.map BlendInfo.m_weight) :
    weightSum l1 = weightSum l2 := by
  have key : ∀ (l : List BlendInfo) (s : Binary32),
      l.foldl (fun sum blendInfo => Binary32.add sum blendInfo.m_weight) s =
        (l.map BlendInfo.m_weight).foldl Binary32.add s := by
    intro l
    induction l with
    | nil => intro s; rfl
    | cons a t ih =>
      intro s
      simp only [List.foldl_cons, List.map_cons]
      exact ih _
  unfold weightSum
  rw [key, key, h]

/-- C3, as amended: when there is at least one motion info, `m_sortedMotions`
is not empty, and the float difference between the query and the start of
every segment that brackets it is finite (no infinite operand, no overflow),
every blend entry left by `UpdateBlendingInfoForCurrentPoint` names a motion of
`m_sortedMotions` and has a finite weight; the exact sum of the weights is
within `2 ^ (-25)` of 1 (the single weight of a boundary clamp is 1), and
their sum in `float` arithmetic is exactly `1.0f`. -/
theorem updateBlendingInfo_weights_sum (blendInfoLess : BlendInfo → BlendInfo → Bool)
    (d : UniqueData) (hmotions : d.m_motionInfos ≠ []) (hsorted : d.m_sortedMotions ≠ [])
    (hfinite : ∀ j, Binary32.le (d.sortedCoordinate j) d.m_currentPosition = true →
      Binary32.le d.m_currentPosition (d.sortedCoordinate (j + 1)) = true →
      (Binary32.sub d.m_currentPosition (d.sortedCoordinate j)).isFinite = true) :
    (∀ b ∈ (UpdateBlendingInfoForCurrentPoint blendInfoLess d).m_blendInfos,
        b.m_motionIndex ∈ d.m_sortedMotions) ∧
      weightSum (UpdateBlendingInfoForCurrentPoint blendInfoLess d).m_blendInfos =
        Binary32.finite 1 ∧
      ∃ ws : List ℚ,
        (UpdateBlendingInfoForCurrentPoint blendInfoLess d).m_blendInfos.map BlendInfo.m_weight =
          ws.map Binary32.finite ∧
        |ws.sum - 1| ≤ 1 / 2 ^ 25 ∧
        ((UpdateBlendingInfoForCurrentPoint blendInfoLess d).m_currentSegment.m_segmentIndex =
          MCORE_INVALIDINDEX32 → ws = [1]) := by
  rcases updateBlendingInfo_cases_binary32 blendInfoLess d with
    ⟨seg, hs, -, hne, hseg, hb⟩ | ⟨-, hidx, hb⟩
  · obtain ⟨j, hj1, hj2, ⟨hlo, hhi⟩, hsi, hw⟩ := segmentLoop_eq_some_binary32 d _ 1 seg hs
    have hj : j - 1 + 1 = j := by omega
    have hle : d.m_sortedMotions.length % 4294967296 ≤ d.m_sortedMotions.length :=
      Nat.mod_le _ _
    have hfin := hfinite (j - 1) hlo (by rw [hj]; exact hhi)
    obtain ⟨w, hw2, h0, h1⟩ := fraction_mem_unit _ _ _ hlo hhi hfin
    have hwv : (Binary32.finite w).isValue = true := by
      rw [← hw2]
      split
      · exact Binary32.isValue_zero
      · exact Binary32.div_isValue _ _
    rw [← hw] at hw2
    obtain ⟨v, hv, -, -, hverr⟩ := one_sub_fraction w h0 h1
    have hvv : (Binary32.finite v).isValue = true := by
      rw [← hv]
      exact Binary32.ofRat_isValue _
    rw [hb, BlendSpace1DNode.sort_pair, hw2, hv, hsi, hj]
    have hm0 : d.m_sortedMotions.getD (j - 1) 0 ∈ d.m_sortedMotions := by
      rw [List.getD_eq_getElem _ _ (by omega)]
      exact List.getElem_mem _
    have hm1 : d.m_sortedMotions.getD j 0 ∈ d.m_sortedMotions := by
      rw [List.getD_eq_getElem _ _ (by omega)]
      exact List.getElem_mem _
    have hsum : |v + w - 1| ≤ 1 / 2 ^ 25 := by
      rw [show v + w - 1 = v - (1 - w) by ring]
      exact hverr
    obtain ⟨hfs1, hfs2⟩ := weight_pair_sum w v hwv hvv hsum
    refine ⟨?_, ?_, ?_⟩
    · intro b hb2
      split at hb2 <;>
        simp only [List.mem_cons, List.mem_singleton, List.not_mem_nil, or_false] at hb2 <;>
        rcases hb2 with rfl | rfl <;> assumption
    · split
      · rw [← hfs2]
        exact weightSum_congr _ _ rfl
      · rw [← hfs1]
        exact weightSum_congr _ _ rfl
    · split
      · refine ⟨[w, v], rfl, ?_, ?_⟩
        · simp only [List.sum_cons, List.sum_nil, add_zero]
          rw [add_comm]
          exact hsum
        · intro hi
          rw [hseg] at hi
          exact absurd hi hne
      · refine ⟨[v, w], rfl, ?_, ?_⟩
        · simp only [List.sum_cons, List.sum_nil, add_zero]
          exact hsum
        · intro hi
          rw [hseg] at hi
          exact absurd hi hne
  · rw [hb, if_neg hmotions]
    have hsingle : ∀ e : BlendInfo, AZStd.sort blendInfoLess [e] = [e] := fun e => rfl
    rw [hsingle]
    refine ⟨?_, ?_, ?_⟩
    · intro b hb2
      simp only [List.mem_singleton] at hb2
      subst hb2
      simp only
      cases hl : d.m_sortedMotions with
      | nil => exact absurd hl hsorted
      | cons a t =>
        split
        · simp
        · rw [List.getLastD_eq_getLast?, List.getLast?_eq_getLast _ (by simp)]
          exact List.getLast_mem _
    · show Binary32.add (Binary32.finite 0) (Binary32.finite 1) = _
      exact Binary32.zero_add_value 1 (by decide!)
    · exact ⟨[1], rfl, by norm_num, fun _ => rfl⟩

end SinglePrecision

end EMotionFX

namespace EMotionFX

namespace SinglePrecision

open IEEE

theorem getD_isValue (coords : List Binary32) (hvalues : ∀ c ∈ coords, c.isValue = true)
    (k : Nat) : (coords.getD k (Binary32.finite 0)).isValue = true := by
  by_cases hk : k < coords.length
  · rw [List.getD_eq_getElem _ _ hk]
    exact hvalues _ (List.getElem_mem hk)
  · rw [List.getD_eq_default _ _ (not_lt.mp hk)]
    exact Binary32.isValue_zero

theorem getRange_isValue (d : UniqueData)
    (hvalues : ∀ c ∈ d.m_motionCoordinates, c.isValue = true) :
    d.GetRangeMin.isValue = true ∧ d.GetRangeMax.isValue = true := by
  unfold UniqueData.GetRangeMin UniqueData.GetRangeMax
  constructor <;> split
  · exact Binary32.isValue_zero
  · exact getD_isValue _ hvalues _
  · exact Binary32.isValue_zero
  · exact getD_isValue _ hvalues _

/-- Twice a binary32 value is left unchanged by the rounding. -/
theorem roundToBinary32_double (v : ℚ) (h : roundToBinary32 v = v) :
    roundToBinary32 (2 * v) = 2 * v := by
  apply roundToBinary32_of_representable
  apply representable_double
  rw [← h]
  exact roundToBinary32_representable v

/-- The float expression `(lo + hi) / 2` of two binary32 values `lo <= hi`
whose sum does not overflow is a finite value between them. -/
theorem midpoint_mem (lo hi : ℚ) (hle : lo ≤ hi)
    (hlo : roundToBinary32 lo = lo ∧ |lo| < (2 : ℚ) ^ 128)
    (hhi : roundToBinary32 hi = hi ∧ |hi| < (2 : ℚ) ^ 128)
    (hsum : (Binary32.add (Binary32.finite lo) (Binary32.finite hi)).isFinite = true) :
    ∃ p : ℚ,
      Binary32.div (Binary32.add (Binary32.finite lo) (Binary32.finite hi)) (Binary32.finite 2) =
        Binary32.finite p ∧ lo ≤ p ∧ p ≤ hi := by
  have hadd : Binary32.add (Binary32.finite lo) (Binary32.finite hi) =
      Binary32.ofRat (lo + hi) := rfl
  obtain ⟨s, hs⟩ := (Binary32.isFinite_iff _).mp hsum
  rw [hadd] at hs
  have hsv := (Binary32.ofRat_eq_finite _ _ hs).1
  have h1 : 2 * lo ≤ s := by
    rw [hsv, ← roundToBinary32_double lo hlo.1]
    exact roundToBinary32_mono _ _ (by linarith)
  have h2 : s ≤ 2 * hi := by
    rw [hsv, ← roundToBinary32_double hi hhi.1]
    exact roundToBinary32_mono _ _ (by linarith)
  have hdiv : Binary32.div (Binary32.finite s) (Binary32.finite 2) = Binary32.ofRat (s / 2) := by
    simp [Binary32.div]
  have hp1 : lo ≤ roundToBinary32 (s / 2) := by
    have := roundToBinary32_mono lo (s / 2) (by linarith)
    rw [hlo.1] at this
    exact this
  have hp2 : roundToBinary32 (s / 2) ≤ hi := by
    have := roundToBinary32_mono (s / 2) hi (by linarith)
    rw [hhi.1] at this
    exact this
  refine ⟨roundToBinary32 (s / 2), ?_, hp1, hp2⟩
  rw [hadd, hs, hdiv]
  apply Binary32.ofRat_of_abs_lt
  have b1 := abs_lt.mp hlo.2
  have b2 := abs_lt.mp hhi.2
  rw [abs_lt]
  constructor <;> linarith

theorem getRangeMin_le_getRangeMax_binary32 (d : UniqueData)
    (hsorted : ∀ i, i + 1 < d.m_sortedMotions.length →
      Binary32.le (d.sortedCoordinate i) (d.sortedCoordinate (i + 1)) = true)
    (hmin : d.GetRangeMin ≠ Binary32.nan) :
    Binary32.le d.GetRangeMin d.GetRangeMax = true := by
  by_cases hne : d.m_sortedMotions = []
  · simp [UniqueData.GetRangeMin, UniqueData.GetRangeMax, hne, Binary32.le]
  · rw [getRangeMax_eq_binary32 d hne]
    rw [getRangeMin_eq_binary32 d hne] at hmin ⊢
    have hpos : 0 < d.m_sortedMotions.length := List.length_pos.mpr hne
    by_cases h1 : d.m_sortedMotions.length - 1 = 0
    · rw [h1]
      exact Binary32.le_refl _ hmin
    · exact sortedCoordinate_zero_le_binary32 d hsorted _ (by omega) (by omega)

/-- C28, as amended: when the node is not in interactive mode and nothing is
connected to the input port, `GetCurrentSamplePosition` returns the float
expression `(GetRangeMin + GetRangeMax) / 2`, which is 0 when
`m_sortedMotions` is empty; for binary32 coordinates in ascending order through
`m_sortedMotions` (fewer than 2^32 of them) whose float sum
`GetRangeMin + GetRangeMax` is finite (it does not overflow), the value lies in
`[GetRangeMin, GetRangeMax]`, and with at least two sorted motions
`FindLineSegmentForCurrentPoint` at that position returns true and
`UpdateBlendingInfoForCurrentPoint` leaves a segment index other than the
sentinel. -/
theorem getCurrentSamplePosition_default (blendInfoLess : BlendInfo → BlendInfo → Bool)
    (node : BlendSpace1DNode) (graphInstance : AnimGraphInstance) (d : UniqueData)
    (hmode : node.m_interactiveMode = false)
    (hport : graphInstance.m_inputValue = none) :
    GetCurrentSamplePosition node graphInstance d =
        Binary32.div (Binary32.add d.GetRangeMin d.GetRangeMax) (Binary32.finite 2) ∧
      (d.m_sortedMotions = [] →
        GetCurrentSamplePosition node graphInstance d = Binary32.finite 0) ∧
      (d.m_sortedMotions.length < 4294967296 →
        (∀ i, i + 1 < d.m_sortedMotions.length →
          Binary32.le (d.sortedCoordinate i) (d.sortedCoordinate (i + 1)) = true) →
        (∀ c ∈ d.m_motionCoordinates, c.isValue = true) →
        (Binary32.add d.GetRangeMin d.GetRangeMax).isFinite = true →
        Binary32.le d.GetRangeMin (GetCurrentSamplePosition node graphInstance d) = true ∧
        Binary32.le (GetCurrentSamplePosition node graphInstance d) d.GetRangeMax = true ∧
        (2 ≤ d.m_sortedMotions.length →
          (FindLineSegmentForCurrentPoint
              { d with m_currentPosition :=
                  GetCurrentSamplePosition node graphInstance d }).1 = true ∧
            (UpdateBlendingInfoForCurrentPoint blendInfoLess
              { d with m_currentPosition :=
                  GetCurrentSamplePosition node graphInstance d }).m_currentSegment.m_segmentIndex ≠
              MCORE_INVALIDINDEX32)) := by
  have hval : GetCurrentSamplePosition node graphInstance d =
      Binary32.div (Binary32.add d.GetRangeMin d.GetRangeMax) (Binary32.finite 2) := by
    simp [GetCurrentSamplePosition, hmode, hport]
  refine ⟨hval, ?_, ?_⟩
  · intro he
    have h0 : d.GetRangeMin = Binary32.finite 0 := by simp [UniqueData.GetRangeMin, he]
    have h1 : d.GetRangeMax = Binary32.finite 0 := by simp [UniqueData.GetRangeMax, he]
    rw [hval, h0, h1]
    decide!
  intro hlen hsorted hvalues hsum
  obtain ⟨lo, hi, hlo, hhi, -⟩ := Binary32.add_isFinite _ _ hsum
  obtain ⟨vlo, vhi⟩ := getRange_isValue d hvalues
  have hle := getRangeMin_le_getRangeMax_binary32 d hsorted (by rw [hlo]; simp)
  rw [hlo, hhi] at hle hsum
  rw [hlo] at vlo
  rw [hhi] at vhi
  obtain ⟨p, hp, hp1, hp2⟩ := midpoint_mem lo hi ((Binary32.le_finite_iff lo hi).mp hle)
    (Binary32.isValue_finite lo vlo) (Binary32.isValue_finite hi vhi) hsum
  rw [hval, hlo, hhi, hp]
  have hmin : Binary32.le (Binary32.finite lo) (Binary32.finite p) = true :=
    (Binary32.le_finite_iff lo p).mpr hp1
  have hmax : Binary32.le (Binary32.finite p) (Binary32.finite hi) = true :=
    (Binary32.le_finite_iff p hi).mpr hp2
  refine ⟨hmin, hmax, ?_⟩
  intro h2
  have hno : ¬ (d.m_sortedMotions.length % 4294967296 < 2
      ∨ Binary32.lt (Binary32.finite p) d.GetRangeMin = true
      ∨ Binary32.lt d.GetRangeMax (Binary32.finite p) = true
      ∨ segmentLoop { d with m_currentPosition := Binary32.finite p } 1
          (d.m_sortedMotions.length % 4294967296 - 1) = none) := by
    rw [Nat.mod_eq_of_lt hlen, hlo, hhi]
    rintro (h | h | h | h)
    · omega
    · rw [Binary32.not_lt_of_le _ _ hmin] at h
      simp at h
    · rw [Binary32.not_lt_of_le _ _ hmax] at h
      simp at h
    · exact segmentLoop_ne_none_binary32 { d with m_currentPosition := Binary32.finite p } h2
        hsorted (by show Binary32.le d.GetRangeMin _ = true; rw [hlo]; exact hmin)
        (by show Binary32.le _ d.GetRangeMax = true; rw [hhi]; exact hmax) h
  constructor
  · rcases findLineSegment_cases_binary32
      { d with m_currentPosition := Binary32.finite p } with ⟨hg, -⟩ | ⟨-, seg, -, h⟩
    · exact absurd hg hno
    · rw [h]
  · rcases updateBlendingInfo_cases_binary32 blendInfoLess
      { d with m_currentPosition := Binary32.finite p } with
      ⟨seg, -, -, hidx, hseg, -⟩ | ⟨hg, -, -⟩
    · rw [hseg]
      exact hidx
    · exact absurd hg hno

end SinglePrecision

end EMotionFX

namespace IEEE

theorem roundHalfEven_intCast (z : ℤ) : roundHalfEven (z : ℚ) = z := by
  have h := roundHalfEven_nearest (z : ℚ) z
  rw [sub_self, abs_zero] at h
  have h2 : ((roundHalfEven (z : ℚ) : ℤ) : ℚ) - (z : ℚ) = 0 :=
    abs_eq_zero.mp (le_antisymm h (abs_nonneg _))
  have h3 : ((roundHalfEven (z : ℚ) : ℤ) : ℚ) = (z : ℚ) := sub_eq_zero.mp h2
  exact_mod_cast h3

/-- A representable value is a multiple of `2 ^ (-149)`. -/
theorem representable_multiple (y : ℚ) (h : Representable y) :
    ∃ z : ℤ, y = (z : ℚ) * (2 : ℚ) ^ (-149 : ℤ) := by
  obtain ⟨m, k, hk, -, rfl⟩ := h
  refine ⟨m * 2 ^ (k - (-149)).toNat, ?_⟩
  rw [zpow_eq_intCast_mul k (-149) hk]
  push_cast
  ring

/-- On the multiples of `2 ^ (-149)`, so in particular on sums and differences
of binary32 values, the rounding error is at most `2 ^ (-24)` times the
magnitude. -/
theorem roundToBinary32_relative_error (x : ℚ) (z : ℤ)
    (hx : x = (z : ℚ) * (2 : ℚ) ^ (-149 : ℤ)) :
    |roundToBinary32 x - x| ≤ |x| / 2 ^ 24 := by
  obtain ⟨-, -, h3, -⟩ := quantumExponent_spec x
  rcases h3 with h3 | h3
  · have hexact : roundToBinary32 x = x := by
      unfold roundToBinary32
      rw [h3]
      have : x / (2 : ℚ) ^ (-149 : ℤ) = (z : ℚ) := by
        rw [hx]
        field_simp
      rw [this, roundHalfEven_intCast, ← hx]
    rw [hexact, sub_self, abs_zero]
    positivity
  · have hp := two_zpow_pos (quantumExponent x)
    have hr := roundHalfEven_abs_le (x / (2 : ℚ) ^ quantumExponent x)
    have e1 : roundToBinary32 x - x =
        ((roundHalfEven (x / (2 : ℚ) ^ quantumExponent x) : ℚ) -
          x / (2 : ℚ) ^ quantumExponent x) * (2 : ℚ) ^ quantumExponent x := by
      unfold roundToBinary32
      field_simp
    have h23 : (2 : ℚ) ^ (quantumExponent x + 23) = (2 : ℚ) ^ 23 * (2 : ℚ) ^ quantumExponent x := by
      rw [zpow_add₀ (by norm_num : (2 : ℚ) ≠ 0)]
      norm_num
      ring
    rw [e1, abs_mul, abs_of_pos hp]
    have h4 : |(roundHalfEven (x / (2 : ℚ) ^ quantumExponent x) : ℚ) -
        x / (2 : ℚ) ^ quantumExponent x| * (2 : ℚ) ^ quantumExponent x ≤
        1 / 2 * (2 : ℚ) ^ quantumExponent x := mul_le_mul_of_nonneg_right hr (le_of_lt hp)
    rw [h23] at h3
    rw [le_div_iff₀ (by norm_num : (0 : ℚ) < 2 ^ 24)]
    calc _ ≤ 1 / 2 * (2 : ℚ) ^ quantumExponent x * 2 ^ 24 :=
          mul_le_mul_of_nonneg_right h4 (by norm_num)
      _ = (2 : ℚ) ^ 23 * (2 : ℚ) ^ quantumExponent x := by
          norm_num
          ring
      _ ≤ |x| := h3

/-- The difference of two values that the rounding leaves unchanged is rounded
with a relative error of at most `2 ^ (-24)`. -/
theorem roundToBinary32_sub_error (a b : ℚ) (ha : roundToBinary32 a = a)
    (hb : roundToBinary32 b = b) :
    |roundToBinary32 (b + -a) - (b + -a)| ≤ |b + -a| / 2 ^ 24 := by
  obtain ⟨za, hza⟩ := representable_multiple a (by rw [← ha]; exact roundToBinary32_representable a)
  obtain ⟨zb, hzb⟩ := representable_multiple b (by rw [← hb]; exact roundToBinary32_representable b)
  apply roundToBinary32_relative_error _ (zb - za)
  rw [hza, hzb]
  push_cast
  ring

/-- The error of the weighted coordinate sum against the query `a + D`, from the
rounding errors of the two differences, of the quotient and of `1 - f`. -/
theorem weighted_sum_error (a W D N L f w0 : ℚ)
    (hD0 : 0 ≤ D) (hDW : D ≤ W) (hW : 0 < W) (hL0 : 0 < L)
    (hN : |N - D| ≤ D / 2 ^ 24) (hL : |L - W| ≤ W / 2 ^ 24)
    (hf : |f - N / L| ≤ 1 / 2 ^ 25) (hw0 : |w0 - (1 - f)| ≤ 1 / 2 ^ 25) :
    |w0 * a + f * (a + W) - (a + D)| ≤ (|a| + 9 * W) / 2 ^ 25 := by
  have hN2 := abs_le.mp hN
  have hL2 := abs_le.mp hL
  have hX1 : N * W - D * L ≤ D * W / 2 ^ 23 := by
    have h1 : (N - D) * W ≤ D / 2 ^ 24 * W := mul_le_mul_of_nonneg_right hN2.2 (le_of_lt hW)
    have h2 : D * (-(W / 2 ^ 24)) ≤ D * (L - W) := mul_le_mul_of_nonneg_left hL2.1 hD0
    have e : N * W - D * L = (N - D) * W - D * (L - W) := by ring
    rw [e]
    have e2 : D * W / 2 ^ 23 = D / 2 ^ 24 * W - D * (-(W / 2 ^ 24)) := by ring
    rw [e2]
    linarith
  have hX2 : -(D * W / 2 ^ 23) ≤ N * W - D * L := by
    have h1 : -(D / 2 ^ 24) * W ≤ (N - D) * W := mul_le_mul_of_nonneg_right hN2.1 (le_of_lt hW)
    have h2 : D * (L - W) ≤ D * (W / 2 ^ 24) := mul_le_mul_of_nonneg_left hL2.2 hD0
    have e : N * W - D * L = (N - D) * W - D * (L - W) := by ring
    rw [e]
    have e2 : -(D * W / 2 ^ 23) = -(D / 2 ^ 24) * W - D * (W / 2 ^ 24) := by ring
    rw [e2]
    linarith
  have hLlow : W - W / 2 ^ 24 ≤ L := by linarith [hL2.1]
  have hbound : D * W / 2 ^ 23 ≤ W / 2 ^ 22 * L := by
    have h1 : W / 2 ^ 22 * (W - W / 2 ^ 24) ≤ W / 2 ^ 22 * L :=
      mul_le_mul_of_nonneg_left hLlow (by positivity)
    have h2 : D * W / 2 ^ 23 ≤ W * W / 2 ^ 23 := by
      have := mul_le_mul_of_nonneg_right hDW (le_of_lt hW)
      have h3 : (0 : ℚ) < 2 ^ 23 := by norm_num
      exact div_le_div_of_nonneg_right this (le_of_lt h3)
    have h3 : W * W / 2 ^ 23 ≤ W / 2 ^ 22 * (W - W / 2 ^ 24) := by
      have hWW : 0 ≤ W * W := by positivity
      have e : W / 2 ^ 22 * (W - W / 2 ^ 24) - W * W / 2 ^ 23 =
          W * W * (1 / 2 ^ 23 - 1 / 2 ^ 46) := by ring
      have hc : (0 : ℚ) ≤ 1 / 2 ^ 23 - 1 / 2 ^ 46 := by norm_num
      have := mul_nonneg hWW hc
      linarith
    linarith
  have hT3 : |N / L * W - D| ≤ W / 2 ^ 22 := by
    have e : N / L * W - D = (N * W - D * L) / L := by
      field_simp
      ring
    rw [e, abs_div, abs_of_pos hL0, div_le_iff₀ hL0, abs_le]
    constructor <;> linarith
  have hT1 : |(w0 - (1 - f)) * a| ≤ |a| / 2 ^ 25 := by
    rw [abs_mul]
    have := mul_le_mul_of_nonneg_right hw0 (abs_nonneg a)
    linarith
  have hT2 : |(f - N / L) * W| ≤ W / 2 ^ 25 := by
    rw [abs_mul, abs_of_pos hW]
    have := mul_le_mul_of_nonneg_right hf (le_of_lt hW)
    linarith
  have e : w0 * a + f * (a + W) - (a + D) =
      (w0 - (1 - f)) * a + (f - N / L) * W + (N / L * W - D) := by ring
  rw [e]
  have h1 := abs_add ((w0 - (1 - f)) * a + (f - N / L) * W) (N / L * W - D)
  have h2 := abs_add ((w0 - (1 - f)) * a) ((f - N / L) * W)
  have e3 : (|a| + 9 * W) / 2 ^ 25 = |a| / 2 ^ 25 + W / 2 ^ 25 + W / 2 ^ 22 := by ring
  rw [e3]
  linarith

end IEEE

namespace EMotionFX

namespace SinglePrecision

open IEEE

/-- The two weights of a located segment between the binary32 values `av` and
`bv` whose float difference is finite: the weighted sum of the two coordinates
misses the query `qv` by at most `(|av| + 9 (bv - av)) / 2 ^ 25`, and is the
query exactly for a segment of length zero. -/
theorem segment_weights_error (av bv qv : ℚ) (haq : av ≤ qv) (hqb : qv ≤ bv)
    (hva : roundToBinary32 av = av) (hvb : roundToBinary32 bv = bv)
    (hvq : roundToBinary32 qv = qv)
    (hspan : (Binary32.sub (Binary32.finite bv) (Binary32.finite av)).isFinite = true) :
    ∃ w v : ℚ,
      (if Binary32.le (Binary32.sub (Binary32.finite bv) (Binary32.finite av))
            (Binary32.finite 0) = true then Binary32.finite 0
        else Binary32.div (Binary32.sub (Binary32.finite qv) (Binary32.finite av))
          (Binary32.sub (Binary32.finite bv) (Binary32.finite av))) = Binary32.finite w ∧
      Binary32.sub (Binary32.finite 1) (Binary32.finite w) = Binary32.finite v ∧
      |v * av + w * bv - qv| ≤ (|av| + 9 * (bv - av)) / 2 ^ 25 ∧
      (av = bv → v * av + w * bv = qv) := by
  have hsubb : Binary32.sub (Binary32.finite bv) (Binary32.finite av) =
      Binary32.ofRat (bv + -av) := rfl
  have hsubq : Binary32.sub (Binary32.finite qv) (Binary32.finite av) =
      Binary32.ofRat (qv + -av) := rfl
  obtain ⟨Lv, hLv⟩ := (Binary32.isFinite_iff _).mp hspan
  rw [hsubb] at hLv
  obtain ⟨hLeq, hLlt⟩ := Binary32.ofRat_eq_finite _ _ hLv
  have hN0 : 0 ≤ roundToBinary32 (qv + -av) := roundToBinary32_nonneg _ (by linarith)
  have hNL : roundToBinary32 (qv + -av) ≤ roundToBinary32 (bv + -av) :=
    roundToBinary32_mono _ _ (by linarith)
  have hNfin : Binary32.ofRat (qv + -av) = Binary32.finite (roundToBinary32 (qv + -av)) := by
    apply Binary32.ofRat_of_abs_lt
    rw [abs_of_nonneg hN0]
    rw [← hLeq] at hNL
    exact lt_of_le_of_lt hNL (lt_of_le_of_lt (le_abs_self _) hLlt)
  rw [hsubb, hsubq, hLv, hNfin, hLeq]
  have herrL := roundToBinary32_sub_error av bv hva hvb
  have herrN := roundToBinary32_sub_error av qv hva hvq
  rw [abs_of_nonneg (by linarith : (0 : ℚ) ≤ bv + -av)] at herrL
  rw [abs_of_nonneg (by linarith : (0 : ℚ) ≤ qv + -av)] at herrN
  by_cases hW : bv + -av = 0
  · have hL0 : roundToBinary32 (bv + -av) = 0 := by rw [hW, roundToBinary32_zero]
    have hqa : qv = av := by linarith
    have hba : bv = av := by linarith
    have hv : Binary32.sub (Binary32.finite 1) (Binary32.finite 0) = Binary32.finite 1 := by
      have h1 : Binary32.sub (Binary32.finite 1) (Binary32.finite 0) =
          Binary32.ofRat (1 + -0) := rfl
      rw [h1, show (1 : ℚ) + -0 = 1 by norm_num,
        Binary32.ofRat_of_abs_lt 1 (by rw [roundToBinary32_one]; norm_num), roundToBinary32_one]
    refine ⟨0, 1, ?_, hv, ?_, ?_⟩
    · rw [hL0, if_pos ((Binary32.le_finite_iff 0 0).mpr (le_refl _))]
    · rw [hqa, hba]
      have e : (1 : ℚ) * av + 0 * av - av = 0 := by ring
      rw [e, abs_zero]
      have h1 := abs_nonneg av
      have e2 : (|av| + 9 * (av - av)) / 2 ^ 25 = |av| / 2 ^ 25 := by ring
      rw [e2]
      exact div_nonneg h1 (by norm_num)
    · intro _
      rw [hqa, hba]
      ring
  · have hWpos : 0 < bv + -av := lt_of_le_of_ne (by linarith) (Ne.symm hW)
    have hLpos : 0 < roundToBinary32 (bv + -av) := by
      have h2 := abs_le.mp herrL
      have h3 : (bv + -av) / 2 ^ 24 < bv + -av := by
        rw [div_lt_iff₀ (by norm_num : (0 : ℚ) < 2 ^ 24)]
        nlinarith
      linarith [h2.1]
    have hnle : ¬ (Binary32.le (Binary32.finite (roundToBinary32 (bv + -av)))
        (Binary32.finite 0) = true) := by
      rw [Binary32.le_finite_iff]
      exact not_le.mpr hLpos
    rw [if_neg hnle]
    have hdiv : Binary32.div (Binary32.finite (roundToBinary32 (qv + -av)))
        (Binary32.finite (roundToBinary32 (bv + -av))) =
        Binary32.ofRat (roundToBinary32 (qv + -av) / roundToBinary32 (bv + -av)) := by
      simp [Binary32.div, ne_of_gt hLpos]
    have ht0 : 0 ≤ roundToBinary32 (qv + -av) / roundToBinary32 (bv + -av) :=
      div_nonneg hN0 (le_of_lt hLpos)
    have ht1 : roundToBinary32 (qv + -av) / roundToBinary32 (bv + -av) ≤ 1 :=
      (div_le_one hLpos).mpr hNL
    have hr0 := roundToBinary32_nonneg _ ht0
    have hr1 := roundToBinary32_le_one _ ht1
    have hferr := roundToBinary32_unit_error _ ht0 ht1
    obtain ⟨v, hv, -, -, hverr⟩ := one_sub_fraction _ hr0 hr1
    refine ⟨_, v, ?_, hv, ?_, fun hab => absurd (by rw [hab]; ring) hW⟩
    · rw [hdiv]
      apply Binary32.ofRat_of_abs_lt
      rw [abs_of_nonneg hr0]
      exact lt_of_le_of_lt hr1 (by norm_num)
    · have := weighted_sum_error av (bv + -av) (qv + -av) (roundToBinary32 (qv + -av))
        (roundToBinary32 (bv + -av))
        (roundToBinary32 (roundToBinary32 (qv + -av) / roundToBinary32 (bv + -av))) v
        (by linarith) (by linarith) hWpos hLpos herrN herrL hferr hverr
      rw [show av + (bv + -av) = bv by ring, show av + (qv + -av) = qv by ring] at this
      rw [show bv - av = bv + -av by ring]
      exact this

theorem coordinate_front_eq_binary32 (d : UniqueData) (h : d.m_sortedMotions ≠ []) :
    d.m_motionCoordinates.getD (d.m_sortedMotions.headD 0) (Binary32.finite 0) =
      d.GetRangeMin := by
  unfold UniqueData.GetRangeMin
  cases hs : d.m_sortedMotions with
  | nil => exact absurd hs h
  | cons a t => simp

theorem coordinate_back_eq_binary32 (d : UniqueData) (h : d.m_sortedMotions ≠ []) :
    d.m_motionCoordinates.getD (d.m_sortedMotions.getLastD 0) (Binary32.finite 0) =
      d.GetRangeMax := by
  unfold UniqueData.GetRangeMax
  cases hs : d.m_sortedMotions with
  | nil => exact absurd hs h
  | cons a t => simp

theorem getD_isFinite (coords : List Binary32) (hfin : ∀ c ∈ coords, c.isFinite = true)
    (k : Nat) : (coords.getD k (Binary32.finite 0)).isFinite = true := by
  by_cases hk : k < coords.length
  · rw [List.getD_eq_getElem _ _ hk]
    exact hfin _ (List.getElem_mem hk)
  · rw [List.getD_eq_default _ _ (not_lt.mp hk)]
    rfl

end SinglePrecision

end EMotionFX

namespace EMotionFX

namespace SinglePrecision

open IEEE

theorem weightedCoordinateSum_single (coords : List Binary32) (e : BlendInfo) (w c : ℚ)
    (hw : e.m_weight = Binary32.finite w)
    (hc : coords.getD e.m_motionIndex (Binary32.finite 0) = Binary32.finite c) :
    weightedCoordinateSum coords [e] = some (w * c + 0) := by
  simp only [weightedCoordinateSum, hw, hc]

theorem weightedCoordinateSum_pair (coords : List Binary32) (e0 e1 : BlendInfo)
    (w0 c0 w1 c1 : ℚ)
    (hw0 : e0.m_weight = Binary32.finite w0)
    (hc0 : coords.getD e0.m_motionIndex (Binary32.finite 0) = Binary32.finite c0)
    (hw1 : e1.m_weight = Binary32.finite w1)
    (hc1 : coords.getD e1.m_motionIndex (Binary32.finite 0) = Binary32.finite c1) :
    weightedCoordinateSum coords [e0, e1] = some (w0 * c0 + (w1 * c1 + 0)) := by
  simp only [weightedCoordinateSum, hw0, hc0, hw1, hc1]

/-- C23, as amended: for binary32 coordinates that are finite and ascending
through a non-empty `m_sortedMotions` (fewer than 2^32 entries, no difference
of neighbours overflowing), at least one motion info and a query that is not a
NaN: when `UpdateBlendingInfoForCurrentPoint` locates no segment, the weighted
coordinate sum over its blend entries is exactly the query clamped to
`[GetRangeMin, GetRangeMax]`; when it locates the segment between the
coordinates `a` and `b`, the query `q` is finite with `a <= q <= b` and the
weighted coordinate sum misses it by at most `(|a| + 9 (b - a)) / 2 ^ 25`, and
is `q` exactly for a segment of length zero. -/
theorem updateBlendingInfo_weighted_coordinate (blendInfoLess : BlendInfo → BlendInfo → Bool)
    (d : UniqueData)
    (hmotions : d.m_motionInfos ≠ [])
    (hne : d.m_sortedMotions ≠ [])
    (hlen : d.m_sortedMotions.length < 4294967296)
    (hsorted : ∀ i, i + 1 < d.m_sortedMotions.length →
      Binary32.le (d.sortedCoordinate i) (d.sortedCoordinate (i + 1)) = true)
    (hq : d.m_currentPosition ≠ Binary32.nan)
    (hqv : d.m_currentPosition.isValue = true)
    (hfin : ∀ c ∈ d.m_motionCoordinates, c.isFinite = true)
    (hvalues : ∀ c ∈ d.m_motionCoordinates, c.isValue = true)
    (hspan : ∀ j, j + 1 < d.m_sortedMotions.length →
      (Binary32.sub (d.sortedCoordinate (j + 1)) (d.sortedCoordinate j)).isFinite = true) :
    ((UpdateBlendingInfoForCurrentPoint blendInfoLess d).m_currentSegment.m_segmentIndex =
          MCORE_INVALIDINDEX32 →
        (weightedCoordinateSum d.m_motionCoordinates
            (UpdateBlendingInfoForCurrentPoint blendInfoLess d).m_blendInfos).map
            Binary32.finite =
          some (clampToRange d.GetRangeMin d.GetRangeMax d.m_currentPosition)) ∧
      ((UpdateBlendingInfoForCurrentPoint blendInfoLess d).m_currentSegment.m_segmentIndex ≠
          MCORE_INVALIDINDEX32 →
        ∃ S av bv qv : ℚ,
          d.sortedCoordinate (UpdateBlendingInfoForCurrentPoint blendInfoLess
              d).m_currentSegment.m_segmentIndex = Binary32.finite av ∧
            d.sortedCoordinate ((UpdateBlendingInfoForCurrentPoint blendInfoLess
              d).m_currentSegment.m_segmentIndex + 1) = Binary32.finite bv ∧
            d.m_currentPosition = Binary32.finite qv ∧ av ≤ qv ∧ qv ≤ bv ∧
            weightedCoordinateSum d.m_motionCoordinates
                (UpdateBlendingInfoForCurrentPoint blendInfoLess d).m_blendInfos = some S ∧
            |S - qv| ≤ (|av| + 9 * (bv - av)) / 2 ^ 25 ∧ (av = bv → S = qv)) := by
  have hmod : d.m_sortedMotions.length % 4294967296 = d.m_sortedMotions.length :=
    Nat.mod_eq_of_lt hlen
  have hpos : 0 < d.m_sortedMotions.length := List.length_pos.mpr hne
  rcases updateBlendingInfo_cases_binary32 blendInfoLess d with
    ⟨seg, hs, -, hni, hseg, hb⟩ | ⟨hg, hidx, hb⟩
  · constructor
    · intro hi
      rw [hseg] at hi
      exact absurd hi hni
    · intro _
      obtain ⟨j, hj1, hj2, ⟨hlo, hhi⟩, hsi, hw⟩ := segmentLoop_eq_some_binary32 d _ 1 seg hs
      rw [hmod] at hj2
      have hj : j - 1 + 1 = j := by omega
      obtain ⟨av, hav⟩ := (Binary32.isFinite_iff _).mp
        (getD_isFinite d.m_motionCoordinates hfin (d.m_sortedMotions.getD (j - 1) 0))
      obtain ⟨bv, hbv⟩ := (Binary32.isFinite_iff _).mp
        (getD_isFinite d.m_motionCoordinates hfin (d.m_sortedMotions.getD j 0))
      have hva := getD_isValue d.m_motionCoordinates hvalues (d.m_sortedMotions.getD (j - 1) 0)
      have hvb := getD_isValue d.m_motionCoordinates hvalues (d.m_sortedMotions.getD j 0)
      rw [hav] at hva
      rw [hbv] at hvb
      have hsa : d.sortedCoordinate (j - 1) = Binary32.finite av := hav
      have hsb : d.sortedCoordinate j = Binary32.finite bv := hbv
      have hspanj := hspan (j - 1) (by omega)
      rw [hj, hsa, hsb] at hspanj
      rw [hsa] at hlo
      rw [hsb] at hhi
      rw [hsa, hsb] at hw
      cases hqc : d.m_currentPosition with
      | nan => exact absurd hqc hq
      | negInf =>
        rw [hqc] at hlo
        simp [Binary32.le] at hlo
      | posInf =>
        rw [hqc] at hhi
        simp [Binary32.le] at hhi
      | finite qv =>
        rw [hqc] at hlo hhi hw hqv
        have haq : av ≤ qv := (Binary32.le_finite_iff av qv).mp hlo
        have hqb : qv ≤ bv := (Binary32.le_finite_iff qv bv).mp hhi
        obtain ⟨w, v, hfw, hfv, herr, hzero⟩ := segment_weights_error av bv qv haq hqb
          (Binary32.isValue_finite av hva).1 (Binary32.isValue_finite bv hvb).1
          (Binary32.isValue_finite qv hqv).1 hspanj
        rw [hfw] at hw
        rw [hseg, hsi, hj, hb, hsi, hj, hw, hfv]
        refine ⟨v * av + w * bv, av, bv, qv, hsa, hsb, rfl, haq, hqb, ?_, herr, hzero⟩
        rw [BlendSpace1DNode.sort_pair]
        split
        · rw [weightedCoordinateSum_pair _ _ _ w bv v av rfl hbv rfl hav]
          congr 1
          ring
        · rw [weightedCoordinateSum_pair _ _ _ v av w bv rfl hav rfl hbv]
          congr 1
          ring
  · constructor
    · intro _
      have hsingle : ∀ e : BlendInfo, AZStd.sort blendInfoLess [e] = [e] := fun e => rfl
      rw [hb, if_neg hmotions, hsingle]
      obtain ⟨lo, hlo⟩ := (Binary32.isFinite_iff _).mp
        (getD_isFinite d.m_motionCoordinates hfin (d.m_sortedMotions.headD 0))
      obtain ⟨hi, hhi⟩ := (Binary32.isFinite_iff _).mp
        (getD_isFinite d.m_motionCoordinates hfin (d.m_sortedMotions.getLastD 0))
      have hmin : d.GetRangeMin = Binary32.finite lo := by
        rw [← coordinate_front_eq_binary32 d hne]
        exact hlo
      have hmax : d.GetRangeMax = Binary32.finite hi := by
        rw [← coordinate_back_eq_binary32 d hne]
        exact hhi
      unfold clampToRange
      by_cases hlt : Binary32.lt d.m_currentPosition d.GetRangeMin = true
      · rw [if_pos hlt, if_pos hlt,
          weightedCoordinateSum_single _ _ 1 lo rfl (by simp only [hlt, if_true]; exact hlo), hmin]
        simp
      · rw [if_neg hlt, if_neg hlt,
          weightedCoordinateSum_single _ _ 1 hi rfl (by simp only [hlt, if_false]; exact hhi)]
        simp only [Option.map_some', one_mul, add_zero, Option.some.injEq]
        by_cases hgt : Binary32.lt d.GetRangeMax d.m_currentPosition = true
        · rw [if_pos hgt, hmax]
        · rw [if_neg hgt]
          have hlt2 : Binary32.lt d.m_currentPosition d.GetRangeMin = false := by
            simpa using hlt
          have hgt2 : Binary32.lt d.GetRangeMax d.m_currentPosition = false := by
            simpa using hgt
          have hle1 : Binary32.le d.GetRangeMin d.m_currentPosition = true :=
            Binary32.le_of_not_lt _ _ hq (by rw [hmin]; simp) hlt2
          have hle2 : Binary32.le d.m_currentPosition d.GetRangeMax = true :=
            Binary32.le_of_not_lt _ _ (by rw [hmax]; simp) hq hgt2
          by_cases h2 : 2 ≤ d.m_sortedMotions.length
          · exfalso
            rw [hmod] at hg
            rcases hg with h | h | h | h
            · omega
            · exact hlt h
            · exact hgt h
            · exact segmentLoop_ne_none_binary32 d h2 hsorted hle1 hle2 h
          · have hone : d.m_sortedMotions.length - 1 = 0 := by omega
            have hminmax : d.GetRangeMin = d.GetRangeMax := by
              rw [getRangeMin_eq_binary32 d hne, getRangeMax_eq_binary32 d hne, hone]
            rw [hminmax] at hle1
            rw [← hmax]
            exact Binary32.le_antisymm _ _ hle1 hle2
    · intro hi
      exact absurd hidx hi

end SinglePrecision

end EMotionFX

namespace EMotionFX

namespace SinglePrecision

open IEEE

/-- After `SortMotionInstances` on coordinates without a NaN, the coordinates
read through `m_sortedMotions` are in ascending order from each sorted index to
the next. -/
theorem sortMotionInstances_adjacent_binary32 (d : UniqueData)
    (hnan : ∀ c ∈ d.m_motionCoordinates, c ≠ Binary32.nan) (i : Nat)
    (hi : i + 1 < (SortMotionInstances d).m_sortedMotions.length) :
    Binary32.le ((SortMotionInstances d).sortedCoordinate i)
      ((SortMotionInstances d).sortedCoordinate (i + 1)) = true := by
  have hp := List.pairwise_iff_getElem.mp (sortMotionInstances_pairwise_binary32 d hnan)
    i (i + 1) (by omega) hi (by omega)
  unfold UniqueData.sortedCoordinate
  rw [List.getD_eq_getElem _ _ hi, List.getD_eq_getElem _ _ (by omega : i < _)]
  exact hp

/-- A read through the sorted order yields a coordinate of the vector or the
default 0. -/
theorem sortedCoordinate_cases (d : UniqueData) (j : Nat) :
    d.sortedCoordinate j ∈ d.m_motionCoordinates ∨ d.sortedCoordinate j = Binary32.finite 0 := by
  unfold UniqueData.sortedCoordinate
  by_cases hk : d.m_sortedMotions.getD j 0 < d.m_motionCoordinates.length
  · left
    rw [List.getD_eq_getElem _ _ hk]
    exact List.getElem_mem hk
  · right
    exact List.getD_eq_default _ _ (not_lt.mp hk)

theorem threeMotions_sortedCoordinate (q : Binary32) (j : Nat) :
    (threeMotions q).sortedCoordinate j = Binary32.finite 0 ∨
      (threeMotions q).sortedCoordinate j = Binary32.finite 1 ∨
      (threeMotions q).sortedCoordinate j = Binary32.finite 2 := by
  rcases sortedCoordinate_cases (threeMotions q) j with h | h
  · have hc : (threeMotions q).m_motionCoordinates =
        [Binary32.finite 0, Binary32.finite 1, Binary32.finite 2] := rfl
    rw [hc] at h
    simp only [List.mem_cons, List.mem_singleton, List.not_mem_nil, or_false] at h
    exact h
  · exact Or.inl h

theorem twoMotions_sortedCoordinate (a b q : Binary32) (j : Nat) :
    (twoMotions a b q).sortedCoordinate j = a ∨ (twoMotions a b q).sortedCoordinate j = b ∨
      (twoMotions a b q).sortedCoordinate j = Binary32.finite 0 := by
  rcases sortedCoordinate_cases (twoMotions a b q) j with h | h
  · have hc : (twoMotions a b q).m_motionCoordinates = [a, b] := rfl
    rw [hc] at h
    simp only [List.mem_cons, List.mem_singleton, List.not_mem_nil, or_false] at h
    rcases h with h | h
    · exact Or.inl h
    · exact Or.inr (Or.inl h)
  · exact Or.inr (Or.inr h)

/-- C1, the amended statement at the coordinates `[2, 0, 1]` and `i = 1`. -/
theorem sortMotionInstances_nondecreasing_witness :
    (∀ c ∈ (UniqueData.ofCoordinates
        [Binary32.finite 2, Binary32.finite 0, Binary32.finite 1]
        (Binary32.finite 0)).m_motionCoordinates, c ≠ Binary32.nan) ∧
      ∃ x y,
        (SortMotionInstances (UniqueData.ofCoordinates
          [Binary32.finite 2, Binary32.finite 0, Binary32.finite 1]
          (Binary32.finite 0))).sortedCoordinate? (1 - 1) = some x ∧
        (SortMotionInstances (UniqueData.ofCoordinates
          [Binary32.finite 2, Binary32.finite 0, Binary32.finite 1]
          (Binary32.finite 0))).sortedCoordinate? 1 = some y ∧ Binary32.le x y = true :=
  ⟨by decide,
    sortMotionInstances_nondecreasing (UniqueData.ofCoordinates
      [Binary32.finite 2, Binary32.finite 0, Binary32.finite 1] (Binary32.finite 0)) 1
      (by decide) (by decide) (by decide) (by decide)⟩

/-- With a NaN among the coordinates the reads through `m_sortedMotions` are
not in ascending order, whatever the sort does: no float `<=` holds with a
NaN on either side. -/
theorem sortMotionInstances_nondecreasing_fails_at_nan :
    (∀ x : Binary32, Binary32.le Binary32.nan x = false ∧ Binary32.le x Binary32.nan = false) ∧
      (SortMotionInstances (UniqueData.ofCoordinates [Binary32.nan, Binary32.finite 1]
        (Binary32.finite 0))).sortedCoordinate? (1 - 1) = some Binary32.nan ∧
      (SortMotionInstances (UniqueData.ofCoordinates [Binary32.nan, Binary32.finite 1]
        (Binary32.finite 0))).sortedCoordinate? 1 = some (Binary32.finite 1) ∧
      Binary32.le Binary32.nan (Binary32.finite 1) = false := by
  refine ⟨?_, by decide, by decide, by decide⟩
  intro x
  cases x <;> simp [Binary32.le]

theorem ofCoordinates_replicate_length_binary32 (n : Nat) (c q : Binary32) :
    (UniqueData.ofCoordinates (List.replicate n c) q).m_motionCoordinates.length = n :=
  List.length_replicate n c

theorem ofCoordinates_mem_binary32 (l : List Binary32) (q c : Binary32)
    (h : c ∈ (UniqueData.ofCoordinates l q).m_motionCoordinates) : c ∈ l := h

theorem sortMotionInstances_sortedMotions_binary32 (d : UniqueData) :
    (SortMotionInstances d).m_sortedMotions =
      AZStd.sort (MotionSortComparer d.m_motionCoordinates)
        (List.range (d.m_motionCoordinates.length % 65536)) := rfl

/-- When the `AZ::u16` count wraps to 0 nothing can be read through the sorted
order. -/
theorem sortedCoordinate?_of_wrap (d : UniqueData)
    (h : d.m_motionCoordinates.length % 65536 = 0) (i : Nat) :
    (SortMotionInstances d).sortedCoordinate? i = none := by
  unfold UniqueData.sortedCoordinate?
  rw [sortMotionInstances_sortedMotions_binary32, h]
  rfl

/-- C1 as stated fails for 65536 coordinates (all 0, none a NaN): the
`AZ::u16` count wraps to 0, `m_sortedMotions` comes out empty, and already at
`i = 1`, inside `0 < i < n`, the reads through `m_sortedMotions` do not
exist. -/
theorem sortMotionInstances_nondecreasing_fails_at_65536 :
    (∀ c ∈ (UniqueData.ofCoordinates (List.replicate 65536 (Binary32.finite 0))
        (Binary32.finite 0)).m_motionCoordinates, c ≠ Binary32.nan) ∧
      0 < 1 ∧
      1 < (UniqueData.ofCoordinates (List.replicate 65536 (Binary32.finite 0))
        (Binary32.finite 0)).m_motionCoordinates.length ∧
      ¬ ∃ x y,
        (SortMotionInstances (UniqueData.ofCoordinates
          (List.replicate 65536 (Binary32.finite 0)) (Binary32.finite 0))).sortedCoordinate?
            (1 - 1) = some x ∧
        (SortMotionInstances (UniqueData.ofCoordinates
          (List.replicate 65536 (Binary32.finite 0)) (Binary32.finite 0))).sortedCoordinate? 1
            = some y ∧ Binary32.le x y = true := by
  have hn := ofCoordinates_replicate_length_binary32 65536 (Binary32.finite 0) (Binary32.finite 0)
  refine ⟨?_, by decide, ?_, ?_⟩
  · intro c hc
    rw [List.eq_of_mem_replicate (ofCoordinates_mem_binary32 _ _ _ hc)]
    simp
  · rw [hn]
    decide
  · rintro ⟨x, y, -, hy, -⟩
    rw [sortedCoordinate?_of_wrap _ (by rw [hn])] at hy
    exact absurd hy (by simp)

/-- C4, the amended statement at the motions 0, 1, 2 with the query 3/2. -/
theorem findLineSegment_none_iff_witness :
    (threeMotions (Binary32.finite (3 / 2))).m_sortedMotions.length < 4294967296 ∧
      (threeMotions (Binary32.finite (3 / 2))).m_currentPosition ≠ Binary32.nan ∧
      ((FindLineSegmentForCurrentPoint (threeMotions (Binary32.finite (3 / 2)))).1 = false ↔
        ((threeMotions (Binary32.finite (3 / 2))).m_sortedMotions.length < 2
          ∨ Binary32.lt (threeMotions (Binary32.finite (3 / 2))).m_currentPosition
              (threeMotions (Binary32.finite (3 / 2))).GetRangeMin = true
          ∨ Binary32.lt (threeMotions (Binary32.finite (3 / 2))).GetRangeMax
              (threeMotions (Binary32.finite (3 / 2))).m_currentPosition = true)) :=
  ⟨by decide, by decide,
    (findLineSegment_none_iff (threeMotions (Binary32.finite (3 / 2))) (by decide)
      (sortMotionInstances_adjacent_binary32 _ (by decide)) (by decide)).1⟩

/-- C4 as stated fails for a NaN query: with the two motions 0 and 1, in
ascending order, none of `n < 2`, `query < min`, `query > max` holds, yet the
scan loop brackets nothing, the trailing failure return is taken, the function
returns `false` and stores the sentinel. -/
theorem findLineSegment_none_iff_fails_at_nan :
    Binary32.le
        ((twoMotions (Binary32.finite 0) (Binary32.finite 1) Binary32.nan).sortedCoordinate 0)
        ((twoMotions (Binary32.finite 0) (Binary32.finite 1) Binary32.nan).sortedCoordinate 1)
        = true ∧
      ¬ (twoMotions (Binary32.finite 0) (Binary32.finite 1) Binary32.nan).m_sortedMotions.length
        < 2 ∧
      Binary32.lt (twoMotions (Binary32.finite 0) (Binary32.finite 1) Binary32.nan).m_currentPosition
        (twoMotions (Binary32.finite 0) (Binary32.finite 1) Binary32.nan).GetRangeMin = false ∧
      Binary32.lt (twoMotions (Binary32.finite 0) (Binary32.finite 1) Binary32.nan).GetRangeMax
        (twoMotions (Binary32.finite 0) (Binary32.finite 1) Binary32.nan).m_currentPosition
          = false ∧
      segmentLoop (twoMotions (Binary32.finite 0) (Binary32.finite 1) Binary32.nan) 1
        ((twoMotions (Binary32.finite 0) (Binary32.finite 1)
          Binary32.nan).m_sortedMotions.length - 1) = none ∧
      (FindLineSegmentForCurrentPoint
        (twoMotions (Binary32.finite 0) (Binary32.finite 1) Binary32.nan)).1 = false ∧
      (FindLineSegmentForCurrentPoint
        (twoMotions (Binary32.finite 0) (Binary32.finite 1)
          Binary32.nan)).2.m_currentSegment.m_segmentIndex = MCORE_INVALIDINDEX32 := by
  refine ⟨by decide, by decide, by decide, by decide, by decide, by decide, by decide⟩

/-- C5, the amended statement at the motions 0, 1, 2 with the query 3/2. -/
theorem findLineSegment_weight_mem_unit_witness :
    (FindLineSegmentForCurrentPoint (threeMotions (Binary32.finite (3 / 2)))).1 = true ∧
      ∃ w : ℚ,
        (FindLineSegmentForCurrentPoint
          (threeMotions (Binary32.finite (3 / 2)))).2.m_currentSegment.m_weightForSegmentEnd =
          Binary32.finite w ∧ 0 ≤ w ∧ w ≤ 1 :=
  ⟨by decide!,
    findLineSegment_weight_mem_unit (threeMotions (Binary32.finite (3 / 2))) (by decide!)
      (fun j _ _ => by
        rcases threeMotions_sortedCoordinate (Binary32.finite (3 / 2)) j with h | h | h <;>
          rw [h] <;> decide!)⟩

/-- C5 as stated fails when the difference overflows: with the motions at
`-2^127` and `2^127` and the query `2^127` a segment is located and its
fraction is `inf / inf`, a NaN. -/
theorem findLineSegment_weight_mem_unit_fails_at_overflow :
    (FindLineSegmentForCurrentPoint
        (twoMotions (Binary32.finite (-(2 ^ 127))) (Binary32.finite (2 ^ 127))
          (Binary32.finite (2 ^ 127)))).1 = true ∧
      (FindLineSegmentForCurrentPoint
        (twoMotions (Binary32.finite (-(2 ^ 127))) (Binary32.finite (2 ^ 127))
          (Binary32.finite (2 ^ 127)))).2.m_currentSegment.m_weightForSegmentEnd =
        Binary32.nan ∧
      (Binary32.finite (-(2 ^ 127))).isValue = true ∧
      (Binary32.finite (2 ^ 127)).isValue = true := by
  refine ⟨by decide!, by decide!, by decide!, by decide!⟩

end SinglePrecision

end EMotionFX

namespace EMotionFX

namespace SinglePrecision

open IEEE

/-- C3, the amended statement at the motions 0, 1, 2 with the query 3/2. -/
theorem updateBlendingInfo_weights_sum_witness :
    (threeMotions (Binary32.finite (3 / 2))).m_motionInfos ≠ [] ∧
      (threeMotions (Binary32.finite (3 / 2))).m_sortedMotions ≠ [] ∧
      ((∀ b ∈ (UpdateBlendingInfoForCurrentPoint byWeightDescending
            (threeMotions (Binary32.finite (3 / 2)))).m_blendInfos,
          b.m_motionIndex ∈ (threeMotions (Binary32.finite (3 / 2))).m_sortedMotions) ∧
        weightSum (UpdateBlendingInfoForCurrentPoint byWeightDescending
            (threeMotions (Binary32.finite (3 / 2)))).m_blendInfos = Binary32.finite 1 ∧
        ∃ ws : List ℚ,
          (UpdateBlendingInfoForCurrentPoint byWeightDescending
            (threeMotions (Binary32.finite (3 / 2)))).m_blendInfos.map BlendInfo.m_weight =
            ws.map Binary32.finite ∧
          |ws.sum - 1| ≤ 1 / 2 ^ 25 ∧
          ((UpdateBlendingInfoForCurrentPoint byWeightDescending
              (threeMotions (Binary32.finite (3 / 2)))).m_currentSegment.m_segmentIndex =
            MCORE_INVALIDINDEX32 → ws = [1])) :=
  ⟨by decide, by decide,
    updateBlendingInfo_weights_sum byWeightDescending (threeMotions (Binary32.finite (3 / 2)))
      (by decide) (by decide)
      (fun j _ _ => by
        rcases threeMotions_sortedCoordinate (Binary32.finite (3 / 2)) j with h | h | h <;>
          rw [h] <;> decide!)⟩

/-- C3 as stated fails when the differences overflow: with the motions at
`-2^127` and `2^127` (a valid sorted permutation) and the query `2^127`, the
segment length and the distance of the query from the segment start are both
`+inf`, the fraction `inf / inf` is a NaN, and both weights are NaNs, which do
not sum to 1. -/
theorem updateBlendingInfo_weights_sum_fails_at_overflow :
    (twoMotions (Binary32.finite (-(2 ^ 127))) (Binary32.finite (2 ^ 127))
        (Binary32.finite (2 ^ 127))).m_motionInfos ≠ [] ∧
      (twoMotions (Binary32.finite (-(2 ^ 127))) (Binary32.finite (2 ^ 127))
        (Binary32.finite (2 ^ 127))).m_sortedMotions = [0, 1] ∧
      (Binary32.finite (-(2 ^ 127))).isValue = true ∧
      (Binary32.finite (2 ^ 127)).isValue = true ∧
      (UpdateBlendingInfoForCurrentPoint byWeightDescending
        (twoMotions (Binary32.finite (-(2 ^ 127))) (Binary32.finite (2 ^ 127))
          (Binary32.finite (2 ^ 127)))).m_blendInfos.map BlendInfo.m_weight =
        [Binary32.nan, Binary32.nan] ∧
      weightSum (UpdateBlendingInfoForCurrentPoint byWeightDescending
        (twoMotions (Binary32.finite (-(2 ^ 127))) (Binary32.finite (2 ^ 127))
          (Binary32.finite (2 ^ 127)))).m_blendInfos = Binary32.nan := by
  refine ⟨by decide, by decide!, by decide!, by decide!, by decide!, by decide!⟩

/-- The exact sum of the two weights of a segment can miss 1: with the motions
at 0 and 1 and the query `2^-30` the fraction is `2^-30`, the float
`1 - 2^-30` rounds to 1, and the weights are 1 and `2^-30`. -/
theorem updateBlendingInfo_weights_rounded :
    (UpdateBlendingInfoForCurrentPoint byWeightDescending
        (twoMotions (Binary32.finite 0) (Binary32.finite 1)
          (Binary32.finite (1 / 2 ^ 30)))).m_blendInfos.map BlendInfo.m_weight =
        [Binary32.finite 1, Binary32.finite (1 / 2 ^ 30)] ∧
      (1 : ℚ) + 1 / 2 ^ 30 ≠ 1 := by
  refine ⟨by decide!, by norm_num⟩

/-- C23, the amended statement at the motions 0 and 13/4 with the query 7/4. -/
theorem updateBlendingInfo_weighted_coordinate_witness :
    (twoMotions (Binary32.finite 0) (Binary32.finite (13 / 4))
        (Binary32.finite (7 / 4))).m_motionInfos ≠ [] ∧
      (UpdateBlendingInfoForCurrentPoint byWeightDescending
        (twoMotions (Binary32.finite 0) (Binary32.finite (13 / 4))
          (Binary32.finite (7 / 4)))).m_currentSegment.m_segmentIndex ≠ MCORE_INVALIDINDEX32 ∧
      ∃ S av bv qv : ℚ,
        (twoMotions (Binary32.finite 0) (Binary32.finite (13 / 4))
            (Binary32.finite (7 / 4))).sortedCoordinate
          (UpdateBlendingInfoForCurrentPoint byWeightDescending
            (twoMotions (Binary32.finite 0) (Binary32.finite (13 / 4))
              (Binary32.finite (7 / 4)))).m_currentSegment.m_segmentIndex = Binary32.finite av ∧
        (twoMotions (Binary32.finite 0) (Binary32.finite (13 / 4))
            (Binary32.finite (7 / 4))).sortedCoordinate
          ((UpdateBlendingInfoForCurrentPoint byWeightDescending
            (twoMotions (Binary32.finite 0) (Binary32.finite (13 / 4))
              (Binary32.finite (7 / 4)))).m_currentSegment.m_segmentIndex + 1) =
            Binary32.finite bv ∧
        (twoMotions (Binary32.finite 0) (Binary32.finite (13 / 4))
          (Binary32.finite (7 / 4))).m_currentPosition = Binary32.finite qv ∧
        av ≤ qv ∧ qv ≤ bv ∧
        weightedCoordinateSum
            (twoMotions (Binary32.finite 0) (Binary32.finite (13 / 4))
              (Binary32.finite (7 / 4))).m_motionCoordinates
            (UpdateBlendingInfoForCurrentPoint byWeightDescending
              (twoMotions (Binary32.finite 0) (Binary32.finite (13 / 4))
                (Binary32.finite (7 / 4)))).m_blendInfos = some S ∧
        |S - qv| ≤ (|av| + 9 * (bv - av)) / 2 ^ 25 ∧ (av = bv → S = qv) :=
  ⟨by decide, by decide!,
    (updateBlendingInfo_weighted_coordinate byWeightDescending
      (twoMotions (Binary32.finite 0) (Binary32.finite (13 / 4)) (Binary32.finite (7 / 4)))
      (by decide) (by decide!) (by decide!)
      (sortMotionInstances_adjacent_binary32 _ (by decide)) (by decide) (by decide!)
      (by decide) (by decide!)
      (fun j _ => by
        rcases twoMotions_sortedCoordinate (Binary32.finite 0) (Binary32.finite (13 / 4))
            (Binary32.finite (7 / 4)) j with h | h | h <;>
          rcases twoMotions_sortedCoordinate (Binary32.finite 0) (Binary32.finite (13 / 4))
            (Binary32.finite (7 / 4)) (j + 1) with h2 | h2 | h2 <;>
          rw [h, h2] <;> decide!)).2 (by decide!)⟩

/-- C23 as stated fails under rounding: with the motions at 0 and 13/4 and the
query 7/4, inside the range, the stored fraction is the float nearest 7/13 and
the weighted coordinate sum is 58720259/33554432, not 7/4. -/
theorem updateBlendingInfo_weighted_coordinate_fails_at_rounding :
    clampToRange
        (twoMotions (Binary32.finite 0) (Binary32.finite (13 / 4))
          (Binary32.finite (7 / 4))).GetRangeMin
        (twoMotions (Binary32.finite 0) (Binary32.finite (13 / 4))
          (Binary32.finite (7 / 4))).GetRangeMax
        (twoMotions (Binary32.finite 0) (Binary32.finite (13 / 4))
          (Binary32.finite (7 / 4))).m_currentPosition = Binary32.finite (7 / 4) ∧
      (UpdateBlendingInfoForCurrentPoint byWeightDescending
        (twoMotions (Binary32.finite 0) (Binary32.finite (13 / 4))
          (Binary32.finite (7 / 4)))).m_currentSegment.m_weightForSegmentEnd =
        Binary32.finite (4516943 / 8388608) ∧
      weightedCoordinateSum
          (twoMotions (Binary32.finite 0) (Binary32.finite (13 / 4))
            (Binary32.finite (7 / 4))).m_motionCoordinates
          (UpdateBlendingInfoForCurrentPoint byWeightDescending
            (twoMotions (Binary32.finite 0) (Binary32.finite (13 / 4))
              (Binary32.finite (7 / 4)))).m_blendInfos = some (58720259 / 33554432) ∧
      (58720259 / 33554432 : ℚ) ≠ 7 / 4 := by
  refine ⟨by decide!, by decide!, by decide!, by norm_num⟩

/-- C28, the amended statement at the motions 0, 1, 2: the default position is
1 and a segment is located. -/
theorem getCurrentSamplePosition_default_witness :
    idleNode.m_interactiveMode = false ∧ unconnectedInstance.m_inputValue = none ∧
      GetCurrentSamplePosition idleNode unconnectedInstance (threeMotions (Binary32.finite 0)) =
        Binary32.finite 1 ∧
      (FindLineSegmentForCurrentPoint
        { threeMotions (Binary32.finite 0) with
          m_currentPosition :=
            GetCurrentSamplePosition idleNode unconnectedInstance
              (threeMotions (Binary32.finite 0)) }).1 = true :=
  ⟨by decide, by decide, by decide!,
    (((getCurrentSamplePosition_default byWeightDescending idleNode unconnectedInstance
      (threeMotions (Binary32.finite 0)) (by decide) (by decide)).2.2 (by decide)
      (sortMotionInstances_adjacent_binary32 _ (by decide)) (by decide!)
      (by decide!)).2.2 (by decide)).1⟩

/-- C28 as stated fails when the sum overflows: with the two motions at `2^127`
and `3 * 2^126`, in ascending order, the float sum of the range ends is
infinite, the default position is `+inf`, above `GetRangeMax`, and no segment
is located. -/
theorem getCurrentSamplePosition_default_fails_at_overflow :
    (twoMotions (Binary32.finite (2 ^ 127)) (Binary32.finite (3 * 2 ^ 126))
        (Binary32.finite 0)).m_sortedMotions.length = 2 ∧
      Binary32.le
        ((twoMotions (Binary32.finite (2 ^ 127)) (Binary32.finite (3 * 2 ^ 126))
          (Binary32.finite 0)).sortedCoordinate 0)
        ((twoMotions (Binary32.finite (2 ^ 127)) (Binary32.finite (3 * 2 ^ 126))
          (Binary32.finite 0)).sortedCoordinate 1) = true ∧
      (Binary32.finite (2 ^ 127)).isValue = true ∧
      (Binary32.finite (3 * 2 ^ 126)).isValue = true ∧
      GetCurrentSamplePosition idleNode unconnectedInstance
        (twoMotions (Binary32.finite (2 ^ 127)) (Binary32.finite (3 * 2 ^ 126))
          (Binary32.finite 0)) = Binary32.posInf ∧
      Binary32.le
        (GetCurrentSamplePosition idleNode unconnectedInstance
          (twoMotions (Binary32.finite (2 ^ 127)) (Binary32.finite (3 * 2 ^ 126))
            (Binary32.finite 0)))
        (twoMotions (Binary32.finite (2 ^ 127)) (Binary32.finite (3 * 2 ^ 126))
          (Binary32.finite 0)).GetRangeMax = false ∧
      (FindLineSegmentForCurrentPoint
        { twoMotions (Binary32.finite (2 ^ 127)) (Binary32.finite (3 * 2 ^ 126))
            (Binary32.finite 0) with
          m_currentPosition :=
            GetCurrentSamplePosition idleNode unconnectedInstance
              (twoMotions (Binary32.finite (2 ^ 127)) (Binary32.finite (3 * 2 ^ 126))
                (Binary32.finite 0)) }).1 = false := by
  refine ⟨by decide!, by decide!, by decide!, by decide!, by decide!, by decide!, by decide!⟩

/-- The boundary entry in single precision, for every query, a NaN or an
infinity included: when `UpdateBlendingInfoForCurrentPoint` leaves no segment,
there is at least one motion info and `m_sortedMotions` is not empty, then
`m_blendInfos` is exactly one entry of weight `1.0f`, for
`m_sortedMotions.front()` when the float comparison `query < GetRangeMin`
holds and for `m_sortedMotions.back()` otherwise. -/
theorem updateBlendingInfo_boundary_entry_binary32
    (blendInfoLess : BlendInfo → BlendInfo → Bool) (d : UniqueData)
    (hnone : (UpdateBlendingInfoForCurrentPoint blendInfoLess
      d).m_currentSegment.m_segmentIndex = MCORE_INVALIDINDEX32)
    (hmotions : d.m_motionInfos ≠ []) (hsorted : d.m_sortedMotions ≠ []) :
    ∃ front back,
      d.m_sortedMotions.head? = some front ∧ d.m_sortedMotions.getLast? = some back ∧
      (UpdateBlendingInfoForCurrentPoint blendInfoLess d).m_blendInfos =
        [ { m_motionIndex :=
              if Binary32.lt d.m_currentPosition d.GetRangeMin = true then front else back
            m_weight := Binary32.finite 1 } ] := by
  rcases updateBlendingInfo_cases_binary32 blendInfoLess d with
    ⟨seg, -, -, hne, hseg, -⟩ | ⟨-, -, hb⟩
  · rw [hseg] at hnone
    exact absurd hnone hne
  · refine ⟨d.m_sortedMotions.headD 0, d.m_sortedMotions.getLastD 0, ?_, ?_, ?_⟩
    · cases hs : d.m_sortedMotions with
      | nil => exact absurd hs hsorted
      | cons a t => rfl
    · cases hs : d.m_sortedMotions with
      | nil => exact absurd hs hsorted
      | cons a t =>
        rw [List.getLastD_eq_getLast?]
        cases hl : (a :: t).getLast? with
        | none => simp at hl
        | some b => rfl
    · rw [hb, if_neg hmotions]
      rfl

/-- The boundary entry for a NaN query: with the motions 0, 1, 2 no segment is
located and the single entry is the last motion of the sorted order. -/
theorem updateBlendingInfo_boundary_entry_at_nan :
    (UpdateBlendingInfoForCurrentPoint byWeightDescending
        (threeMotions Binary32.nan)).m_currentSegment.m_segmentIndex = MCORE_INVALIDINDEX32 ∧
      (UpdateBlendingInfoForCurrentPoint byWeightDescending
        (threeMotions Binary32.nan)).m_blendInfos =
        [ { m_motionIndex := 2, m_weight := Binary32.finite 1 } ] := by
  refine ⟨by decide, by decide⟩

end SinglePrecision

end EMotionFX
